import Mathlib

/-!
FbxReader: loading FBX subjects into one rig (`src/command/FbxReader.cpp`).

A shallow embedding of `FbxSceneImporter::load`, `FbxSceneImporter::travel` and `readFBXs`.

Conventions of the embedding.
* `double` is the field `ℚ` (exact arithmetic); `int` indices are `Int`, sizes are `Nat`.
* The FBX SDK is not part of the repository. A scene is the data the reader asks the SDK for:
  the node tree, the first mesh and the first skin of that mesh.
* An `FbxNode*` is a position in the node tree (`FbxNodePtr`); two pointers are equal when
  their positions are equal.
* A coefficient of an Eigen matrix that has not been written since the storage was allocated
  is `none`.
* A call whose behaviour C++ or Eigen does not define (an index outside the storage, a block
  assignment between different sizes, a null dereference) ends the run with `Status.undef`.
-/

namespace DemBones

/-! ## Results of a call -/

/-- How a `bool`-returning call of the reader ends: `ok` is `return true`, `err msg` is the
`err(msg)` form (the message is logged, then `return false`), `fail` is a bare
`return false`, `undef` is behaviour the language does not define. -/
inductive Status where
  | ok
  | err (msg : String)
  | fail
  | undef
deriving DecidableEq, Repr

/-- An `int` printed by `operator<<`. -/
def showNat (n : Nat) : String := toString n

/-! ## Name-keyed tables (`std::map<string, T>`) -/

/-- A `std::map<string, T>`: its entries, one per key. -/
abbrev StrMap (α : Type) := List (String × α)

/-- `map.find(k)`: the value stored under `k`, `none` for `map.end()`. -/
def StrMap.find {α : Type} : StrMap α → String → Option α
  | [], _ => none
  | (k', v) :: rest, k => if k' = k then some v else StrMap.find rest k

/-- `map[k] = v`: overwrite the entry of `k`, or add one. -/
def StrMap.set {α : Type} : StrMap α → String → α → StrMap α
  | [], k, v => [(k, v)]
  | (k', v') :: rest, k, v =>
    if k' = k then (k', v) :: rest else (k', v') :: StrMap.set rest k v

/-- The entry `map[k]` leaves behind when it is read: a key that was absent is inserted
with the value-initialised `dflt`. -/
def StrMap.touch {α : Type} (m : StrMap α) (k : String) (dflt : α) : StrMap α :=
  match m.find k with
  | some _ => m
  | none => m.set k dflt

/-- `map.size()`. -/
def StrMap.size {α : Type} (m : StrMap α) : Nat := m.length

/-! ## Eigen storage -/

/-- A `Matrix4d`. -/
abbrev Matrix4d := Matrix (Fin 4) (Fin 4) ℚ

/-- `A.squaredNorm()`: the sum of the squares of the coefficients. -/
def squaredNorm (A : Matrix4d) : ℚ := ∑ i, ∑ j, A i j ^ 2

/-- `A.inverse()` over exact arithmetic: the adjugate divided by the determinant. -/
def inverse4 (A : Matrix4d) : Matrix4d := (A.det)⁻¹ • A.adjugate

/-- A dynamically sized Eigen matrix: its size and its coefficients. Only the coefficients
with `i < rows` and `j < cols` are part of the storage. -/
structure DenseMat (α : Type) where
  rows : Nat
  cols : Nat
  coeff : Nat → Nat → α

/-- `M.resize(r, c)` of a dynamic matrix: a no-op when the size is already `r × c`; the
column-major buffer is kept and re-read with the new shape when only the shape changes; and
the storage is reallocated, every coefficient unwritten, when the number of coefficients
changes. -/
def DenseMat.resize {α : Type} (M : DenseMat (Option α)) (r c : Nat) : DenseMat (Option α) :=
  if M.rows = r ∧ M.cols = c then M
  else if M.rows * M.cols = r * c then
    ⟨r, c, fun i j => M.coeff ((i + j * r) % M.rows) ((i + j * r) / M.rows)⟩
  else ⟨r, c, fun _ _ => none⟩

/-- `M.block(r0, c0, h, w) = src` where `src` has `srcRows × srcCols` coefficients: `none`
when the block leaves the storage or the sizes differ (Eigen does not define the
assignment). -/
def DenseMat.setBlock {α : Type} (M : DenseMat (Option α)) (r0 c0 h w : Nat)
    (srcRows srcCols : Nat) (src : Nat → Nat → Option α) : Option (DenseMat (Option α)) :=
  if r0 + h ≤ M.rows ∧ c0 + w ≤ M.cols ∧ srcRows = h ∧ srcCols = w then
    some ⟨M.rows, M.cols, fun i j =>
      if r0 ≤ i ∧ i < r0 + h ∧ c0 ≤ j ∧ j < c0 + w then src (i - r0) (j - c0)
      else M.coeff i j⟩
  else none

/-- A `VectorXi`: its size and coefficients. -/
structure DenseVec (α : Type) where
  size : Nat
  coeff : Nat → α

/-- `v.resize(n)`: a no-op for the same size, a fresh unwritten storage otherwise. -/
def DenseVec.resize {α : Type} (v : DenseVec (Option α)) (n : Nat) : DenseVec (Option α) :=
  if v.size = n then v else ⟨n, fun _ => none⟩

/-- `v(j) = x`; `none` when `j` is outside the storage. -/
def DenseVec.setAt {α : Type} (v : DenseVec (Option α)) (j : Nat) (x : α) :
    Option (DenseVec (Option α)) :=
  if j < v.size then some ⟨v.size, fun i => if i = j then some x else v.coeff i⟩ else none

/-! ## The scene, as the FBX SDK presents it -/

/-- The type of a node attribute (`FbxNodeAttribute::EType`), as far as the reader looks. -/
inductive FbxAttrType where
  | eUnknown
  | eNull
  | eMarker
  | eSkeleton
  | eMesh
deriving DecidableEq, Repr

/-- The rotation orders of the SDK (`EFbxRotationOrder`). -/
inductive EFbxRotationOrder where
  | eEulerXYZ
  | eEulerXZY
  | eEulerYZX
  | eEulerYXZ
  | eEulerZXY
  | eEulerZYX
  | eSphericXYZ
deriving DecidableEq, Repr

/-- A node of the scene tree: name, attribute types, rotation order, whether `LclRotation`
and `LclTranslation` have a curve node, the global-transform evaluator
(`EvaluateGlobalTransform()` is the value at `none`, `EvaluateGlobalTransform(t)` the value
at `some t`) and the children in child-index order. -/
inductive FbxNode where
  | mk (name : String) (attributes : List FbxAttrType) (rotationOrder : EFbxRotationOrder)
      (rotationCurve translationCurve : Bool) (globalTransform : Option ℚ → Matrix4d)
      (children : List FbxNode)

namespace FbxNode

/-- `GetName()`. -/
def name : FbxNode → String
  | mk n _ _ _ _ _ _ => n

/-- The attribute types, in attribute-index order. -/
def attributes : FbxNode → List FbxAttrType
  | mk _ a _ _ _ _ _ => a

/-- `GetRotationOrder(FbxNode::eSourcePivot, _)`. -/
def rotationOrder : FbxNode → EFbxRotationOrder
  | mk _ _ r _ _ _ _ => r

/-- `LclRotation.GetCurveNode() != NULL`. -/
def rotationCurve : FbxNode → Bool
  | mk _ _ _ c _ _ _ => c

/-- `LclTranslation.GetCurveNode() != NULL`. -/
def translationCurve : FbxNode → Bool
  | mk _ _ _ _ c _ _ => c

/-- `EvaluateGlobalTransform(...)`. -/
def globalTransform : FbxNode → Option ℚ → Matrix4d
  | mk _ _ _ _ _ g _ => g

/-- The children, `GetChild(0)`, `GetChild(1)`, ... -/
def children : FbxNode → List FbxNode
  | mk _ _ _ _ _ _ c => c

/-- The node carries an attribute of type `eSkeleton`. -/
def isSkeleton (n : FbxNode) : Bool := n.attributes.contains FbxAttrType.eSkeleton

end FbxNode

/-- An `FbxNode*` that is not null: the position of the node (the child indices on the way
from the root), the node there, and the pointer `GetParent()` returns. -/
inductive FbxNodePtr where
  | mk (path : List Nat) (node : FbxNode) (parent : Option FbxNodePtr)

namespace FbxNodePtr

/-- The position the pointer designates. -/
def path : FbxNodePtr → List Nat
  | mk p _ _ => p

/-- The node the pointer designates. -/
def node : FbxNodePtr → FbxNode
  | mk _ n _ => n

/-- `GetParent()`: `none` is `NULL`. -/
def parent : FbxNodePtr → Option FbxNodePtr
  | mk _ _ p => p

end FbxNodePtr

/-- Equality of two possibly null node pointers. -/
def samePtr (a b : Option FbxNodePtr) : Bool :=
  match a, b with
  | none, none => true
  | some x, some y => decide (x.path = y.path)
  | _, _ => false

/-- One cluster of a skin: the name of its link node, its control-point indices paired with
their weights, and its transform matrix (`GetTransformMatrix`). -/
structure FbxCluster where
  linkName : String
  influences : List (Int × ℚ)
  transformMatrix : Matrix4d

/-- The mesh: control points, polygons (each the list of its vertex indices) and the global
transform of the node that carries the mesh. -/
structure FbxMesh where
  controlPoints : List (Fin 3 → ℚ)
  polygons : List (List Int)
  nodeGlobal : Matrix4d

/-- An opened scene: the root node, `firstMesh(root)` and `firstSkin(mesh)`. -/
structure FbxScene where
  root : FbxNode
  mesh : Option FbxMesh
  skin : Option (List FbxCluster)

/-! ## `FbxSceneImporter` -/

/-- The private `JointNode` of the importer: a joint and its nearest joint ancestor. -/
structure JointNode where
  pNode : FbxNodePtr
  pParentJoint : Option FbxNodePtr

/-- The name of the joint, `pNode->GetName()`. -/
def JointNode.name (x : JointNode) : String := x.pNode.node.name

/-- The name recorded as parent: `""` when `pParentJoint` is `NULL`. -/
def JointNode.parentName (x : JointNode) : String :=
  match x.pParentJoint with
  | none => ""
  | some p => p.node.name

mutual
/-- `FbxSceneImporter::travel`, called on the node `node` found at `path` whose parent
pointer is `up`: when the node has a skeleton attribute it is pushed onto `jn` with the
current `pParentJoint` and becomes the `pParentJoint` of its subtree; then the children are
travelled in index order. -/
def travel (node : FbxNode) (path : List Nat) (up : Option FbxNodePtr)
    (pParentJoint : Option FbxNodePtr) (jn : List JointNode) : List JointNode :=
  match node with
  | FbxNode.mk n a r rc tc g cs =>
    if a.contains FbxAttrType.eSkeleton then
      travelChildren cs (FbxNodePtr.mk path (FbxNode.mk n a r rc tc g cs) up) 0
        (some (FbxNodePtr.mk path (FbxNode.mk n a r rc tc g cs) up))
        (jn ++ [⟨FbxNodePtr.mk path (FbxNode.mk n a r rc tc g cs) up, pParentJoint⟩])
    else
      travelChildren cs (FbxNodePtr.mk path (FbxNode.mk n a r rc tc g cs) up) 0
        pParentJoint jn
/-- The loop `for (j = ...; j < GetChildCount(); j++) travel(GetChild(j), pParentJoint, jn)`
of the node `self`, from child index `j` on. -/
def travelChildren (cs : List FbxNode) (self : FbxNodePtr) (j : Nat)
    (pParentJoint : Option FbxNodePtr) (jn : List JointNode) : List JointNode :=
  match cs with
  | [] => jn
  | c :: rest =>
    travelChildren rest self (j + 1) pParentJoint
      (travel c (self.path ++ [j]) (some self) pParentJoint jn)
end

/-- The tables of an `FbxSceneImporter`. -/
structure FbxSceneImporter where
  v : List (Fin 3 → ℚ)
  fv : List (List Int)
  jointName : List String
  parent : StrMap String
  wT : StrMap (List ℚ)
  bind : StrMap Matrix4d
  preMulInv : StrMap Matrix4d
  rotOrder : StrMap (Option (Int × Int × Int))
  m : StrMap (List Matrix4d)
  hasKeyFrame : Bool

/-- A freshly constructed importer. -/
def FbxSceneImporter.fresh : FbxSceneImporter :=
  ⟨[], [], [], [], [], [], [], [], [], false⟩

/-- The loop over the `nj` influences of one cluster (lines 88-91), on the weight vector `w`
of a mesh with `nV` control points: `if (idx[k]>nV) return false;` then the write
`wT[name](idx[k])=val[k]`, which leaves the storage when `idx[k]` is negative or is `nV`. -/
def readInfluences (nV : Nat) : List (Int × ℚ) → List ℚ → Except Status (List ℚ)
  | [], w => Except.ok w
  | (i, x) :: rest, w =>
    if i > (nV : Int) then Except.error Status.fail
    else if 0 ≤ i ∧ i < (nV : Int) then readInfluences nV rest (w.set i.toNat x)
    else Except.error Status.undef

/-- The loop over the clusters (lines 80-92): `wT[jointName[j]]` is set to zero and filled
from the cluster's influences. -/
def loadWeights (nV : Nat) : List FbxCluster → StrMap (List ℚ) →
    Except Status (StrMap (List ℚ))
  | [], wT => Except.ok wT
  | c :: rest, wT =>
    match readInfluences nV c.influences (List.replicate nV 0) with
    | Except.ok w => loadWeights nV rest (wT.set c.linkName w)
    | Except.error e => Except.error e

/-- The tolerance `1e-10` of the bind-pose comparison. -/
def bindTolerance : ℚ := 1 / 10 ^ 10

/-- The loop of lines 94-99: cluster `j-1` is compared with cluster `j`; `false` when some
such pair differs by a squared norm above `1e-10`. -/
def bindPosesAgree : List FbxCluster → Bool
  | c1 :: c2 :: rest =>
    if squaredNorm (c1.transformMatrix - c2.transformMatrix) > bindTolerance then false
    else bindPosesAgree (c2 :: rest)
  | _ => true

/-- What the skin block (lines 69-101) leaves: `nB`, the joint names, the weights and
`gMat`. -/
structure SkinData where
  nB : Nat
  jointName : List String
  wT : StrMap (List ℚ)
  gMat : Matrix4d

/-- Lines 69-101. Without a skin `nB` stays 0 and `gMat` is the mesh node transform. With a
skin the joints are the cluster links in cluster order; `GetCluster(0)` of a skin without
clusters is null and is dereferenced. -/
def loadSkin (nV : Nat) (skin : Option (List FbxCluster)) (gMat : Matrix4d) :
    Except Status SkinData :=
  match skin with
  | none => Except.ok ⟨0, [], [], gMat⟩
  | some clusters =>
    match loadWeights nV clusters [] with
    | Except.error e => Except.error e
    | Except.ok wT =>
      if bindPosesAgree clusters = false then Except.error (Status.err "Multiple bind poses.\n")
      else
        match clusters with
        | [] => Except.error Status.undef
        | c :: _ =>
          Except.ok ⟨clusters.length, clusters.map (fun x => x.linkName), wT,
            c.transformMatrix⟩

/-- Line 104: a control point `p` becomes the first three rows of `gm * (p, 1)`. -/
def transformPoint (gm : Matrix4d) (p : Fin 3 → ℚ) : Fin 3 → ℚ :=
  fun i => gm (Fin.castSucc i) 0 * p 0 + gm (Fin.castSucc i) 1 * p 1
    + gm (Fin.castSucc i) 2 * p 2 + gm (Fin.castSucc i) 3

/-- The `switch` of lines 129-136: the value written into `rotOrder[name]`, `none` when no
case applies and nothing is written. -/
def rotOrderCode : EFbxRotationOrder → Option (Int × Int × Int)
  | EFbxRotationOrder.eEulerXYZ => some (0, 1, 2)
  | EFbxRotationOrder.eEulerXZY => some (0, 2, 1)
  | EFbxRotationOrder.eEulerYZX => some (1, 2, 0)
  | EFbxRotationOrder.eEulerYXZ => some (1, 0, 2)
  | EFbxRotationOrder.eEulerZXY => some (2, 0, 1)
  | EFbxRotationOrder.eEulerZYX => some (2, 1, 0)
  | EFbxRotationOrder.eSphericXYZ => none

/-- Lines 138-144: the matrix written into `preMulInv[name]`. -/
def preMulInvOf (x : JointNode) : Except Status Matrix4d :=
  if samePtr x.pNode.parent x.pParentJoint then Except.ok 1
  else
    match x.pNode.parent with
    | none => Except.error Status.undef
    | some p =>
      match x.pParentJoint with
      | none => Except.ok (inverse4 (p.node.globalTransform none))
      | some q =>
        Except.ok (inverse4 (p.node.globalTransform none) * q.node.globalTransform none)

/-- The loop of lines 122-145 over the travelled joints. -/
def loadJoints : List JointNode → FbxSceneImporter → Except Status FbxSceneImporter
  | [], imp => Except.ok imp
  | x :: rest, imp =>
    match preMulInvOf x with
    | Except.error e => Except.error e
    | Except.ok pm =>
      loadJoints rest
        { imp with
          parent := imp.parent.set x.name x.parentName
          bind := imp.bind.set x.name (x.pNode.node.globalTransform none)
          rotOrder :=
            match rotOrderCode x.pNode.node.rotationOrder with
            | some code => imp.rotOrder.set x.name (some code)
            | none => imp.rotOrder
          preMulInv := imp.preMulInv.set x.name pm }

/-- Lines 151-156 for one joint: the block of frame `k` is the global transform at
`fTime(k)` times the inverse of `bind[name]`. -/
def sampleJoint (node : FbxNode) (bind : Matrix4d) (fTime : List ℚ) : List Matrix4d :=
  fTime.map (fun t => node.globalTransform (some t) * inverse4 bind)

/-- The loop of lines 148-157 over the travelled joints. -/
def sampleJoints (fTime : List ℚ) : List JointNode → FbxSceneImporter →
    Except Status FbxSceneImporter
  | [], imp => Except.ok imp
  | x :: rest, imp =>
    match imp.bind.find x.name with
    | none => Except.error Status.undef
    | some b =>
      sampleJoints fTime rest
        { imp with
          hasKeyFrame :=
            imp.hasKeyFrame || (x.pNode.node.rotationCurve || x.pNode.node.translationCurve)
          m := imp.m.set x.name (sampleJoint x.pNode.node b fTime) }

/-- The message of line 113. -/
def jointCountMessage (nJoints nB : Nat) : String :=
  "Scene has more joints than skinCluster has: " ++ showNat nJoints ++ "/" ++ showNat nB
    ++ ".\n"

/-- `FbxSceneImporter::load(fTime)` on the opened `scene`, from the importer state `imp`
left by earlier calls. The tables are cleared first, `rotOrder` excepted (lines 60-66). -/
def load (imp : FbxSceneImporter) (scene : FbxScene) (fTime : List ℚ) :
    Except Status FbxSceneImporter :=
  match scene.mesh with
  | none => Except.error (Status.err "Scene has no mesh.\n")
  | some mesh =>
    match loadSkin mesh.controlPoints.length scene.skin mesh.nodeGlobal with
    | Except.error e => Except.error e
    | Except.ok sk =>
      if sk.nB = 0 ∧ (travel scene.root [] none none []).length = 0 then
        Except.ok ⟨mesh.controlPoints.map (transformPoint sk.gMat), mesh.polygons,
          sk.jointName, [], sk.wT, [], [], imp.rotOrder, [], false⟩
      else if sk.nB ≠ 0 ∧ (travel scene.root [] none none []).length ≠ sk.nB then
        Except.error
          (Status.err (jointCountMessage (travel scene.root [] none none []).length sk.nB))
      else
        match loadJoints (travel scene.root [] none none [])
            ⟨mesh.controlPoints.map (transformPoint sk.gMat), mesh.polygons,
              if sk.nB = 0 then (travel scene.root [] none none []).map JointNode.name
              else sk.jointName,
              [], sk.wT, [], [], imp.rotOrder, [], false⟩ with
        | Except.error e => Except.error e
        | Except.ok imp1 => sampleJoints fTime (travel scene.root [] none none []) imp1

/-! ## The aggregate (`DemBonesExt`) and `readFBXs` -/

/-- The fields of `DemBonesExt<double, float>` the reader uses. `nS`, `nV`, `nF`, `fStart`
and `fTime` are set before `readFBXs` is called. -/
structure DemBonesExt where
  nS : Nat
  nV : Nat
  nF : Nat
  nB : Nat
  fStart : List Int
  fTime : List ℚ
  u : DenseMat (Option ℚ)
  fv : List (List Int)
  boneName : List String
  parent : DenseVec (Option Int)
  bind : DenseMat (Option ℚ)
  preMulInv : DenseMat (Option ℚ)
  rotOrder : DenseMat (Option Int)
  m : DenseMat (Option ℚ)
  w : DenseMat ℚ

/-- The coefficients of a `Matrix4d` read from a table; `none` stands for the
default-constructed matrix `map[k]` yields for an absent key, whose coefficients are
indeterminate. -/
def mat4Src (M : Option Matrix4d) (i j : Nat) : Option ℚ :=
  match M with
  | none => none
  | some A => if h : i < 4 ∧ j < 4 then some (A ⟨i, h.1⟩ ⟨j, h.2⟩) else none

/-- The coefficients of a `Vector3i` read from a table; `none` as in `mat4Src`. -/
def vec3Src (c : Option (Int × Int × Int)) (i : Nat) (_j : Nat) : Option Int :=
  match c with
  | none => none
  | some (a, b, d) => if i = 0 then some a else if i = 1 then some b else
      if i = 2 then some d else none

/-- Modelled from the spec: the macro `blk4` of `DemBones/MatBlocks.h`, which is not among
the sources; `M.blk4(k, j) = A` writes slot `(k, j)`, the 4x4 block at row `4k`, column
`4j`. -/
def setBlk4 (M : DenseMat (Option ℚ)) (k j : Nat) (A : Option Matrix4d) :
    Option (DenseMat (Option ℚ)) :=
  M.setBlock (k * 4) (j * 4) 4 4 4 4 (mat4Src A)

/-- Modelled from the spec: the macro `vec3` of `DemBones/MatBlocks.h`, which is not among
the sources; `M.vec3(k, j) = c` writes slot `(k, j)`, the 3x1 block at row `3k`,
column `j`. -/
def setVec3 (M : DenseMat (Option Int)) (k j : Nat) (c : Option (Int × Int × Int)) :
    Option (DenseMat (Option Int)) :=
  M.setBlock (k * 3) j 3 1 3 1 (vec3Src c)

/-- The value of `importer.parent[nj]`: `""` for an absent key. -/
def parentNameOf (imp : FbxSceneImporter) (nj : String) : String :=
  (imp.parent.find nj).getD ""

/-- Lines 219-221 for one joint: `parent(j)` starts at `-1` and is overwritten by every `k`
whose bone name is `pName`, for `k` from the index given on. -/
def findParent : List String → Nat → String → Int → Int
  | [], _, _, p => p
  | b :: rest, k, pName, p => findParent rest (k + 1) pName (if b = pName then (k : Int) else p)

/-- The loop of lines 216-226 from joint `j` on, `names` being the bone names from `j` on.
Reading `importer.rotOrder[nj]` inserts an absent key (the only table of the importer that
the next `load` does not clear); `none` when a write leaves the storage. -/
def initJoints (s : Nat) (imp : FbxSceneImporter) : List String → Nat →
    DemBonesExt × StrMap (Option (Int × Int × Int)) →
    Option (DemBonesExt × StrMap (Option (Int × Int × Int)))
  | [], _, acc => some acc
  | nj :: names, j, (model, ro) =>
    match model.parent.setAt j (findParent model.boneName 0 (parentNameOf imp nj) (-1)) with
    | none => none
    | some par =>
      match setBlk4 model.bind s j (imp.bind.find nj) with
      | none => none
      | some bd =>
        match setBlk4 model.preMulInv s j (imp.preMulInv.find nj) with
        | none => none
        | some pm =>
          match setVec3 model.rotOrder s j ((ro.find nj).getD none) with
          | none => none
          | some rt =>
            initJoints s imp names (j + 1)
              ({ model with parent := par, bind := bd, preMulInv := pm, rotOrder := rt },
                ro.touch nj none)

/-- `MatrixXd::Zero(r, c)`. -/
def zeroMat (r c : Nat) : DenseMat ℚ := ⟨r, c, fun _ _ => 0⟩

/-- `wd.row(j) = x.transpose()`; `none` when `j` is not a row or the sizes differ. -/
def setRow (wd : DenseMat ℚ) (j : Nat) (x : List ℚ) : Option (DenseMat ℚ) :=
  if j < wd.rows ∧ x.length = wd.cols then
    some ⟨wd.rows, wd.cols, fun i c => if i = j then x.getD c 0 else wd.coeff i c⟩
  else none

/-- `wd.col(j) += x`; `none` when `j` is not a column or the sizes differ. -/
def addCol (wd : DenseMat ℚ) (j : Nat) (x : List ℚ) : Option (DenseMat ℚ) :=
  if j < wd.cols ∧ x.length = wd.rows then
    some ⟨wd.rows, wd.cols, fun i c => if c = j then wd.coeff i c + x.getD i 0 else wd.coeff i c⟩
  else none

/-- The value of `importer.wT[name]`: an empty vector for an absent key. -/
def weightsOf (imp : FbxSceneImporter) (name : String) : List ℚ :=
  (imp.wT.find name).getD []

/-- The loop of line 230 from joint `j` on. -/
def initWeights (imp : FbxSceneImporter) : List String → Nat → DenseMat ℚ →
    Option (DenseMat ℚ)
  | [], _, wd => some wd
  | nj :: names, j, wd =>
    match setRow wd j (weightsOf imp nj) with
    | none => none
    | some wd1 => initWeights imp names (j + 1) wd1

/-- The loop of line 263 from joint `j` on. -/
def mergeWeights (imp : FbxSceneImporter) : List String → Nat → DenseMat ℚ →
    Option (DenseMat ℚ)
  | [], _, wd => some wd
  | nj :: names, j, wd =>
    match addCol wd j (weightsOf imp nj) with
    | none => none
    | some wd1 => mergeWeights imp names (j + 1) wd1

/-- Line 251: the parent name the aggregate holds for joint `j`, `""` when `parent(j)` is
`-1` and `boneName[parent(j)]` otherwise; `none` when a read leaves the storage or reads an
unwritten coefficient. -/
def aggregateParentName (model : DemBonesExt) (j : Nat) : Option String :=
  if j < model.parent.size then
    match model.parent.coeff j with
    | none => none
    | some p => if p = -1 then some "" else if 0 ≤ p then model.boneName[p.toNat]? else none
  else none

/-- The loop of lines 247-260 from joint `j` on, `names` being the bone names from `j` on:
the status it ends with (`ok` when it runs to the end) and the aggregate at that point. -/
def mergeJoints (s : Nat) (imp : FbxSceneImporter) : List String → Nat → DemBonesExt →
    Status × DemBonesExt
  | [], _, model => (Status.ok, model)
  | nj :: names, j, model =>
    match imp.parent.find nj with
    | none => (Status.err "Inconsistent joints set.\n", model)
    | some pn =>
      match aggregateParentName model j with
      | none => (Status.undef, model)
      | some pName =>
        if pn ≠ pName then (Status.err "Inconsistent skeleton hierarchy.\n", model)
        else
          match imp.bind.find nj with
          | none => (Status.err "Inconsistent joints set.\n", model)
          | some b =>
            match setBlk4 model.bind s j (some b) with
            | none => (Status.undef, model)
            | some bd =>
              match imp.preMulInv.find nj with
              | none => (Status.err "Inconsistent joints set.\n", { model with bind := bd })
              | some p =>
                match setBlk4 model.preMulInv s j (some p) with
                | none => (Status.undef, model)
                | some pm =>
                  match imp.rotOrder.find nj with
                  | none =>
                    (Status.err "Inconsistent joints set.\n",
                      { model with bind := bd, preMulInv := pm })
                  | some code =>
                    match setVec3 model.rotOrder s j code with
                    | none => (Status.undef, model)
                    | some rt =>
                      mergeJoints s imp names (j + 1)
                        { model with bind := bd, preMulInv := pm, rotOrder := rt }

/-- The coefficients of a series `importer.m[name]`, frame after frame, 4 rows each. -/
def seriesSrc (frames : List Matrix4d) (i c : Nat) : Option ℚ :=
  match frames[i / 4]? with
  | none => none
  | some A =>
    if h : c < 4 then some (A ⟨i % 4, Nat.mod_lt i (by decide)⟩ ⟨c, h⟩) else none

/-- The loop of line 266 from joint `j` on: `m.block(s*4, j*4, nFr*4, 4)` is assigned
`importer.m[boneName[j]]`, which is an empty 0x0 matrix for an absent key. -/
def writeSeries (s nFr : Nat) (imp : FbxSceneImporter) : List String → Nat →
    DenseMat (Option ℚ) → Option (DenseMat (Option ℚ))
  | [], _, M => some M
  | nj :: names, j, M =>
    match imp.m.find nj with
    | none =>
      match M.setBlock (s * 4) (j * 4) (nFr * 4) 4 0 0 (fun _ _ => none) with
      | none => none
      | some M1 => writeSeries s nFr imp names (j + 1) M1
    | some frames =>
      match M.setBlock (s * 4) (j * 4) (nFr * 4) 4 (4 * frames.length) 4 (seriesSrc frames) with
      | none => none
      | some M1 => writeSeries s nFr imp names (j + 1) M1

/-- Lines 198-199: the first frame of subject `s` and the frames after its last, read from
`fStart(s)` and `fStart(s+1)`; `none` when an index leaves `fStart` or the segment
`fTime.segment(fStart(s), nFr)` leaves `fTime`. -/
def frameRange (model : DemBonesExt) (s : Nat) : Option (Nat × Nat) :=
  match model.fStart[s]?, model.fStart[s + 1]? with
  | some a, some b =>
    if 0 ≤ a ∧ a ≤ b ∧ b ≤ (model.fTime.length : Int) then some (a.toNat, b.toNat) else none
  | _, _ => none

/-- The segment `fTime.segment(a, b - a)`. -/
def segment (fTime : List ℚ) (a b : Nat) : List ℚ := (fTime.drop a).take (b - a)

/-- The state carried by the loop of `readFBXs`: the aggregate, the importer, the weight
accumulator `wd` and the flag `hasKeyFrame`. -/
structure ReadState where
  model : DemBonesExt
  importer : FbxSceneImporter
  wd : DenseMat ℚ
  hasKeyFrame : Bool

/-- The outcome of one pass of the loop: go on with the next subject, or return. -/
inductive Step where
  | next (st : ReadState)
  | stop (ret : Status) (model : DemBonesExt)

/-- Lines 266-267, the end of every pass. -/
def finishSubject (s nFr : Nat) (model : DemBonesExt) (imp : FbxSceneImporter)
    (wd : DenseMat ℚ) (hasKeyFrame : Bool) : Step :=
  match writeSeries s nFr imp model.boneName 0 model.m with
  | none => Step.stop Status.undef model
  | some M => Step.next ⟨{ model with m := M }, imp, wd, hasKeyFrame || imp.hasKeyFrame⟩

/-- Lines 202-233, the branch `s == 0`, after `load`. -/
def initSubject (s nFr : Nat) (model : DemBonesExt) (imp : FbxSceneImporter)
    (wd : DenseMat ℚ) (hasKeyFrame : Bool) : Step :=
  if imp.v.length ≠ model.nV then Step.stop (Status.err "Inconsistent geometry.\n") model
  else
    match (model.u.resize (model.nS * 3) model.nV).setBlock 0 0 3 model.nV 3 imp.v.length
        (fun i c => if h : i < 3 then (imp.v[c]?).map (fun p => p ⟨i, h⟩) else none) with
    | none => Step.stop Status.undef model
    | some u1 =>
      match initJoints s imp imp.jointName 0
          ({ model with
              u := u1
              fv := imp.fv
              nB := imp.jointName.length
              boneName := imp.jointName
              parent := model.parent.resize imp.jointName.length
              bind := model.bind.resize (model.nS * 4) (imp.jointName.length * 4)
              preMulInv := model.preMulInv.resize (model.nS * 4) (imp.jointName.length * 4)
              rotOrder := model.rotOrder.resize (model.nS * 3) imp.jointName.length },
            imp.rotOrder) with
      | none => Step.stop Status.undef model
      | some (model1, ro) =>
        match (if imp.wT.size ≠ 0 then
            initWeights imp model1.boneName 0 (zeroMat model1.nB model1.nV) else some wd) with
        | none => Step.stop Status.undef model1
        | some wd1 =>
          finishSubject s nFr
            { model1 with m := model1.m.resize (model1.nF * 4) (model1.nB * 4) }
            { imp with rotOrder := ro } wd1 hasKeyFrame

/-- Lines 235-263, the branch `s != 0`, after `load`. -/
def mergeSubject (s nFr : Nat) (model : DemBonesExt) (imp : FbxSceneImporter)
    (wd : DenseMat ℚ) (hasKeyFrame : Bool) : Step :=
  if imp.v.length ≠ model.nV then Step.stop (Status.err "Inconsistent geometry.\n") model
  else
    match model.u.setBlock (s * 3) 0 3 model.nV 3 imp.v.length
        (fun i c => if h : i < 3 then (imp.v[c]?).map (fun p => p ⟨i, h⟩) else none) with
    | none => Step.stop Status.undef model
    | some u1 =>
      if model.fv ≠ imp.fv then
        Step.stop (Status.err "Inconsistent geometry.\n") { model with u := u1 }
      else if model.nB ≠ imp.jointName.length then
        Step.stop (Status.err "Inconsistent joints set.\n") { model with u := u1 }
      else
        match mergeJoints s imp model.boneName 0
            { model with
              u := u1
              parent := model.parent.resize model.nB
              bind := model.bind.resize (model.nS * 4) (model.nB * 4)
              preMulInv := model.preMulInv.resize (model.nS * 4) (model.nB * 4)
              rotOrder := model.rotOrder.resize (model.nS * 3) model.nB } with
        | (Status.ok, model1) =>
          if wd.rows ≠ imp.wT.size then
            Step.stop (Status.err "Inconsistent skinningWeights.\n") model1
          else
            match (if wd.rows ≠ 0 then mergeWeights imp model1.boneName 0 wd else some wd) with
            | none => Step.stop Status.undef model1
            | some wd1 => finishSubject s nFr model1 imp wd1 hasKeyFrame
        | (r, model1) => Step.stop r model1

/-- One pass of the loop of lines 195-270, for subject `s`. `fsys` is what
`importer.open` finds under a file name. -/
def readSubject (fsys : String → Option FbxScene) (fileNames : List String) (s : Nat)
    (st : ReadState) : Step :=
  match fileNames[s]? with
  | none => Step.stop Status.undef st.model
  | some file =>
    match fsys file with
    | none => Step.stop (Status.err "Error on opening file.\n") st.model
    | some scene =>
      match frameRange st.model s with
      | none => Step.stop Status.undef st.model
      | some (a, b) =>
        match load st.importer scene (segment st.model.fTime a b) with
        | Except.error e => Step.stop e st.model
        | Except.ok imp =>
          if s = 0 then initSubject s (b - a) st.model imp st.wd st.hasKeyFrame
          else mergeSubject s (b - a) st.model imp st.wd st.hasKeyFrame

/-- The loop `for (s = ...; s < nS; s++)`, with `n` passes left. -/
def readLoop (fsys : String → Option FbxScene) (fileNames : List String) :
    Nat → Nat → ReadState → Step
  | 0, _, st => Step.next st
  | n + 1, s, st =>
    match readSubject fsys fileNames s st with
    | Step.next st1 => readLoop fsys fileNames n (s + 1) st1
    | Step.stop r model => Step.stop r model

/-- `(wd).sparseView(1, 1e-20)`: a coefficient `x` with `|x| <= 1 * 1e-20` is dropped. -/
def sparseView (M : DenseMat ℚ) : DenseMat ℚ :=
  ⟨M.rows, M.cols, fun i j => if |M.coeff i j| ≤ 1 / 10 ^ 20 then 0 else M.coeff i j⟩

/-- Lines 272-273. -/
def finalize (st : ReadState) : DemBonesExt :=
  { st.model with
    w := sparseView ⟨st.wd.rows, st.wd.cols, fun i j => st.wd.coeff i j / (st.model.nS : ℚ)⟩
    m := if st.hasKeyFrame then st.model.m else st.model.m.resize 0 0 }

/-- The state at loop entry: `wd(0, 0)`, `hasKeyFrame=false`, a fresh importer. -/
def initialState (model : DemBonesExt) : ReadState :=
  ⟨model, FbxSceneImporter.fresh, zeroMat 0 0, false⟩

/-- What `readFBXs` returns and the aggregate it leaves, which it updates in place. -/
structure ReadResult where
  ret : Status
  model : DemBonesExt

/-- `readFBXs(fileNames, model)`. -/
def readFBXs (fsys : String → Option FbxScene) (fileNames : List String)
    (model : DemBonesExt) : ReadResult :=
  if fileNames.length ≠ model.nS then
    ⟨Status.err "Wrong number of FBX files or ABC files have not been loaded.\n", model⟩
  else
    match readLoop fsys fileNames model.nS 0 (initialState model) with
    | Step.stop r model1 => ⟨r, model1⟩
    | Step.next st => ⟨Status.ok, finalize st⟩

/-- The status a call ends with: `ok` when it yields a value. -/
def statusOf {α : Type} (r : Except Status α) : Status :=
  match r with
  | Except.ok _ => Status.ok
  | Except.error e => e

/-- The joints `load` works on: `travel(lScene->GetRootNode(), NULL, jn)` from an empty
`jn`. -/
def sceneJoints (scene : FbxScene) : List JointNode := travel scene.root [] none none []

/-! ## Example scenes -/

/-- A joint node with the identity as global transform at every time and no curve. -/
def exJoint (name : String) (children : List FbxNode) : FbxNode :=
  FbxNode.mk name [FbxAttrType.eSkeleton] EFbxRotationOrder.eEulerXYZ false false
    (fun _ => 1) children

/-- A node without attributes, the identity as global transform. -/
def exGroup (name : String) (children : List FbxNode) : FbxNode :=
  FbxNode.mk name [] EFbxRotationOrder.eEulerXYZ false false (fun _ => 1) children

/-- A mesh with one control point and one triangle on it. -/
def exMesh1 : FbxMesh := ⟨[fun _ => 0], [[0, 0, 0]], 1⟩

/-- A mesh with one control point, one joint `J`, and a skin whose only cluster gives weight
1 to control-point index 1, one past the last control point. -/
def exSceneIndexV : FbxScene :=
  ⟨exGroup "root" [exJoint "J" []], some exMesh1, some [⟨"J", [(1, 1)], 1⟩]⟩

/-- A mesh with one control point, one joint `J`, and a skin of two clusters whose transform
matrices are the identity and the zero matrix. -/
def exSceneTwoClusters : FbxScene :=
  ⟨exGroup "root" [exJoint "J" []], some exMesh1,
    some [⟨"J", [(0, 1)], 1⟩, ⟨"K", [], 0⟩]⟩

/-- A mesh with one control point, two joints `J` and `K`, and a skin of one cluster. -/
def exSceneOneCluster : FbxScene :=
  ⟨exGroup "root" [exJoint "J" [exJoint "K" []]], some exMesh1, some [⟨"J", [(0, 1)], 1⟩]⟩

/-- An aggregate on which nothing has been read yet: the counts, `fStart` and `fTime` are
set, every matrix is empty. -/
def emptyModel (nS nV nF : Nat) (fStart : List Int) (fTime : List ℚ) : DemBonesExt :=
  ⟨nS, nV, nF, 0, fStart, fTime, ⟨0, 0, fun _ _ => none⟩, [], [], ⟨0, fun _ => none⟩,
    ⟨0, 0, fun _ _ => none⟩, ⟨0, 0, fun _ _ => none⟩, ⟨0, 0, fun _ _ => none⟩,
    ⟨0, 0, fun _ _ => none⟩, ⟨0, 0, fun _ _ => 0⟩⟩

/-- A mesh with two control points and one triangle. -/
def exMesh2 : FbxMesh := ⟨[fun _ => 0, fun _ => 1], [[0, 1, 0]], 1⟩

/-- Two control points, two joints `a` and `b`; the skin gives joint `a` weight 1 at both
control points and joint `b` no weight. -/
def exSceneWeights : FbxScene :=
  ⟨exGroup "root" [exJoint "a" [], exJoint "b" []], some exMesh2,
    some [⟨"a", [(0, 1), (1, 1)], 1⟩, ⟨"b", [], 1⟩]⟩

/-- The files `s0.fbx` and `s1.fbx` both hold `scene`. -/
def twoFiles (scene : FbxScene) : String → Option FbxScene :=
  fun file => if file = "s0.fbx" ∨ file = "s1.fbx" then some scene else none

/-- One joint `J` whose global transform at time `t` is the scaling by `t + 1` (the identity
at the default time), with a rotation curve. -/
def exSceneAnimated : FbxScene :=
  ⟨exGroup "root"
      [FbxNode.mk "J" [FbxAttrType.eSkeleton] EFbxRotationOrder.eEulerXYZ true false
        (fun t => match t with
          | none => 1
          | some x => Matrix.diagonal (fun _ => x + 1)) []],
    some exMesh1, none⟩

/-- The 4x4 matrix whose only nonzero coefficient is `x`, at row 0, column 0. -/
def exCorner (x : ℚ) : Matrix4d := fun i j => if i = 0 ∧ j = 0 then x else 0

/-- Three joints and a skin of three clusters whose transform matrices differ from one
cluster to the next by `8e-6` in one coefficient: neighbours are within squared distance
`1e-10`, the first and the last are not. -/
def exSceneDrift : FbxScene :=
  ⟨exGroup "root" [exJoint "J0" [], exJoint "J1" [], exJoint "J2" []], some exMesh1,
    some [⟨"J0", [], exCorner 0⟩, ⟨"J1", [], exCorner (8 / 10 ^ 6)⟩,
      ⟨"J2", [], exCorner (16 / 10 ^ 6)⟩]⟩

/-- One joint `J` with the identity as global transform, bound by a skin whose cluster
stores the scaling by 2 as transform matrix. -/
def exSceneSkinBind : FbxScene :=
  ⟨exGroup "root" [exJoint "J" []], some exMesh1,
    some [⟨"J", [(0, 1)], Matrix.diagonal (fun _ => 2)⟩]⟩

/-- One joint named `name` with rotation order `order`, no skin. -/
def exSceneOrder (name : String) (order : EFbxRotationOrder) : FbxScene :=
  ⟨exGroup "root" [FbxNode.mk name [FbxAttrType.eSkeleton] order false false (fun _ => 1) []],
    some exMesh1, none⟩

/-- The file `s0.fbx` holds `scene0` and `s1.fbx` holds `scene1`. -/
def filesOf (scene0 scene1 : FbxScene) : String → Option FbxScene :=
  fun file => if file = "s0.fbx" then some scene0 else
    if file = "s1.fbx" then some scene1 else none

/-! ## Closed forms of the loops of `load`, used to state what the tables hold -/

/-- The table the loop `for x in jn: t[name(x)] = f(x)` builds from `t`. -/
def tableOf {α : Type} (f : JointNode → α) : List JointNode → StrMap α → StrMap α
  | [], t => t
  | x :: rest, t => tableOf f rest (t.set x.name (f x))

/-- The `rotOrder` table after the loop over the joints: a joint whose rotation order is
none of the six Euler orders writes nothing. -/
def rotOrderTable : List JointNode → StrMap (Option (Int × Int × Int)) →
    StrMap (Option (Int × Int × Int))
  | [], t => t
  | x :: rest, t =>
    rotOrderTable rest
      (match rotOrderCode x.pNode.node.rotationOrder with
        | some code => t.set x.name (some code)
        | none => t)

/-- The matrix of `preMulInvOf`, the identity where that is not defined. -/
def preMulInvValue (x : JointNode) : Matrix4d :=
  match preMulInvOf x with
  | Except.ok pm => pm
  | Except.error _ => 1

/-- The joint has a curve on its rotation or its translation (line 149). -/
def hasCurve (x : JointNode) : Bool :=
  x.pNode.node.rotationCurve || x.pNode.node.translationCurve

/-- The bind transform `load` records for a joint: the global transform of its node at the
default time (line 125). -/
def bindOf (x : JointNode) : Matrix4d := x.pNode.node.globalTransform none

/-- The `m` table after the loop of lines 148-157, `bind` being the finished bind table. -/
def seriesTable (fTime : List ℚ) (bind : StrMap Matrix4d) : List JointNode →
    StrMap (List Matrix4d) → StrMap (List Matrix4d)
  | [], t => t
  | x :: rest, t =>
    seriesTable fTime bind rest
      (t.set x.name (sampleJoint x.pNode.node ((bind.find x.name).getD 1) fTime))

/-! ## Relations between two states of the aggregate, used to state what a pass keeps -/

/-- The fields `readFBXs` only reads before the loop ends (`nS`, `nV`, `nF`, `fStart`,
`fTime`) and `w` are the same in `a` and `b`. -/
def SameInputs (a b : DemBonesExt) : Prop :=
  b.nS = a.nS ∧ b.nV = a.nV ∧ b.nF = a.nF ∧ b.fStart = a.fStart ∧ b.fTime = a.fTime ∧
    b.w = a.w

/-- The skeleton and topology fields set by subject 0 (`fv`, `nB`, `boneName`, `parent`) are
the same in `a` and `b`, and the matrices have the same sizes. -/
def SameSkeleton (a b : DemBonesExt) : Prop :=
  b.fv = a.fv ∧ b.nB = a.nB ∧ b.boneName = a.boneName ∧ b.parent = a.parent ∧
    b.m.rows = a.m.rows ∧ b.m.cols = a.m.cols

/-- The scene of subject `s`: what `importer.open(fileNames[s])` opens. -/
def subjectScene (fsys : String → Option FbxScene) (fileNames : List String) (s : Nat) :
    Option FbxScene :=
  (fileNames[s]?).bind fsys

/-- The number of frames of subject `s`, `fStart(s+1) - fStart(s)`; 0 where the frame range
is not defined. -/
def frameCount (model : DemBonesExt) (s : Nat) : Nat :=
  match frameRange model s with
  | some (a, b) => b - a
  | none => 0

/-- Some joint of the scene has an animation curve on its rotation or translation. -/
def sceneHasKeyFrame (scene : FbxScene) : Bool := (sceneJoints scene).any hasCurve

/-- Some subject among the first `n` has keyframe animation. -/
def anyKeyFrame (fsys : String → Option FbxScene) (fileNames : List String) (n : Nat) :
    Bool :=
  (List.range n).any (fun s =>
    match subjectScene fsys fileNames s with
    | some scene => sceneHasKeyFrame scene
    | none => false)

/-- The shape the aggregate has once subject 0 has been read: the matrices have the sizes
given by `nS`, `nV` and `nB`, and every `parent(j)` is `-1` or the index of a bone. -/
def Shaped (model : DemBonesExt) : Prop :=
  model.nB = model.boneName.length ∧ model.parent.size = model.nB ∧
  (∀ j, j < model.nB → (aggregateParentName model j).isSome) ∧
  model.u.rows = model.nS * 3 ∧ model.u.cols = model.nV ∧
  model.bind.rows = model.nS * 4 ∧ model.bind.cols = model.nB * 4 ∧
  model.preMulInv.rows = model.nS * 4 ∧ model.preMulInv.cols = model.nB * 4 ∧
  model.rotOrder.rows = model.nS * 3 ∧ model.rotOrder.cols = model.nB

/-- The canonical joint names a scene yields: the link names of the clusters in cluster
order when the mesh has a skin, the names of the travelled joints otherwise. -/
def canonicalNames (scene : FbxScene) : List String :=
  match scene.skin with
  | some clusters => clusters.map (fun c => c.linkName)
  | none => (sceneJoints scene).map JointNode.name

/-- The parent name `load` resolves for the name `nj` in a scene: the entry of the `parent`
table, `""` when the table has none. -/
def sceneParentName (scene : FbxScene) (nj : String) : String :=
  ((tableOf JointNode.parentName (sceneJoints scene) []).find nj).getD ""

/-- What holds of the loop state once subject 0 has been read: the inputs are untouched, the
aggregate has its shape, the importer's `rotOrder` table holds every bone name, and `fv`,
`boneName`, `parent` and the height of `wd` are those subject 0 determined. -/
def Reached (fsys : String → Option FbxScene) (fileNames : List String)
    (model : DemBonesExt) (st : ReadState) : Prop :=
  SameInputs model st.model ∧ Shaped st.model ∧
  (∀ nj ∈ st.model.boneName, (st.importer.rotOrder.find nj).isSome) ∧
  ∃ scene0 mesh0, subjectScene fsys fileNames 0 = some scene0 ∧ scene0.mesh = some mesh0 ∧
    st.model.fv = mesh0.polygons ∧
    st.wd.rows = (if scene0.skin.isSome then st.model.nB else 0) ∧
    st.model.boneName = canonicalNames scene0 ∧
    ∀ j nj, st.model.boneName[j]? = some nj →
      st.model.parent.coeff j
        = some (findParent st.model.boneName 0 (sceneParentName scene0 nj) (-1))

/-- The state in which the loop comes to subject `s`: defined when the passes for the
subjects before `s` all went on. -/
def stateBefore (fsys : String → Option FbxScene) (fileNames : List String)
    (model : DemBonesExt) (s : Nat) : Option ReadState :=
  match readLoop fsys fileNames s 0 (initialState model) with
  | Step.next st => some st
  | Step.stop _ _ => none

/-- Lines 196-199 for subject `s` in the state `st`: the importer after `open` and `load`,
when the file opens, the frame range is defined and `load` returns `true`. -/
def loadSubject (fsys : String → Option FbxScene) (fileNames : List String) (s : Nat)
    (st : ReadState) : Option FbxSceneImporter :=
  match subjectScene fsys fileNames s, frameRange st.model s with
  | some scene, some (a, b) => (load st.importer scene (segment st.model.fTime a b)).toOption
  | _, _ => none

/-- One joint `A` and a mesh with two control points, no skin. -/
def exSceneTwoPoints : FbxScene :=
  ⟨exGroup "root" [exJoint "A" []], some exMesh2, none⟩

/-- Two subjects whose joints are two clusters' links in subject 0 and none in subject 1's
skin: a scene with the skin of `exSceneWeights` but the joints `a`, `b` unbound. -/
def exSceneNoSkin : FbxScene :=
  ⟨exGroup "root" [exJoint "a" [], exJoint "b" []], some exMesh2, none⟩

/-- Two control points, joint `a` with child joint `b`, no skin. -/
def exSceneChain : FbxScene :=
  ⟨exGroup "root" [exJoint "a" [exJoint "b" []]], some exMesh2, none⟩

/-- Two control points and three joints `a`, `b`, `c`, no skin. -/
def exSceneThreeJoints : FbxScene :=
  ⟨exGroup "root" [exJoint "a" [], exJoint "b" [], exJoint "c" []], some exMesh2, none⟩

/-- Two control points, joint `A` with child joint `B`, and a skin whose two clusters are
both linked to `B`. -/
def exSceneDoubleLink : FbxScene :=
  ⟨exGroup "root" [exJoint "A" [exJoint "B" []]], some exMesh2,
    some [⟨"B", [(0, 1)], 1⟩, ⟨"B", [(1, 1)], 1⟩]⟩

/-- Two control points, two root joints `B` and `C`, and a skin with one cluster for
each. -/
def exSceneTwoRoots : FbxScene :=
  ⟨exGroup "root" [exJoint "B" [], exJoint "C" []], some exMesh2,
    some [⟨"B", [(0, 1)], 1⟩, ⟨"C", [(1, 1)], 1⟩]⟩

/-- Every entry of `l` has as parent joint either `pj` or the node of an earlier entry. -/
@[reducible] def ParentsEarlier (pj : Option FbxNodePtr) (l : List JointNode) : Prop :=
  ∀ (i : Nat) (x : JointNode), l[i]? = some x →
    x.pParentJoint = pj ∨
    ∃ (k : Nat) (y : JointNode), k < i ∧ l[k]? = some y ∧ x.pParentJoint = some y.pNode

/-- Following `parent` from the index `j` comes to the sentinel `-1` within `n` steps. -/
def reachesRoot (parent : Nat → Option Int) : Nat → Int → Bool
  | 0, j => decide (j = -1)
  | n + 1, j =>
    if j = -1 then true
    else if 0 ≤ j then
      match parent j.toNat with
      | some p => reachesRoot parent n p
      | none => false
    else false

/-- One mesh point, joint `Hip` with a child joint that is also named `Hip`, no skin. -/
def exSceneSameName : FbxScene :=
  ⟨exGroup "root" [exJoint "Hip" [exJoint "Hip" []]], some exMesh1, none⟩

/-- The file `s0.fbx` holds `scene`. -/
def oneFile (scene : FbxScene) : String → Option FbxScene :=
  fun file => if file = "s0.fbx" then some scene else none

/-- The last joint of the list with the name `k`: the one whose entries the name-keyed
tables end up with. -/
def lastNamed : List JointNode → String → Option JointNode
  | [], _ => none
  | x :: rest, k =>
    match lastNamed rest k with
    | some y => some y
    | none => if x.name = k then some x else none

/-! ## The traversal as the specification words it -/

mutual
/-- Every node of the subtree of `node`, in depth-first pre-order: the node, then the
subtrees of its children in child-index order. `path` is the position of `node` and `up`
its parent pointer. -/
def preorder (node : FbxNode) (path : List Nat) (up : Option FbxNodePtr) :
    List FbxNodePtr :=
  match node with
  | FbxNode.mk n a r rc tc g cs =>
    FbxNodePtr.mk path (FbxNode.mk n a r rc tc g cs) up ::
      preorderChildren cs (FbxNodePtr.mk path (FbxNode.mk n a r rc tc g cs) up) 0
/-- The subtrees of the children `cs` of `self`, from child index `j` on, each in
pre-order. -/
def preorderChildren (cs : List FbxNode) (self : FbxNodePtr) (j : Nat) : List FbxNodePtr :=
  match cs with
  | [] => []
  | c :: rest =>
    preorder c (self.path ++ [j]) (some self) ++ preorderChildren rest self (j + 1)
end

/-- The nearest node that carries a skeleton attribute among `p` and its ancestors. -/
def FbxNodePtr.nearestJoint : FbxNodePtr → Option FbxNodePtr
  | FbxNodePtr.mk path node none =>
    if node.isSkeleton then some (FbxNodePtr.mk path node none) else none
  | FbxNodePtr.mk path node (some q) =>
    if node.isSkeleton then some (FbxNodePtr.mk path node (some q)) else q.nearestJoint

/-- The nearest node that carries a skeleton attribute from the pointer `up` upwards,
`none` for a null pointer. -/
def jointAbove (up : Option FbxNodePtr) : Option FbxNodePtr :=
  match up with
  | none => none
  | some q => q.nearestJoint

/-- The nearest proper ancestor of `p` that carries a skeleton attribute, `none` when no
proper ancestor does. -/
def nearestJointAncestor (p : FbxNodePtr) : Option FbxNodePtr := jointAbove p.parent

/-- The joints of a node tree in the words of the specification: the nodes that carry the
joint marker, in depth-first pre-order, each paired with its nearest joint ancestor. -/
def jointsInPreorder (root : FbxNode) : List JointNode :=
  ((preorder root [] none).filter (fun p => p.node.isSkeleton)).map
    (fun p => ⟨p, nearestJointAncestor p⟩)

/-! ## Slots of the per-subject matrices -/

/-- Slot `(s, j)` of a matrix of 4x4 blocks holds the coefficients of `A`; `none` stands for
a default-constructed matrix, whose coefficients are indeterminate. -/
def blk4Is (M : DenseMat (Option ℚ)) (s j : Nat) (A : Option Matrix4d) : Prop :=
  ∀ a, a < 4 → ∀ b, b < 4 → M.coeff (s * 4 + a) (j * 4 + b) = mat4Src A a b

/-- Slot `(s, j)` of a matrix of 3x1 blocks holds the code `c`; `none` stands for a
default-constructed vector, whose coefficients are indeterminate. -/
def vec3Is (M : DenseMat (Option Int)) (s j : Nat) (c : Option (Int × Int × Int)) : Prop :=
  ∀ a, a < 3 → M.coeff (s * 3 + a) j = vec3Src c a 0

/-- One mesh point and two joints named `Hip`, no skin: the first has the identity as global
transform at every time; its child has the scaling by 2 at the default time and the scaling
by `t + 1` at time `t`. -/
def exSceneTwoHips : FbxScene :=
  ⟨exGroup "root"
      [FbxNode.mk "Hip" [FbxAttrType.eSkeleton] EFbxRotationOrder.eEulerXYZ false false
        (fun _ => 1)
        [FbxNode.mk "Hip" [FbxAttrType.eSkeleton] EFbxRotationOrder.eEulerXYZ false false
          (fun t => match t with
            | none => Matrix.diagonal (fun _ => 2)
            | some x => Matrix.diagonal (fun _ => x + 1)) []]],
    some exMesh1, none⟩

/-! # Properties -/

/-! ## Name-keyed tables -/

theorem StrMap.find_set_same {α : Type} (m : StrMap α) (k : String) (v : α) :
    (m.set k v).find k = some v := by
  induction m with
  | nil => simp [StrMap.set, StrMap.find]
  | cons e rest ih =>
    obtain ⟨k', v'⟩ := e
    by_cases h : k' = k
    · simp [StrMap.set, StrMap.find, h]
    · simp [StrMap.set, StrMap.find, h, ih]

theorem StrMap.find_set_other {α : Type} (m : StrMap α) (k k2 : String) (v : α)
    (h : k ≠ k2) : (m.set k v).find k2 = m.find k2 := by
  induction m with
  | nil => simp [StrMap.set, StrMap.find, h]
  | cons e rest ih =>
    obtain ⟨k', v'⟩ := e
    by_cases h1 : k' = k
    · subst h1
      simp [StrMap.set, StrMap.find, h]
    · by_cases h2 : k' = k2
      · subst h2
        simp [StrMap.set, StrMap.find, h1]
      · simp [StrMap.set, StrMap.find, h1, h2, ih]

/-! ## The weight loop of `load` -/

theorem readInfluences_length (nV : Nat) (infl : List (Int × ℚ)) (w w1 : List ℚ)
    (h : readInfluences nV infl w = Except.ok w1) : w1.length = w.length := by
  induction infl generalizing w with
  | nil =>
    simp only [readInfluences, Except.ok.injEq] at h
    rw [h]
  | cons e rest ih =>
    obtain ⟨i, x⟩ := e
    simp only [readInfluences] at h
    split_ifs at h with h1 h2
    rw [ih _ h, List.length_set]

theorem readInfluences_in_range (nV : Nat) (infl : List (Int × ℚ)) (w : List ℚ)
    (h : ∀ e ∈ infl, 0 ≤ e.1 ∧ e.1 < (nV : Int)) :
    ∃ w1, readInfluences nV infl w = Except.ok w1 := by
  induction infl generalizing w with
  | nil => exact ⟨w, rfl⟩
  | cons e rest ih =>
    obtain ⟨i, x⟩ := e
    have hi := h (i, x) (List.mem_cons_self _ _)
    have hgt : ¬ (i > (nV : Int)) := by omega
    simp only [readInfluences, hgt, if_false, hi.1, hi.2, and_self, if_true]
    exact ih _ (fun e he => h e (List.mem_cons_of_mem _ he))

theorem loadWeights_in_range (nV : Nat) (clusters : List FbxCluster) (wT : StrMap (List ℚ))
    (h : ∀ c ∈ clusters, ∀ e ∈ c.influences, 0 ≤ e.1 ∧ e.1 < (nV : Int)) :
    ∃ wT1, loadWeights nV clusters wT = Except.ok wT1 := by
  induction clusters generalizing wT with
  | nil => exact ⟨wT, rfl⟩
  | cons c rest ih =>
    obtain ⟨w, hw⟩ := readInfluences_in_range nV c.influences (List.replicate nV 0)
      (h c (List.mem_cons_self _ _))
    simp only [loadWeights, hw]
    exact ih _ (fun c hc => h c (List.mem_cons_of_mem _ hc))

theorem readInfluences_error_ne_ok (nV : Nat) (infl : List (Int × ℚ)) (w : List ℚ)
    (e : Status) (h : readInfluences nV infl w = Except.error e) : e ≠ Status.ok := by
  induction infl generalizing w with
  | nil => simp [readInfluences] at h
  | cons x rest ih =>
    obtain ⟨i, x⟩ := x
    simp only [readInfluences] at h
    split_ifs at h with h1 h2
    · cases h
      simp
    · exact ih _ h
    · cases h
      simp

theorem loadWeights_error_ne_ok (nV : Nat) (clusters : List FbxCluster)
    (wT : StrMap (List ℚ)) (e : Status)
    (h : loadWeights nV clusters wT = Except.error e) : e ≠ Status.ok := by
  induction clusters generalizing wT with
  | nil => simp [loadWeights] at h
  | cons c rest ih =>
    simp only [loadWeights] at h
    cases hr : readInfluences nV c.influences (List.replicate nV 0) with
    | error e1 =>
      rw [hr] at h
      cases h
      exact readInfluences_error_ne_ok _ _ _ _ hr
    | ok w =>
      rw [hr] at h
      exact ih _ h

/-- C7 (code at the failing input): on a mesh with one control point, a weight entry at
control-point index 1 is not rejected by `load`: the guard `idx[k]>nV` lets it through and
the write `wT[name](1)` leaves the one-coefficient vector. -/
theorem load_admits_index_equal_to_vertex_count :
    statusOf (readInfluences 1 [(1, 1)] [0]) = Status.undef ∧
    statusOf (load FbxSceneImporter.fresh exSceneIndexV []) = Status.undef ∧
    statusOf (load FbxSceneImporter.fresh exSceneIndexV []) ≠ Status.fail := by
  decide!

/-- C9 (counterexample): a skin with 2 clusters on a scene with 1 joint does not end with
the joint-count-mismatch error: the clusters have different transform matrices and `load`
ends with `Multiple bind poses.` before it comes to count the joints. -/
theorem load_cluster_count_mismatch_other_error :
    exSceneTwoClusters.skin.map List.length = some 2 ∧
    (sceneJoints exSceneTwoClusters).length = 1 ∧
    statusOf (load FbxSceneImporter.fresh exSceneTwoClusters [])
      = Status.err "Multiple bind poses.\n" ∧
    statusOf (load FbxSceneImporter.fresh exSceneTwoClusters [])
      ≠ Status.err (jointCountMessage 1 2) := by
  decide!

/-- C9 (amended): a skin with `c >= 1` clusters on a scene whose traversal finds `n` joints,
`c != n`. `load` never returns success. When every weight index lies in `0..V-1` and
neighbouring clusters have transform matrices within squared distance `1e-10`, it ends with
the joint-count-mismatch error, which names `n` and `c`. -/
theorem load_cluster_count_mismatch (imp : FbxSceneImporter) (scene : FbxScene)
    (fTime : List ℚ) (mesh : FbxMesh) (clusters : List FbxCluster)
    (hmesh : scene.mesh = some mesh) (hskin : scene.skin = some clusters)
    (hc : clusters ≠ []) (hne : (sceneJoints scene).length ≠ clusters.length) :
    statusOf (load imp scene fTime) ≠ Status.ok ∧
    ((∀ c ∈ clusters, ∀ e ∈ c.influences,
        0 ≤ e.1 ∧ e.1 < (mesh.controlPoints.length : Int)) →
      bindPosesAgree clusters = true →
      load imp scene fTime
        = Except.error
            (Status.err (jointCountMessage (sceneJoints scene).length clusters.length))) := by
  have hlen : clusters.length ≠ 0 := by
    intro h
    exact hc (List.length_eq_zero.mp h)
  have hjn : travel scene.root [] none none [] = sceneJoints scene := rfl
  obtain ⟨c0, rest, hcl⟩ : ∃ c0 rest, clusters = c0 :: rest := by
    cases clusters with
    | nil => exact absurd rfl hc
    | cons c0 rest => exact ⟨c0, rest, rfl⟩
  constructor
  · unfold load
    simp only [hmesh, hskin, loadSkin, hjn]
    cases hw : loadWeights mesh.controlPoints.length clusters [] with
    | error e =>
      simp only [statusOf]
      exact loadWeights_error_ne_ok _ _ _ _ hw
    | ok wT =>
      by_cases hb : bindPosesAgree clusters = false
      · simp [hb, statusOf]
      · simp only [hb, if_false]
        subst hcl
        have hne1 : ¬ ((sceneJoints scene).length = rest.length + 1) := by simpa using hne
        simp [hne1, statusOf]
  · intro hidx hb
    obtain ⟨wT, hw⟩ := loadWeights_in_range mesh.controlPoints.length clusters [] hidx
    unfold load
    simp only [hmesh, hskin, loadSkin, hjn, hw, hb]
    subst hcl
    have hne1 : ¬ ((sceneJoints scene).length = rest.length + 1) := by simpa using hne
    simp [hne1]

/-- C9 (amended), at a scene with one cluster and two joints. -/
theorem load_cluster_count_mismatch_witness :
    statusOf (load FbxSceneImporter.fresh exSceneOneCluster []) ≠ Status.ok ∧
    load FbxSceneImporter.fresh exSceneOneCluster []
      = Except.error (Status.err (jointCountMessage 2 1)) :=
  have h := load_cluster_count_mismatch FbxSceneImporter.fresh exSceneOneCluster []
    exMesh1 [⟨"J", [(0, 1)], 1⟩] rfl rfl (List.cons_ne_nil _ _) (by decide!)
  ⟨h.1, h.2 (by decide!) (by decide!)⟩

/-- C1 (code at the failing input): two subjects, both with the skin of `exSceneWeights`
(joint `a` has weight 1 at both vertices, joint `b` weight 0). `readFBXs` succeeds and
leaves `w(a, 1) = 1/2` and `w(b, 0) = 1/2`, where the averages are 1 and 0: subject 1 is
added into the columns of `wd`, not into its rows. -/
theorem readFBXs_second_subject_weights_added_to_columns :
    (load FbxSceneImporter.fresh exSceneWeights [0]).toOption.map
        (fun imp => (weightsOf imp "a", weightsOf imp "b")) = some ([1, 1], [0, 0]) ∧
    (readFBXs (twoFiles exSceneWeights) ["s0.fbx", "s1.fbx"]
        (emptyModel 2 2 2 [0, 1, 2] [0, 1])).ret = Status.ok ∧
    (readFBXs (twoFiles exSceneWeights) ["s0.fbx", "s1.fbx"]
        (emptyModel 2 2 2 [0, 1, 2] [0, 1])).model.boneName = ["a", "b"] ∧
    (readFBXs (twoFiles exSceneWeights) ["s0.fbx", "s1.fbx"]
        (emptyModel 2 2 2 [0, 1, 2] [0, 1])).model.w.coeff 0 1 = 1 / 2 ∧
    (readFBXs (twoFiles exSceneWeights) ["s0.fbx", "s1.fbx"]
        (emptyModel 2 2 2 [0, 1, 2] [0, 1])).model.w.coeff 1 0 = 1 / 2 := by
  decide!

/-- C2 (code at the failing input): two subjects of two frames each, `fStart = (0, 2, 4)`,
sample times `0, 1, 2, 3`, one joint whose relative transform at time `t` is the scaling by
`t + 1`. The block of subject 1 is written from row `s*4 = 4` on, that is from frame 1:
frame 1 holds the transform of time 2 (subject 0's second frame is overwritten), frame 2
that of time 3, and frame 3 is never written. -/
theorem readFBXs_series_written_at_subject_index :
    (readFBXs (twoFiles exSceneAnimated) ["s0.fbx", "s1.fbx"]
        (emptyModel 2 1 4 [0, 2, 4] [0, 1, 2, 3])).ret = Status.ok ∧
    (readFBXs (twoFiles exSceneAnimated) ["s0.fbx", "s1.fbx"]
        (emptyModel 2 1 4 [0, 2, 4] [0, 1, 2, 3])).model.m.rows = 16 ∧
    (readFBXs (twoFiles exSceneAnimated) ["s0.fbx", "s1.fbx"]
        (emptyModel 2 1 4 [0, 2, 4] [0, 1, 2, 3])).model.m.coeff 0 0 = some 1 ∧
    (readFBXs (twoFiles exSceneAnimated) ["s0.fbx", "s1.fbx"]
        (emptyModel 2 1 4 [0, 2, 4] [0, 1, 2, 3])).model.m.coeff 4 0 = some 3 ∧
    (readFBXs (twoFiles exSceneAnimated) ["s0.fbx", "s1.fbx"]
        (emptyModel 2 1 4 [0, 2, 4] [0, 1, 2, 3])).model.m.coeff 8 0 = some 4 ∧
    (readFBXs (twoFiles exSceneAnimated) ["s0.fbx", "s1.fbx"]
        (emptyModel 2 1 4 [0, 2, 4] [0, 1, 2, 3])).model.m.coeff 12 0 = none := by
  decide!

/-- C17: the code `load` records for each of the six Euler orders lists the axis indices in
the order's sequence; each code is a permutation of `0, 1, 2`; the six codes are pairwise
distinct. -/
theorem rotOrderCode_euler_orders :
    rotOrderCode EFbxRotationOrder.eEulerXYZ = some (0, 1, 2) ∧
    rotOrderCode EFbxRotationOrder.eEulerXZY = some (0, 2, 1) ∧
    rotOrderCode EFbxRotationOrder.eEulerYZX = some (1, 2, 0) ∧
    rotOrderCode EFbxRotationOrder.eEulerYXZ = some (1, 0, 2) ∧
    rotOrderCode EFbxRotationOrder.eEulerZXY = some (2, 0, 1) ∧
    rotOrderCode EFbxRotationOrder.eEulerZYX = some (2, 1, 0) ∧
    (∀ o : EFbxRotationOrder, o ≠ EFbxRotationOrder.eSphericXYZ →
      ∃ a b c, rotOrderCode o = some (a, b, c) ∧ [a, b, c].Perm [0, 1, 2]) ∧
    (∀ o1 o2 : EFbxRotationOrder, o1 ≠ EFbxRotationOrder.eSphericXYZ →
      rotOrderCode o1 = rotOrderCode o2 → o1 = o2) := by
  refine ⟨rfl, rfl, rfl, rfl, rfl, rfl, ?_, ?_⟩
  · intro o ho
    cases o
    · exact ⟨0, 1, 2, rfl, by decide⟩
    · exact ⟨0, 2, 1, rfl, by decide⟩
    · exact ⟨1, 2, 0, rfl, by decide⟩
    · exact ⟨1, 0, 2, rfl, by decide⟩
    · exact ⟨2, 0, 1, rfl, by decide⟩
    · exact ⟨2, 1, 0, rfl, by decide⟩
    · exact absurd rfl ho
  · intro o1 o2 ho h
    cases o1 <;> cases o2 <;> simp [rotOrderCode] at h ho ⊢

/-- C16 (counterexample): the first and the last cluster of `exSceneDrift` have transform
matrices at squared distance above `1e-10`, and `load` succeeds: only neighbouring
clusters are compared. -/
theorem load_accepts_distant_bind_poses :
    squaredNorm (exCorner 0 - exCorner (16 / 10 ^ 6)) > bindTolerance ∧
    statusOf (load FbxSceneImporter.fresh exSceneDrift []) = Status.ok := by
  decide!

/-- C12 (counterexample): `exSceneSkinBind` has a skin whose cluster stores the scaling by
2; the bind transform `load` records for the joint is the identity, the global transform of
the joint's node, not the cluster's matrix. -/
theorem load_bind_not_from_skin :
    exSceneSkinBind.skin.map (fun cs => cs.map (fun c => c.transformMatrix 0 0)) = some [2] ∧
    (load FbxSceneImporter.fresh exSceneSkinBind []).toOption.map
      (fun imp => (imp.bind.find "J").map (fun B => B 0 0)) = some (some 1) := by
  decide!

/-- C18 (code at the failing input): after scene A (one joint `A`, order XYZ) the importer
loads scene B (one joint `B`). The `rotOrder` table then still holds the entry of `A`, which
a fresh importer loading B does not have: `load` clears every table but `rotOrder`. In
`readFBXs`, a second subject whose joint `A` has the order `eSphericXYZ` records no rotation
order, passes the presence check on the stale entry, and slot (1, A) of `model.rotOrder`
receives subject 0's code. -/
theorem load_keeps_earlier_rotOrder :
    ((load FbxSceneImporter.fresh (exSceneOrder "A" EFbxRotationOrder.eEulerXYZ) []).toOption.bind
      (fun impA => (load impA (exSceneOrder "B" EFbxRotationOrder.eEulerXYZ) []).toOption.map
        (fun imp => imp.rotOrder.find "A"))) = some (some (some (0, 1, 2))) ∧
    (load FbxSceneImporter.fresh (exSceneOrder "B" EFbxRotationOrder.eEulerXYZ) []).toOption.map
      (fun imp => imp.rotOrder.find "A") = some none ∧
    (load FbxSceneImporter.fresh (exSceneOrder "A" EFbxRotationOrder.eSphericXYZ) []).toOption.map
      (fun imp => imp.rotOrder.find "A") = some none ∧
    (readFBXs (filesOf (exSceneOrder "A" EFbxRotationOrder.eEulerZYX)
          (exSceneOrder "A" EFbxRotationOrder.eSphericXYZ)) ["s0.fbx", "s1.fbx"]
        (emptyModel 2 1 2 [0, 1, 2] [0, 1])).ret = Status.ok ∧
    (readFBXs (filesOf (exSceneOrder "A" EFbxRotationOrder.eEulerZYX)
          (exSceneOrder "A" EFbxRotationOrder.eSphericXYZ)) ["s0.fbx", "s1.fbx"]
        (emptyModel 2 1 2 [0, 1, 2] [0, 1])).model.rotOrder.coeff 3 0 = some 2 := by
  decide!

/-! ## What `load` leaves in the importer -/

theorem loadJoints_ok (jn : List JointNode) (imp imp1 : FbxSceneImporter)
    (h : loadJoints jn imp = Except.ok imp1) :
    imp1.v = imp.v ∧ imp1.fv = imp.fv ∧ imp1.jointName = imp.jointName ∧ imp1.wT = imp.wT ∧
    imp1.m = imp.m ∧ imp1.hasKeyFrame = imp.hasKeyFrame ∧
    imp1.parent = tableOf JointNode.parentName jn imp.parent ∧
    imp1.bind = tableOf bindOf jn imp.bind ∧
    imp1.preMulInv = tableOf preMulInvValue jn imp.preMulInv ∧
    imp1.rotOrder = rotOrderTable jn imp.rotOrder := by
  induction jn generalizing imp with
  | nil =>
    simp only [loadJoints, Except.ok.injEq] at h
    subst h
    simp [tableOf, rotOrderTable]
  | cons x rest ih =>
    simp only [loadJoints] at h
    cases hpm : preMulInvOf x with
    | error e => simp [hpm] at h
    | ok pm =>
      simp only [hpm] at h
      have := ih _ h
      simpa [tableOf, rotOrderTable, preMulInvValue, hpm, bindOf] using this

theorem tableOf_find_none {α : Type} (f : JointNode → α) (jn : List JointNode)
    (t : StrMap α) (k : String) (hk : ∀ y ∈ jn, y.name ≠ k) :
    (tableOf f jn t).find k = t.find k := by
  induction jn generalizing t with
  | nil => rfl
  | cons w l ihl =>
    simp only [tableOf]
    rw [ihl _ (fun y hy => hk y (List.mem_cons_of_mem _ hy))]
    exact StrMap.find_set_other _ _ _ _ (hk w (List.mem_cons_self _ _))

theorem tableOf_find_of_name {α : Type} (f : JointNode → α) (jn : List JointNode)
    (t : StrMap α) (k : String) (hk : ∃ y ∈ jn, y.name = k) :
    ∃ y ∈ jn, y.name = k ∧ (tableOf f jn t).find k = some (f y) := by
  induction jn generalizing t with
  | nil =>
    obtain ⟨y, hy, _⟩ := hk
    simp at hy
  | cons z rest ih =>
    by_cases hr : ∃ y ∈ rest, y.name = k
    · obtain ⟨y1, hy1, hn1, hf⟩ := ih (t.set z.name (f z)) hr
      exact ⟨y1, List.mem_cons_of_mem _ hy1, hn1, by simpa [tableOf] using hf⟩
    · have hz : z.name = k := by
        obtain ⟨y, hy, hn⟩ := hk
        rcases List.mem_cons.mp hy with h | h
        · rw [← h]; exact hn
        · exact absurd ⟨y, h, hn⟩ hr
      refine ⟨z, List.mem_cons_self _ _, hz, ?_⟩
      simp only [tableOf]
      rw [tableOf_find_none f rest _ k (fun y hy hn => hr ⟨y, hy, hn⟩), ← hz]
      exact StrMap.find_set_same _ _ _

theorem sampleJoints_ok (fTime : List ℚ) (jn : List JointNode) (imp imp1 : FbxSceneImporter)
    (h : sampleJoints fTime jn imp = Except.ok imp1) :
    imp1.v = imp.v ∧ imp1.fv = imp.fv ∧ imp1.jointName = imp.jointName ∧ imp1.wT = imp.wT ∧
    imp1.parent = imp.parent ∧ imp1.bind = imp.bind ∧ imp1.preMulInv = imp.preMulInv ∧
    imp1.rotOrder = imp.rotOrder ∧
    imp1.hasKeyFrame = (imp.hasKeyFrame || jn.any hasCurve) ∧
    imp1.m = seriesTable fTime imp.bind jn imp.m := by
  induction jn generalizing imp with
  | nil =>
    simp only [sampleJoints, Except.ok.injEq] at h
    subst h
    simp [seriesTable]
  | cons x rest ih =>
    simp only [sampleJoints] at h
    cases hb : imp.bind.find x.name with
    | none => simp [hb] at h
    | some b =>
      simp only [hb] at h
      have := ih _ h
      simpa [seriesTable, hb, hasCurve, Bool.or_assoc] using this

theorem loadSkin_ok (nV : Nat) (skin : Option (List FbxCluster)) (g : Matrix4d)
    (sk : SkinData) (h : loadSkin nV skin g = Except.ok sk) :
    (skin = none ∧ sk = ⟨0, [], [], g⟩) ∨
    (∃ c rest wT, skin = some (c :: rest) ∧ loadWeights nV (c :: rest) [] = Except.ok wT ∧
      bindPosesAgree (c :: rest) = true ∧
      sk = ⟨(c :: rest).length, (c :: rest).map (fun x => x.linkName), wT,
        c.transformMatrix⟩) := by
  cases skin with
  | none =>
    simp only [loadSkin, Except.ok.injEq] at h
    exact Or.inl ⟨rfl, h.symm⟩
  | some clusters =>
    right
    simp only [loadSkin] at h
    cases hw : loadWeights nV clusters [] with
    | error e => simp [hw] at h
    | ok wT =>
      simp only [hw] at h
      by_cases hb : bindPosesAgree clusters = false
      · simp [hb] at h
      · have hb1 : bindPosesAgree clusters = true := by simpa using hb
        simp only [hb1, Bool.true_eq_false, if_false] at h
        cases clusters with
        | nil => simp at h
        | cons c rest =>
          simp only [Except.ok.injEq] at h
          exact ⟨c, rest, wT, rfl, hw, hb1, h.symm⟩

theorem loadSkin_nB_zero (nV : Nat) (skin : Option (List FbxCluster)) (g : Matrix4d)
    (sk : SkinData) (h : loadSkin nV skin g = Except.ok sk) (h0 : sk.nB = 0) :
    skin = none ∧ sk.jointName = [] ∧ sk.wT = [] := by
  rcases loadSkin_ok nV skin g sk h with ⟨hs, hk⟩ | ⟨c, rest, wT, hs, _, _, hk⟩
  · subst hk
    exact ⟨hs, rfl, rfl⟩
  · subst hk
    simp at h0

/-- What a successful `load` leaves in the importer, in terms of the scene. -/
theorem load_ok (imp : FbxSceneImporter) (scene : FbxScene) (fTime : List ℚ)
    (imp1 : FbxSceneImporter) (h : load imp scene fTime = Except.ok imp1) :
    ∃ mesh sk, scene.mesh = some mesh ∧
      loadSkin mesh.controlPoints.length scene.skin mesh.nodeGlobal = Except.ok sk ∧
      (sk.nB = 0 ∨ (sceneJoints scene).length = sk.nB) ∧
      imp1.v = mesh.controlPoints.map (transformPoint sk.gMat) ∧
      imp1.fv = mesh.polygons ∧
      imp1.jointName
        = (if sk.nB = 0 then (sceneJoints scene).map JointNode.name else sk.jointName) ∧
      imp1.wT = sk.wT ∧
      imp1.parent = tableOf JointNode.parentName (sceneJoints scene) [] ∧
      imp1.bind = tableOf bindOf (sceneJoints scene) [] ∧
      imp1.preMulInv = tableOf preMulInvValue (sceneJoints scene) [] ∧
      imp1.rotOrder = rotOrderTable (sceneJoints scene) imp.rotOrder ∧
      imp1.hasKeyFrame = (sceneJoints scene).any hasCurve ∧
      imp1.m = seriesTable fTime (tableOf bindOf (sceneJoints scene) []) (sceneJoints scene) [] := by
  have hjn : travel scene.root [] none none [] = sceneJoints scene := rfl
  unfold load at h
  cases hm : scene.mesh with
  | none => simp [hm] at h
  | some mesh =>
    simp only [hm, hjn] at h
    cases hs : loadSkin mesh.controlPoints.length scene.skin mesh.nodeGlobal with
    | error e => simp [hs] at h
    | ok sk =>
      simp only [hs] at h
      refine ⟨mesh, sk, rfl, hs, ?_⟩
      by_cases h1 : sk.nB = 0 ∧ (sceneJoints scene).length = 0
      · simp only [h1, and_self, if_true, Except.ok.injEq] at h
        have hnil : sceneJoints scene = [] := List.length_eq_zero.mp h1.2
        obtain ⟨_, hjn0, _⟩ := loadSkin_nB_zero _ _ _ _ hs h1.1
        subst h
        simp [hnil, h1.1, hjn0, tableOf, rotOrderTable, seriesTable]
      · simp only [h1, if_false] at h
        by_cases h2 : sk.nB ≠ 0 ∧ (sceneJoints scene).length ≠ sk.nB
        · simp [h2] at h
        · simp only [h2, if_false] at h
          cases hl : loadJoints (sceneJoints scene)
              ⟨mesh.controlPoints.map (transformPoint sk.gMat), mesh.polygons,
                if sk.nB = 0 then (sceneJoints scene).map JointNode.name else sk.jointName,
                [], sk.wT, [], [], imp.rotOrder, [], false⟩ with
          | error e => simp [hl] at h
          | ok imp2 =>
            simp only [hl] at h
            obtain ⟨a1, a2, a3, a4, a5, a6, a7, a8, a9, a10⟩ := loadJoints_ok _ _ _ hl
            obtain ⟨b1, b2, b3, b4, b5, b6, b7, b8, b9, b10⟩ := sampleJoints_ok _ _ _ _ h
            refine ⟨?_, ?_, ?_, ?_, ?_, ?_, ?_, ?_, ?_, ?_, ?_⟩
            · by_cases h0 : sk.nB = 0
              · exact Or.inl h0
              · right
                by_contra hne
                exact h2 ⟨h0, hne⟩
            · rw [b1, a1]
            · rw [b2, a2]
            · rw [b3, a3]
            · rw [b4, a4]
            · rw [b5, a7]
            · rw [b6, a8]
            · rw [b7, a9]
            · rw [b8, a10]
            · rw [b9, a6]
              simp
            · rw [b10, a8, a5]

/-! ## The inner loops of `readFBXs` -/

theorem DenseMat.setBlock_some {α : Type} (M M1 : DenseMat (Option α)) (r0 c0 h w sr sc : Nat)
    (src : Nat → Nat → Option α) (hs : M.setBlock r0 c0 h w sr sc src = some M1) :
    M1.rows = M.rows ∧ M1.cols = M.cols ∧ r0 + h ≤ M.rows ∧ c0 + w ≤ M.cols ∧ sr = h ∧
    sc = w ∧
    M1.coeff = fun i j =>
      if r0 ≤ i ∧ i < r0 + h ∧ c0 ≤ j ∧ j < c0 + w then src (i - r0) (j - c0)
      else M.coeff i j := by
  unfold DenseMat.setBlock at hs
  split_ifs at hs with hc
  simp only [Option.some.injEq] at hs
  subst hs
  exact ⟨rfl, rfl, hc.1, hc.2.1, hc.2.2.1, hc.2.2.2, rfl⟩

theorem writeSeries_size (s nFr : Nat) (imp : FbxSceneImporter) (names : List String)
    (j : Nat) (M M1 : DenseMat (Option ℚ))
    (h : writeSeries s nFr imp names j M = some M1) :
    M1.rows = M.rows ∧ M1.cols = M.cols := by
  induction names generalizing j M with
  | nil =>
    simp only [writeSeries, Option.some.injEq] at h
    subst h
    exact ⟨rfl, rfl⟩
  | cons nj names ih =>
    simp only [writeSeries] at h
    cases hf : imp.m.find nj with
    | none =>
      simp only [hf] at h
      cases hb : M.setBlock (s * 4) (j * 4) (nFr * 4) 4 0 0 (fun _ _ => none) with
      | none => simp [hb] at h
      | some M2 =>
        simp only [hb] at h
        obtain ⟨r, c, _⟩ := DenseMat.setBlock_some _ _ _ _ _ _ _ _ _ hb
        obtain ⟨r1, c1⟩ := ih _ _ h
        exact ⟨r1.trans r, c1.trans c⟩
    | some frames =>
      simp only [hf] at h
      cases hb : M.setBlock (s * 4) (j * 4) (nFr * 4) 4 (4 * frames.length) 4
          (seriesSrc frames) with
      | none => simp [hb] at h
      | some M2 =>
        simp only [hb] at h
        obtain ⟨r, c, _⟩ := DenseMat.setBlock_some _ _ _ _ _ _ _ _ _ hb
        obtain ⟨r1, c1⟩ := ih _ _ h
        exact ⟨r1.trans r, c1.trans c⟩

theorem initJoints_keeps (s : Nat) (imp : FbxSceneImporter) (names : List String) (j : Nat)
    (model model1 : DemBonesExt) (ro ro1 : StrMap (Option (Int × Int × Int)))
    (h : initJoints s imp names j (model, ro) = some (model1, ro1)) :
    SameInputs model model1 ∧ model1.fv = model.fv ∧ model1.nB = model.nB ∧
    model1.boneName = model.boneName ∧ model1.u = model.u ∧ model1.m = model.m ∧
    model1.parent.size = model.parent.size := by
  induction names generalizing j model ro with
  | nil =>
    simp only [initJoints, Option.some.injEq, Prod.mk.injEq] at h
    obtain ⟨h1, _⟩ := h
    subst h1
    exact ⟨⟨rfl, rfl, rfl, rfl, rfl, rfl⟩, rfl, rfl, rfl, rfl, rfl, rfl⟩
  | cons nj names ih =>
    simp only [initJoints] at h
    cases hp : model.parent.setAt j (findParent model.boneName 0 (parentNameOf imp nj) (-1)) with
    | none => simp [hp] at h
    | some par =>
      cases hb : setBlk4 model.bind s j (imp.bind.find nj) with
      | none => simp [hp, hb] at h
      | some bd =>
        cases hq : setBlk4 model.preMulInv s j (imp.preMulInv.find nj) with
        | none => simp [hp, hb, hq] at h
        | some pm =>
          cases hr : setVec3 model.rotOrder s j ((ro.find nj).getD none) with
          | none => simp [hp, hb, hq, hr] at h
          | some rt =>
            simp only [hp, hb, hq, hr] at h
            obtain ⟨⟨a1, a2, a3, a4, a5, a6⟩, b1, b2, b3, b4, b5, b6⟩ := ih _ _ _ h
            have hsz : par.size = model.parent.size := by
              unfold DenseVec.setAt at hp
              split_ifs at hp
              simp only [Option.some.injEq] at hp
              subst hp
              rfl
            exact ⟨⟨a1, a2, a3, a4, a5, a6⟩, b1, b2, b3, b4, b5, b6.trans hsz⟩

theorem aggregateParentName_congr (a b : DemBonesExt) (j : Nat) (hp : b.parent = a.parent)
    (hb : b.boneName = a.boneName) : aggregateParentName b j = aggregateParentName a j := by
  simp only [aggregateParentName, hp, hb]

theorem mergeJoints_ok (s : Nat) (imp : FbxSceneImporter) (names : List String) (j : Nat)
    (model model1 : DemBonesExt) (h : mergeJoints s imp names j model = (Status.ok, model1)) :
    SameInputs model model1 ∧ model1.fv = model.fv ∧ model1.nB = model.nB ∧
    model1.boneName = model.boneName ∧ model1.u = model.u ∧ model1.m = model.m ∧
    model1.parent = model.parent ∧
    ∀ i nj, names[i]? = some nj →
      ∃ pn, imp.parent.find nj = some pn ∧ aggregateParentName model (j + i) = some pn ∧
        (imp.bind.find nj).isSome ∧ (imp.preMulInv.find nj).isSome ∧
        (imp.rotOrder.find nj).isSome := by
  induction names generalizing j model with
  | nil =>
    simp only [mergeJoints, Prod.mk.injEq, true_and] at h
    subst h
    refine ⟨⟨rfl, rfl, rfl, rfl, rfl, rfl⟩, rfl, rfl, rfl, rfl, rfl, rfl, ?_⟩
    intro i nj hi
    simp at hi
  | cons n0 names ih =>
    simp only [mergeJoints] at h
    cases hP : imp.parent.find n0 with
    | none => simp [hP] at h
    | some pn =>
      cases hA : aggregateParentName model j with
      | none => simp [hP, hA] at h
      | some pName =>
        by_cases hne : pn ≠ pName
        · simp [hP, hA, hne] at h
        · have heq : pn = pName := by simpa using hne
          cases hB : imp.bind.find n0 with
          | none => simp [hP, hA, heq, hB] at h
          | some b =>
            cases hbd : setBlk4 model.bind s j (some b) with
            | none => simp [hP, hA, heq, hB, hbd] at h
            | some bd =>
              cases hQ : imp.preMulInv.find n0 with
              | none => simp [hP, hA, heq, hB, hbd, hQ] at h
              | some p =>
                cases hpm : setBlk4 model.preMulInv s j (some p) with
                | none => simp [hP, hA, heq, hB, hbd, hQ, hpm] at h
                | some pm =>
                  cases hR : imp.rotOrder.find n0 with
                  | none => simp [hP, hA, heq, hB, hbd, hQ, hpm, hR] at h
                  | some code =>
                    cases hrt : setVec3 model.rotOrder s j code with
                    | none => simp [hP, hA, heq, hB, hbd, hQ, hpm, hR, hrt] at h
                    | some rt =>
                      simp only [hP, hA, heq, hB, hbd, hQ, hpm, hR, hrt, ne_eq,
                        not_true_eq_false, if_false] at h
                      obtain ⟨⟨a1, a2, a3, a4, a5, a6⟩, b1, b2, b3, b4, b5, b6, hall⟩ :=
                        ih _ _ h
                      refine ⟨⟨a1, a2, a3, a4, a5, a6⟩, b1, b2, b3, b4, b5, b6, ?_⟩
                      intro i nj hi
                      cases i with
                      | zero =>
                        simp only [List.getElem?_cons_zero, Option.some.injEq] at hi
                        subst hi
                        exact ⟨pName, by rw [hP, heq], by simpa using hA, by simp [hB],
                          by simp [hQ], by simp [hR]⟩
                      | succ k =>
                        simp only [List.getElem?_cons_succ] at hi
                        obtain ⟨pn1, c1, c2, c3⟩ := hall k nj hi
                        refine ⟨pn1, c1, ?_, c3⟩
                        rw [← c2, show j + (k + 1) = j + 1 + k by omega]
                        exact (aggregateParentName_congr model _ _ rfl rfl).symm

theorem DenseMat.resize_size {α : Type} (M : DenseMat (Option α)) (r c : Nat) :
    (M.resize r c).rows = r ∧ (M.resize r c).cols = c := by
  unfold DenseMat.resize
  split_ifs with h1 h2
  · exact ⟨h1.1, h1.2⟩
  · exact ⟨rfl, rfl⟩
  · exact ⟨rfl, rfl⟩

theorem DenseMat.resize_same {α : Type} (M : DenseMat (Option α)) (r c : Nat)
    (hr : M.rows = r) (hc : M.cols = c) : M.resize r c = M := by
  unfold DenseMat.resize
  simp [hr, hc]

theorem initWeights_size (imp : FbxSceneImporter) (names : List String) (j : Nat)
    (wd wd1 : DenseMat ℚ) (h : initWeights imp names j wd = some wd1) :
    wd1.rows = wd.rows ∧ wd1.cols = wd.cols := by
  induction names generalizing j wd with
  | nil =>
    simp only [initWeights, Option.some.injEq] at h
    subst h
    exact ⟨rfl, rfl⟩
  | cons nj names ih =>
    simp only [initWeights] at h
    cases hr : setRow wd j (weightsOf imp nj) with
    | none => simp [hr] at h
    | some wd2 =>
      simp only [hr] at h
      obtain ⟨r1, c1⟩ := ih _ _ h
      unfold setRow at hr
      split_ifs at hr
      simp only [Option.some.injEq] at hr
      subst hr
      exact ⟨r1, c1⟩

theorem mergeWeights_size (imp : FbxSceneImporter) (names : List String) (j : Nat)
    (wd wd1 : DenseMat ℚ) (h : mergeWeights imp names j wd = some wd1) :
    wd1.rows = wd.rows ∧ wd1.cols = wd.cols := by
  induction names generalizing j wd with
  | nil =>
    simp only [mergeWeights, Option.some.injEq] at h
    subst h
    exact ⟨rfl, rfl⟩
  | cons nj names ih =>
    simp only [mergeWeights] at h
    cases hr : addCol wd j (weightsOf imp nj) with
    | none => simp [hr] at h
    | some wd2 =>
      simp only [hr] at h
      obtain ⟨r1, c1⟩ := ih _ _ h
      unfold addCol at hr
      split_ifs at hr
      simp only [Option.some.injEq] at hr
      subst hr
      exact ⟨r1, c1⟩

theorem finishSubject_next (s nFr : Nat) (model : DemBonesExt) (imp : FbxSceneImporter)
    (wd : DenseMat ℚ) (hkf : Bool) (st1 : ReadState)
    (h : finishSubject s nFr model imp wd hkf = Step.next st1) :
    ∃ M, writeSeries s nFr imp model.boneName 0 model.m = some M ∧
      st1 = ⟨{ model with m := M }, imp, wd, hkf || imp.hasKeyFrame⟩ := by
  unfold finishSubject at h
  cases hw : writeSeries s nFr imp model.boneName 0 model.m with
  | none => simp [hw] at h
  | some M =>
    simp only [hw, Step.next.injEq] at h
    exact ⟨M, rfl, h.symm⟩

/-- What a pass for subject 0 that goes on to the next subject has done. -/
theorem initSubject_next (s nFr : Nat) (model : DemBonesExt) (imp : FbxSceneImporter)
    (wd : DenseMat ℚ) (hkf : Bool) (st1 : ReadState)
    (h : initSubject s nFr model imp wd hkf = Step.next st1) :
    imp.v.length = model.nV ∧ SameInputs model st1.model ∧ st1.model.fv = imp.fv ∧
    st1.model.boneName = imp.jointName ∧ st1.model.nB = imp.jointName.length ∧
    st1.model.m.rows = model.nF * 4 ∧ st1.model.m.cols = imp.jointName.length * 4 ∧
    st1.wd.rows = (if imp.wT.size ≠ 0 then imp.jointName.length else wd.rows) ∧
    st1.hasKeyFrame = (hkf || imp.hasKeyFrame) ∧
    ∃ u1 model1 ro,
      (model.u.resize (model.nS * 3) model.nV).setBlock 0 0 3 model.nV 3 imp.v.length
        (fun i c => if h : i < 3 then (imp.v[c]?).map (fun p => p ⟨i, h⟩) else none)
        = some u1 ∧
      initJoints s imp imp.jointName 0
        ({ model with
            u := u1
            fv := imp.fv
            nB := imp.jointName.length
            boneName := imp.jointName
            parent := model.parent.resize imp.jointName.length
            bind := model.bind.resize (model.nS * 4) (imp.jointName.length * 4)
            preMulInv := model.preMulInv.resize (model.nS * 4) (imp.jointName.length * 4)
            rotOrder := model.rotOrder.resize (model.nS * 3) imp.jointName.length },
          imp.rotOrder) = some (model1, ro) ∧
      st1.importer = { imp with rotOrder := ro } ∧
      st1.model.parent = model1.parent ∧ st1.model.bind = model1.bind ∧
      st1.model.preMulInv = model1.preMulInv ∧ st1.model.rotOrder = model1.rotOrder ∧
      st1.model.u = u1 := by
  unfold initSubject at h
  by_cases hv : imp.v.length ≠ model.nV
  · simp [hv] at h
  · have hv1 : imp.v.length = model.nV := by simpa using hv
    simp only [hv, if_false] at h
    cases hu : (model.u.resize (model.nS * 3) model.nV).setBlock 0 0 3 model.nV 3 imp.v.length
        (fun i c => if h : i < 3 then (imp.v[c]?).map (fun p => p ⟨i, h⟩) else none) with
    | none => simp [hu] at h
    | some u1 =>
      simp only [hu] at h
      cases hj : initJoints s imp imp.jointName 0
        ({ model with
            u := u1
            fv := imp.fv
            nB := imp.jointName.length
            boneName := imp.jointName
            parent := model.parent.resize imp.jointName.length
            bind := model.bind.resize (model.nS * 4) (imp.jointName.length * 4)
            preMulInv := model.preMulInv.resize (model.nS * 4) (imp.jointName.length * 4)
            rotOrder := model.rotOrder.resize (model.nS * 3) imp.jointName.length },
          imp.rotOrder) with
      | none => simp [hj] at h
      | some res =>
        obtain ⟨model1, ro⟩ := res
        simp only [hj] at h
        obtain ⟨⟨a1, a2, a3, a4, a5, a6⟩, b1, b2, b3, b4, b5, b6⟩ :=
          initJoints_keeps _ _ _ _ _ _ _ _ hj
        have b1 : model1.fv = imp.fv := b1
        have b2 : model1.nB = imp.jointName.length := b2
        have b3 : model1.boneName = imp.jointName := b3
        have b4 : model1.u = u1 := b4
        have b5 : model1.m = model.m := b5
        have a3 : model1.nF = model.nF := a3
        by_cases hw : imp.wT.size ≠ 0
        · rw [if_pos hw] at h
          cases hi : initWeights imp model1.boneName 0 (zeroMat model1.nB model1.nV) with
          | none => simp [hi] at h
          | some wd1 =>
            simp only [hi] at h
            obtain ⟨M, hM, hst⟩ := finishSubject_next _ _ _ _ _ _ _ h
            obtain ⟨r1, c1⟩ := writeSeries_size _ _ _ _ _ _ _ hM
            obtain ⟨r2, c2⟩ := initWeights_size _ _ _ _ _ hi
            obtain ⟨r3, c3⟩ := DenseMat.resize_size model1.m (model1.nF * 4) (model1.nB * 4)
            subst hst
            have r1a : M.rows = (model1.m.resize (model1.nF * 4) (model1.nB * 4)).rows := r1
            have c1a : M.cols = (model1.m.resize (model1.nF * 4) (model1.nB * 4)).cols := c1
            refine ⟨hv1, ⟨a1, a2, a3, a4, a5, a6⟩, b1, b3, b2, ?_, ?_, ?_, rfl,
              u1, model1, ro, by first | exact hu | rfl, hj,
              rfl, rfl, rfl, rfl, rfl, b4⟩
            · show M.rows = model.nF * 4
              rw [r1a, r3, a3]
            · show M.cols = imp.jointName.length * 4
              rw [c1a, c3, b2]
            · show wd1.rows = _
              rw [r2]
              simp [hw, zeroMat, b2]
        · rw [if_neg hw] at h
          obtain ⟨M, hM, hst⟩ := finishSubject_next _ _ _ _ _ _ _ h
          obtain ⟨r1, c1⟩ := writeSeries_size _ _ _ _ _ _ _ hM
          obtain ⟨r3, c3⟩ := DenseMat.resize_size model1.m (model1.nF * 4) (model1.nB * 4)
          subst hst
          have r1a : M.rows = (model1.m.resize (model1.nF * 4) (model1.nB * 4)).rows := r1
          have c1a : M.cols = (model1.m.resize (model1.nF * 4) (model1.nB * 4)).cols := c1
          refine ⟨hv1, ⟨a1, a2, a3, a4, a5, a6⟩, b1, b3, b2, ?_, ?_, ?_, rfl,
            u1, model1, ro, by first | exact hu | rfl, hj,
              rfl, rfl, rfl, rfl, rfl, b4⟩
          · show M.rows = model.nF * 4
            rw [r1a, r3, a3]
          · show M.cols = imp.jointName.length * 4
            rw [c1a, c3, b2]
          · show wd.rows = _
            simp [hw]

/-- What a pass for a subject `s != 0` that goes on to the next subject has checked and
done. -/
theorem mergeSubject_next (s nFr : Nat) (model : DemBonesExt) (imp : FbxSceneImporter)
    (wd : DenseMat ℚ) (hkf : Bool) (st1 : ReadState)
    (h : mergeSubject s nFr model imp wd hkf = Step.next st1) :
    imp.v.length = model.nV ∧ model.fv = imp.fv ∧ model.nB = imp.jointName.length ∧
    SameInputs model st1.model ∧ st1.model.fv = model.fv ∧ st1.model.nB = model.nB ∧
    st1.model.boneName = model.boneName ∧
    st1.model.parent = model.parent.resize model.nB ∧
    st1.model.m.rows = model.m.rows ∧ st1.model.m.cols = model.m.cols ∧
    wd.rows = imp.wT.size ∧ st1.wd.rows = wd.rows ∧ st1.wd.cols = wd.cols ∧
    st1.hasKeyFrame = (hkf || imp.hasKeyFrame) ∧ st1.importer = imp ∧
    (∀ i nj, model.boneName[i]? = some nj →
      ∃ pn, imp.parent.find nj = some pn ∧ aggregateParentName st1.model i = some pn ∧
        (imp.bind.find nj).isSome ∧ (imp.preMulInv.find nj).isSome ∧
        (imp.rotOrder.find nj).isSome) := by
  unfold mergeSubject at h
  by_cases hv : imp.v.length ≠ model.nV
  · simp [hv] at h
  · have hv1 : imp.v.length = model.nV := by simpa using hv
    rw [if_neg hv] at h
    cases hu : model.u.setBlock (s * 3) 0 3 model.nV 3 imp.v.length
        (fun i c => if h : i < 3 then (imp.v[c]?).map (fun p => p ⟨i, h⟩) else none) with
    | none => simp [hu] at h
    | some u1 =>
      simp only [hu] at h
      by_cases hf : model.fv ≠ imp.fv
      · simp [hf] at h
      · have hf1 : model.fv = imp.fv := by simpa using hf
        rw [if_neg hf] at h
        by_cases hn : model.nB ≠ imp.jointName.length
        · simp [hn] at h
        · have hn1 : model.nB = imp.jointName.length := by simpa using hn
          rw [if_neg hn] at h
          cases hmj : mergeJoints s imp model.boneName 0
              { model with
                u := u1
                parent := model.parent.resize model.nB
                bind := model.bind.resize (model.nS * 4) (model.nB * 4)
                preMulInv := model.preMulInv.resize (model.nS * 4) (model.nB * 4)
                rotOrder := model.rotOrder.resize (model.nS * 3) model.nB } with
          | mk r model1 =>
            rw [hmj] at h
            cases r with
            | err msg => simp at h
            | fail => simp at h
            | undef => simp at h
            | ok =>
              simp only at h
              obtain ⟨⟨a1, a2, a3, a4, a5, a6⟩, b1, b2, b3, b4, b5, b6, hall⟩ :=
                mergeJoints_ok _ _ _ _ _ _ hmj
              have b1 : model1.fv = model.fv := b1
              have b2 : model1.nB = model.nB := b2
              have b3 : model1.boneName = model.boneName := b3
              have b5 : model1.m = model.m := b5
              have b6 : model1.parent = model.parent.resize model.nB := b6
              by_cases hwr : wd.rows ≠ imp.wT.size
              · simp [hwr] at h
              · have hwr1 : wd.rows = imp.wT.size := by simpa using hwr
                rw [if_neg hwr] at h
                cases hmw : (if wd.rows ≠ 0 then mergeWeights imp model1.boneName 0 wd
                    else some wd) with
                | none => simp [hmw] at h
                | some wd1 =>
                  simp only [hmw] at h
                  obtain ⟨M, hM, hst⟩ := finishSubject_next _ _ _ _ _ _ _ h
                  obtain ⟨r1, c1⟩ := writeSeries_size _ _ _ _ _ _ _ hM
                  have hwd : wd1.rows = wd.rows ∧ wd1.cols = wd.cols := by
                    by_cases h0 : wd.rows ≠ 0
                    · rw [if_pos h0] at hmw
                      exact mergeWeights_size _ _ _ _ _ hmw
                    · rw [if_neg h0] at hmw
                      simp only [Option.some.injEq] at hmw
                      subst hmw
                      exact ⟨rfl, rfl⟩
                  subst hst
                  refine ⟨hv1, hf1, hn1, ⟨a1, a2, a3, a4, a5, a6⟩, b1, b2, b3, b6, ?_, ?_,
                    hwr1, hwd.1, hwd.2, rfl, rfl, ?_⟩
                  · show M.rows = model.m.rows
                    rw [r1, b5]
                  · show M.cols = model.m.cols
                    rw [c1, b5]
                  · intro i nj hi
                    obtain ⟨pn, c1, c2, c3⟩ := hall i nj hi
                    refine ⟨pn, c1, ?_, c3⟩
                    rw [← c2, Nat.zero_add]
                    exact aggregateParentName_congr _ _ _ b6 b3

/-! ## `load` never fails with the status `ok` -/

theorem loadJoints_error_ne_ok (jn : List JointNode) (imp : FbxSceneImporter) (e : Status)
    (h : loadJoints jn imp = Except.error e) : e ≠ Status.ok := by
  induction jn generalizing imp with
  | nil => simp [loadJoints] at h
  | cons x rest ih =>
    simp only [loadJoints] at h
    cases hpm : preMulInvOf x with
    | error e1 =>
      rw [hpm] at h
      simp only [Except.error.injEq] at h
      subst h
      unfold preMulInvOf at hpm
      split_ifs at hpm
      cases hp : x.pNode.parent with
      | none =>
        simp only [hp, Except.error.injEq] at hpm
        subst hpm
        simp
      | some p =>
        cases hq : x.pParentJoint <;> simp [hp, hq] at hpm
    | ok pm =>
      rw [hpm] at h
      exact ih _ h

theorem sampleJoints_error_ne_ok (fTime : List ℚ) (jn : List JointNode)
    (imp : FbxSceneImporter) (e : Status)
    (h : sampleJoints fTime jn imp = Except.error e) : e ≠ Status.ok := by
  induction jn generalizing imp with
  | nil => simp [sampleJoints] at h
  | cons x rest ih =>
    simp only [sampleJoints] at h
    cases hb : imp.bind.find x.name with
    | none =>
      simp only [hb, Except.error.injEq] at h
      subst h
      simp
    | some b =>
      simp only [hb] at h
      exact ih _ h

theorem loadSkin_error_ne_ok (nV : Nat) (skin : Option (List FbxCluster)) (g : Matrix4d)
    (e : Status) (h : loadSkin nV skin g = Except.error e) : e ≠ Status.ok := by
  cases skin with
  | none => simp [loadSkin] at h
  | some clusters =>
    simp only [loadSkin] at h
    cases hw : loadWeights nV clusters [] with
    | error e1 =>
      simp only [hw, Except.error.injEq] at h
      subst h
      exact loadWeights_error_ne_ok _ _ _ _ hw
    | ok wT =>
      simp only [hw] at h
      split_ifs at h with hb
      · simp only [Except.error.injEq] at h
        subst h
        simp
      · cases clusters with
        | nil =>
          simp only [Except.error.injEq] at h
          subst h
          simp
        | cons c rest => simp at h

theorem load_error_ne_ok (imp : FbxSceneImporter) (scene : FbxScene) (fTime : List ℚ)
    (e : Status) (h : load imp scene fTime = Except.error e) : e ≠ Status.ok := by
  unfold load at h
  cases hm : scene.mesh with
  | none =>
    simp only [hm, Except.error.injEq] at h
    subst h
    simp
  | some mesh =>
    simp only [hm] at h
    cases hs : loadSkin mesh.controlPoints.length scene.skin mesh.nodeGlobal with
    | error e1 =>
      simp only [hs, Except.error.injEq] at h
      subst h
      exact loadSkin_error_ne_ok _ _ _ _ hs
    | ok sk =>
      simp only [hs] at h
      split_ifs at h
      all_goals first
        | (simp only [Except.error.injEq] at h; subst h; simp)
        | (split at h
           · rename_i e1 hl
             simp only [Except.error.injEq] at h
             subst h
             exact loadJoints_error_ne_ok _ _ _ hl
           · exact sampleJoints_error_ne_ok _ _ _ _ h)

/-! ## The loop of `readFBXs` -/

/-- A pass that goes on has opened the file, found the frame range, loaded the scene and run
the branch of the subject. -/
theorem readSubject_next (fsys : String → Option FbxScene) (fileNames : List String)
    (s : Nat) (st st1 : ReadState) (h : readSubject fsys fileNames s st = Step.next st1) :
    ∃ scene a b imp, subjectScene fsys fileNames s = some scene ∧
      frameRange st.model s = some (a, b) ∧
      load st.importer scene (segment st.model.fTime a b) = Except.ok imp ∧
      (if s = 0 then initSubject s (b - a) st.model imp st.wd st.hasKeyFrame
        else mergeSubject s (b - a) st.model imp st.wd st.hasKeyFrame) = Step.next st1 := by
  unfold readSubject at h
  cases hf : fileNames[s]? with
  | none => simp [hf] at h
  | some file =>
    simp only [hf] at h
    cases ho : fsys file with
    | none => simp [ho] at h
    | some scene =>
      simp only [ho] at h
      cases hr : frameRange st.model s with
      | none => simp [hr] at h
      | some ab =>
        obtain ⟨a, b⟩ := ab
        simp only [hr] at h
        cases hl : load st.importer scene (segment st.model.fTime a b) with
        | error e => simp [hl] at h
        | ok imp =>
          simp only [hl] at h
          exact ⟨scene, a, b, imp, by simp [subjectScene, hf, ho], rfl, hl, h⟩

theorem readLoop_invariant (fsys : String → Option FbxScene) (fileNames : List String)
    (P : Nat → ReadState → Prop) (n : Nat) :
    ∀ (s : Nat) (st st1 : ReadState), P s st →
      (∀ i sti sti1, s ≤ i → i < s + n → P i sti →
        readSubject fsys fileNames i sti = Step.next sti1 → P (i + 1) sti1) →
      readLoop fsys fileNames n s st = Step.next st1 → P (s + n) st1 := by
  induction n with
  | zero =>
    intro s st st1 h0 _ h
    simp only [readLoop, Step.next.injEq] at h
    subst h
    exact h0
  | succ n ih =>
    intro s st st1 h0 hstep h
    simp only [readLoop] at h
    cases hr : readSubject fsys fileNames s st with
    | stop r m => simp [hr] at h
    | next st2 =>
      simp only [hr] at h
      have h2 := hstep s st st2 (Nat.le_refl s) (by omega) h0 hr
      have := ih (s + 1) st2 st1 h2
        (fun i sti sti1 hi1 hi2 => hstep i sti sti1 (by omega) (by omega)) h
      rw [show s + (n + 1) = s + 1 + n by omega]
      exact this

theorem readLoop_add (fsys : String → Option FbxScene) (fileNames : List String)
    (a b s : Nat) (st : ReadState) :
    readLoop fsys fileNames (a + b) s st =
      match readLoop fsys fileNames a s st with
      | Step.next st1 => readLoop fsys fileNames b (s + a) st1
      | Step.stop r m => Step.stop r m := by
  induction a generalizing s st with
  | zero => simp [readLoop]
  | succ a ih =>
    rw [show a + 1 + b = (a + b) + 1 by omega]
    simp only [readLoop]
    cases hr : readSubject fsys fileNames s st with
    | stop r m => rfl
    | next st2 =>
      simp only []
      rw [ih, show s + (a + 1) = s + 1 + a by omega]

theorem finishSubject_stop_ne_ok (s nFr : Nat) (model : DemBonesExt)
    (imp : FbxSceneImporter) (wd : DenseMat ℚ) (hkf : Bool) (r : Status) (m : DemBonesExt)
    (h : finishSubject s nFr model imp wd hkf = Step.stop r m) : r ≠ Status.ok := by
  unfold finishSubject at h
  split at h
  · simp only [Step.stop.injEq] at h
    rw [← h.1]
    simp
  · simp at h

theorem initSubject_stop_ne_ok (s nFr : Nat) (model : DemBonesExt)
    (imp : FbxSceneImporter) (wd : DenseMat ℚ) (hkf : Bool) (r : Status) (m : DemBonesExt)
    (h : initSubject s nFr model imp wd hkf = Step.stop r m) : r ≠ Status.ok := by
  unfold initSubject at h
  by_cases hv : imp.v.length ≠ model.nV
  · rw [if_pos hv] at h
    simp only [Step.stop.injEq] at h
    rw [← h.1]
    simp
  · rw [if_neg hv] at h
    split at h
    · simp only [Step.stop.injEq] at h
      rw [← h.1]
      simp
    · split at h
      · simp only [Step.stop.injEq] at h
        rw [← h.1]
        simp
      · split at h
        · simp only [Step.stop.injEq] at h
          rw [← h.1]
          simp
        · exact finishSubject_stop_ne_ok _ _ _ _ _ _ _ _ h

theorem mergeSubject_stop_ne_ok (s nFr : Nat) (model : DemBonesExt)
    (imp : FbxSceneImporter) (wd : DenseMat ℚ) (hkf : Bool) (r : Status) (m : DemBonesExt)
    (h : mergeSubject s nFr model imp wd hkf = Step.stop r m) : r ≠ Status.ok := by
  unfold mergeSubject at h
  by_cases hv : imp.v.length ≠ model.nV
  · rw [if_pos hv] at h
    simp only [Step.stop.injEq] at h
    rw [← h.1]
    simp
  · rw [if_neg hv] at h
    split at h
    · simp only [Step.stop.injEq] at h
      rw [← h.1]
      simp
    · by_cases hf : model.fv ≠ imp.fv
      · rw [if_pos hf] at h
        simp only [Step.stop.injEq] at h
        rw [← h.1]
        simp
      · rw [if_neg hf] at h
        by_cases hn : model.nB ≠ imp.jointName.length
        · rw [if_pos hn] at h
          simp only [Step.stop.injEq] at h
          rw [← h.1]
          simp
        · rw [if_neg hn] at h
          split at h
          · by_cases hw : wd.rows ≠ imp.wT.size
            · rw [if_pos hw] at h
              simp only [Step.stop.injEq] at h
              rw [← h.1]
              simp
            · rw [if_neg hw] at h
              split at h
              · simp only [Step.stop.injEq] at h
                rw [← h.1]
                simp
              · exact finishSubject_stop_ne_ok _ _ _ _ _ _ _ _ h
          · rename_i r1 model1 hne heq
            simp only [Step.stop.injEq] at h
            rw [← h.1]
            intro hr
            subst hr
            exact hne rfl

theorem readSubject_stop_ne_ok (fsys : String → Option FbxScene) (fileNames : List String)
    (s : Nat) (st : ReadState) (r : Status) (m : DemBonesExt)
    (h : readSubject fsys fileNames s st = Step.stop r m) : r ≠ Status.ok := by
  unfold readSubject at h
  split at h
  · simp only [Step.stop.injEq] at h
    rw [← h.1]
    simp
  · split at h
    · simp only [Step.stop.injEq] at h
      rw [← h.1]
      simp
    · split at h
      · simp only [Step.stop.injEq] at h
        rw [← h.1]
        simp
      · split at h
        · rename_i e hl
          simp only [Step.stop.injEq] at h
          rw [← h.1]
          exact load_error_ne_ok _ _ _ _ hl
        · split_ifs at h
          · exact initSubject_stop_ne_ok _ _ _ _ _ _ _ _ h
          · exact mergeSubject_stop_ne_ok _ _ _ _ _ _ _ _ h

theorem readLoop_stop_ne_ok (fsys : String → Option FbxScene) (fileNames : List String)
    (n s : Nat) (st : ReadState) (r : Status) (m : DemBonesExt)
    (h : readLoop fsys fileNames n s st = Step.stop r m) : r ≠ Status.ok := by
  induction n generalizing s st with
  | zero => simp [readLoop] at h
  | succ n ih =>
    simp only [readLoop] at h
    cases hr : readSubject fsys fileNames s st with
    | stop r1 m1 =>
      simp only [hr, Step.stop.injEq] at h
      rw [← h.1]
      exact readSubject_stop_ne_ok _ _ _ _ _ _ hr
    | next st2 =>
      simp only [hr] at h
      exact ih _ _ h

/-- A call of `readFBXs` that returns `true` has run the loop over all `nS` subjects and
finalised the state the loop ended in. -/
theorem readFBXs_ok (fsys : String → Option FbxScene) (fileNames : List String)
    (model : DemBonesExt) (h : (readFBXs fsys fileNames model).ret = Status.ok) :
    fileNames.length = model.nS ∧
    ∃ st, readLoop fsys fileNames model.nS 0 (initialState model) = Step.next st ∧
      (readFBXs fsys fileNames model).model = finalize st := by
  unfold readFBXs at h ⊢
  by_cases hl : fileNames.length ≠ model.nS
  · simp [hl] at h
  · rw [if_neg hl] at h ⊢
    refine ⟨by simpa using hl, ?_⟩
    cases hr : readLoop fsys fileNames model.nS 0 (initialState model) with
    | stop r m =>
      simp only [hr] at h
      exact absurd h (readLoop_stop_ne_ok _ _ _ _ _ _ _ hr)
    | next st => exact ⟨st, rfl, rfl⟩

theorem finalize_keeps (st : ReadState) :
    (finalize st).nS = st.model.nS ∧ (finalize st).nV = st.model.nV ∧
    (finalize st).nF = st.model.nF ∧ (finalize st).nB = st.model.nB ∧
    (finalize st).fv = st.model.fv ∧ (finalize st).boneName = st.model.boneName ∧
    (finalize st).parent = st.model.parent ∧ (finalize st).bind = st.model.bind ∧
    (finalize st).preMulInv = st.model.preMulInv ∧
    (finalize st).rotOrder = st.model.rotOrder ∧ (finalize st).u = st.model.u :=
  ⟨rfl, rfl, rfl, rfl, rfl, rfl, rfl, rfl, rfl, rfl, rfl⟩

/-- C10: when `readFBXs` returns `true`, every subject's mesh has `model.nV` control points
and its polygon list is `model.fv`, polygon by polygon and index by index; subject 0 is one
of them, so `model.fv` is subject 0's list verbatim. -/
theorem readFBXs_ok_same_topology (fsys : String → Option FbxScene)
    (fileNames : List String) (model : DemBonesExt)
    (h : (readFBXs fsys fileNames model).ret = Status.ok) :
    (readFBXs fsys fileNames model).model.nV = model.nV ∧
    ∀ s, s < model.nS →
      ∃ scene mesh, subjectScene fsys fileNames s = some scene ∧ scene.mesh = some mesh ∧
        mesh.controlPoints.length = (readFBXs fsys fileNames model).model.nV ∧
        mesh.polygons = (readFBXs fsys fileNames model).model.fv := by
  obtain ⟨_, st, hloop, hres⟩ := readFBXs_ok fsys fileNames model h
  have hinv := readLoop_invariant fsys fileNames
    (fun i sti => sti.model.nV = model.nV ∧
      ∀ s, s < i → ∃ scene mesh, subjectScene fsys fileNames s = some scene ∧
        scene.mesh = some mesh ∧ mesh.controlPoints.length = model.nV ∧
        mesh.polygons = sti.model.fv)
    model.nS 0 (initialState model) st ⟨rfl, fun s hs => absurd hs (Nat.not_lt_zero s)⟩
    (by
      intro i sti sti1 _ _ hP hstep
      obtain ⟨hnV, hprev⟩ := hP
      obtain ⟨scene, a, b, imp, hscene, _, hload, hbranch⟩ :=
        readSubject_next fsys fileNames i sti sti1 hstep
      obtain ⟨mesh, sk, hmesh, _, _, hv, hfv, _⟩ := load_ok _ _ _ _ hload
      have hvlen : imp.v.length = mesh.controlPoints.length := by rw [hv, List.length_map]
      by_cases hi : i = 0
      · rw [if_pos hi] at hbranch
        obtain ⟨c1, ⟨_, c2, _⟩, c3, _⟩ := initSubject_next _ _ _ _ _ _ _ hbranch
        refine ⟨c2.trans hnV, ?_⟩
        intro s hs
        have hs0 : s = i := by omega
        subst hs0
        exact ⟨scene, mesh, hscene, hmesh, by rw [← hvlen, c1, hnV], by rw [c3, hfv]⟩
      · rw [if_neg hi] at hbranch
        obtain ⟨c1, c2, _, ⟨_, c3, _⟩, c4, _⟩ := mergeSubject_next _ _ _ _ _ _ _ hbranch
        refine ⟨c3.trans hnV, ?_⟩
        intro s hs
        by_cases hsi : s = i
        · subst hsi
          exact ⟨scene, mesh, hscene, hmesh, by rw [← hvlen, c1, hnV],
            by rw [c4, c2, hfv]⟩
        · obtain ⟨sc, me, d1, d2, d3, d4⟩ := hprev s (by omega)
          exact ⟨sc, me, d1, d2, d3, by rw [c4, d4]⟩)
    hloop
  obtain ⟨hnV, hall⟩ := hinv
  have hnV1 : (readFBXs fsys fileNames model).model.nV = model.nV := by
    rw [hres]
    exact hnV
  refine ⟨hnV1, ?_⟩
  intro s hs
  obtain ⟨sc, me, d1, d2, d3, d4⟩ := hall s (by omega)
  exact ⟨sc, me, d1, d2, by rw [hnV1, d3], by rw [hres]; exact d4⟩

/-- C10, at two subjects that both hold `exSceneAnimated`. -/
theorem readFBXs_ok_same_topology_witness :
    (readFBXs (twoFiles exSceneAnimated) ["s0.fbx", "s1.fbx"]
        (emptyModel 2 1 4 [0, 2, 4] [0, 1, 2, 3])).model.nV = 1 ∧
    ∃ scene mesh, subjectScene (twoFiles exSceneAnimated) ["s0.fbx", "s1.fbx"] 1
        = some scene ∧ scene.mesh = some mesh ∧
      mesh.controlPoints.length = (readFBXs (twoFiles exSceneAnimated) ["s0.fbx", "s1.fbx"]
        (emptyModel 2 1 4 [0, 2, 4] [0, 1, 2, 3])).model.nV ∧
      mesh.polygons = (readFBXs (twoFiles exSceneAnimated) ["s0.fbx", "s1.fbx"]
        (emptyModel 2 1 4 [0, 2, 4] [0, 1, 2, 3])).model.fv :=
  have h := readFBXs_ok_same_topology (twoFiles exSceneAnimated) ["s0.fbx", "s1.fbx"]
    (emptyModel 2 1 4 [0, 2, 4] [0, 1, 2, 3]) (by decide!)
  ⟨h.1, h.2 1 (by decide)⟩

theorem anyKeyFrame_succ (fsys : String → Option FbxScene) (fileNames : List String)
    (n : Nat) (scene : FbxScene) (h : subjectScene fsys fileNames n = some scene) :
    anyKeyFrame fsys fileNames (n + 1)
      = (anyKeyFrame fsys fileNames n || sceneHasKeyFrame scene) := by
  simp [anyKeyFrame, List.range_succ, h]

/-- C6: when `readFBXs` returns `true` and `nF` is the sum of the subjects' frame counts:
if no subject has an animation curve on a joint, `model.m` is 0 x 0; if one has, wherever it
sits in the order, `model.m` has 4 rows for each of the `nF` frames (and 4 columns for each
joint). -/
theorem readFBXs_ok_series_length (fsys : String → Option FbxScene)
    (fileNames : List String) (model : DemBonesExt)
    (h : (readFBXs fsys fileNames model).ret = Status.ok)
    (hF : model.nF = ((List.range model.nS).map (frameCount model)).sum) :
    (anyKeyFrame fsys fileNames model.nS = false →
      (readFBXs fsys fileNames model).model.m.rows = 0 ∧
      (readFBXs fsys fileNames model).model.m.cols = 0) ∧
    (anyKeyFrame fsys fileNames model.nS = true →
      (readFBXs fsys fileNames model).model.m.rows
        = 4 * ((List.range model.nS).map (frameCount model)).sum ∧
      (readFBXs fsys fileNames model).model.m.cols
        = 4 * (readFBXs fsys fileNames model).model.nB) := by
  obtain ⟨_, st, hloop, hres⟩ := readFBXs_ok fsys fileNames model h
  have hinv := readLoop_invariant fsys fileNames
    (fun i sti => sti.model.nF = model.nF ∧
      sti.hasKeyFrame = anyKeyFrame fsys fileNames i ∧
      (1 ≤ i → sti.model.m.rows = model.nF * 4 ∧ sti.model.m.cols = sti.model.nB * 4))
    model.nS 0 (initialState model) st
    ⟨rfl, by simp [initialState, anyKeyFrame], fun hi => absurd hi (by omega)⟩
    (by
      intro i sti sti1 _ _ hP hstep
      obtain ⟨hnF, hkf, hrows⟩ := hP
      obtain ⟨scene, a, b, imp, hscene, _, hload, hbranch⟩ :=
        readSubject_next fsys fileNames i sti sti1 hstep
      obtain ⟨mesh, sk, _, _, _, _, _, _, _, _, _, _, _, hk, _⟩ := load_ok _ _ _ _ hload
      have hk1 : imp.hasKeyFrame = sceneHasKeyFrame scene := hk
      by_cases hi : i = 0
      · rw [if_pos hi] at hbranch
        obtain ⟨_, ⟨_, _, c3, _⟩, _, _, c5, c6, c7, _, c9, _⟩ :=
          initSubject_next _ _ _ _ _ _ _ hbranch
        refine ⟨c3.trans hnF, ?_, fun _ => ⟨by rw [c6, hnF], by rw [c7, c5]⟩⟩
        rw [c9, hkf, hk1, anyKeyFrame_succ _ _ _ _ hscene]
      · rw [if_neg hi] at hbranch
        obtain ⟨_, _, _, ⟨_, _, c3, _⟩, _, c5, _, _, c6, c7, _, _, _, c9, _⟩ :=
          mergeSubject_next _ _ _ _ _ _ _ hbranch
        obtain ⟨r1, r2⟩ := hrows (by omega)
        refine ⟨c3.trans hnF, ?_, fun _ => ⟨by rw [c6, r1], by rw [c7, r2, c5]⟩⟩
        rw [c9, hkf, hk1, anyKeyFrame_succ _ _ _ _ hscene])
    hloop
  obtain ⟨hnF, hkf, hrows⟩ := hinv
  rw [Nat.zero_add] at hkf hrows
  rw [hres]
  constructor
  · intro hany
    have hk0 : st.hasKeyFrame = false := by rw [hkf, hany]
    have : (finalize st).m = st.model.m.resize 0 0 := by simp [finalize, hk0]
    rw [this]
    exact DenseMat.resize_size _ 0 0
  · intro hany
    have hk1 : st.hasKeyFrame = true := by rw [hkf, hany]
    have hm : (finalize st).m = st.model.m := by simp [finalize, hk1]
    have hpos : 1 ≤ model.nS := by
      by_contra hc
      have h0 : model.nS = 0 := by omega
      rw [h0] at hany
      simp [anyKeyFrame] at hany
    obtain ⟨r1, r2⟩ := hrows hpos
    rw [hm, r1, r2, ← hF]
    exact ⟨by omega, by rw [(finalize_keeps st).2.2.2.1]; omega⟩

/-- C6, at two subjects of two frames each that both hold the animated scene
`exSceneAnimated`: `model.m` has 16 rows. -/
theorem readFBXs_ok_series_length_witness :
    (readFBXs (twoFiles exSceneAnimated) ["s0.fbx", "s1.fbx"]
        (emptyModel 2 1 4 [0, 2, 4] [0, 1, 2, 3])).model.m.rows
      = 4 * ((List.range 2).map
          (frameCount (emptyModel 2 1 4 [0, 2, 4] [0, 1, 2, 3]))).sum ∧
    (readFBXs (twoFiles exSceneAnimated) ["s0.fbx", "s1.fbx"]
        (emptyModel 2 1 4 [0, 2, 4] [0, 1, 2, 3])).model.m.cols
      = 4 * (readFBXs (twoFiles exSceneAnimated) ["s0.fbx", "s1.fbx"]
        (emptyModel 2 1 4 [0, 2, 4] [0, 1, 2, 3])).model.nB :=
  (readFBXs_ok_series_length (twoFiles exSceneAnimated) ["s0.fbx", "s1.fbx"]
    (emptyModel 2 1 4 [0, 2, 4] [0, 1, 2, 3]) (by decide!) (by decide!)).2 (by decide!)

/-! ## The parent array built from subject 0 -/

theorem findParent_cases (names : List String) (k : Nat) (pName : String) (p : Int) :
    findParent names k pName p = p ∨
    ∃ i, i < names.length ∧ names[i]? = some pName ∧
      findParent names k pName p = ((k + i : Nat) : Int) := by
  induction names generalizing k p with
  | nil => exact Or.inl rfl
  | cons b rest ih =>
    simp only [findParent]
    rcases ih (k + 1) (if b = pName then (k : Int) else p) with h | ⟨i, hi, hn, hf⟩
    · by_cases hb : b = pName
      · right
        refine ⟨0, by simp, by simp [hb], ?_⟩
        rw [h, if_pos hb]
        simp
      · left
        rw [h, if_neg hb]
    · right
      refine ⟨i + 1, by simp [hi], by simpa using hn, ?_⟩
      rw [hf]
      congr 1
      omega

theorem findParent_none (names : List String) (k : Nat) (pName : String) (p : Int)
    (h : pName ∉ names) : findParent names k pName p = p := by
  induction names generalizing k p with
  | nil => rfl
  | cons b rest ih =>
    simp only [findParent]
    have hb : ¬ b = pName := fun hb => h (by simp [hb])
    rw [if_neg hb]
    exact ih _ _ (fun hm => h (List.mem_cons_of_mem _ hm))

theorem DenseVec.setAt_some {α : Type} (v v1 : DenseVec (Option α)) (j : Nat) (x : α)
    (h : v.setAt j x = some v1) :
    j < v.size ∧ v1.size = v.size ∧ v1.coeff = fun i => if i = j then some x else v.coeff i := by
  unfold DenseVec.setAt at h
  split_ifs at h with hj
  simp only [Option.some.injEq] at h
  subst h
  exact ⟨hj, rfl, rfl⟩

theorem initJoints_parent (s : Nat) (imp : FbxSceneImporter) (names : List String) (j : Nat)
    (model model1 : DemBonesExt) (ro ro1 : StrMap (Option (Int × Int × Int)))
    (h : initJoints s imp names j (model, ro) = some (model1, ro1)) :
    (∀ i nj, names[i]? = some nj →
      model1.parent.coeff (j + i)
        = some (findParent model.boneName 0 (parentNameOf imp nj) (-1))) ∧
    (∀ k, k < j → model1.parent.coeff k = model.parent.coeff k) := by
  induction names generalizing j model ro with
  | nil =>
    simp only [initJoints, Option.some.injEq, Prod.mk.injEq] at h
    obtain ⟨h1, _⟩ := h
    subst h1
    exact ⟨fun i nj hi => by simp at hi, fun k _ => rfl⟩
  | cons n0 names ih =>
    simp only [initJoints] at h
    cases hp : model.parent.setAt j (findParent model.boneName 0 (parentNameOf imp n0) (-1)) with
    | none => simp [hp] at h
    | some par =>
      cases hb : setBlk4 model.bind s j (imp.bind.find n0) with
      | none => simp [hp, hb] at h
      | some bd =>
        cases hq : setBlk4 model.preMulInv s j (imp.preMulInv.find n0) with
        | none => simp [hp, hb, hq] at h
        | some pm =>
          cases hr : setVec3 model.rotOrder s j ((ro.find n0).getD none) with
          | none => simp [hp, hb, hq, hr] at h
          | some rt =>
            simp only [hp, hb, hq, hr] at h
            obtain ⟨c1, c2⟩ := ih _ _ _ h
            obtain ⟨d1, d2, d3⟩ := DenseVec.setAt_some _ _ _ _ hp
            have c1a : ∀ i nj, names[i]? = some nj →
                model1.parent.coeff (j + 1 + i)
                  = some (findParent model.boneName 0 (parentNameOf imp nj) (-1)) := c1
            have c2a : ∀ k, k < j + 1 → model1.parent.coeff k = par.coeff k := c2
            refine ⟨?_, ?_⟩
            · intro i nj hi
              cases i with
              | zero =>
                simp only [List.getElem?_cons_zero, Option.some.injEq] at hi
                subst hi
                rw [Nat.add_zero, c2a j (by omega), d3]
                simp
              | succ i =>
                simp only [List.getElem?_cons_succ] at hi
                rw [show j + (i + 1) = j + 1 + i by omega]
                exact c1a i nj hi
            · intro k hk
              rw [c2a k (by omega), d3]
              have : ¬ k = j := by omega
              simp [this]

theorem setBlk4_size (M M1 : DenseMat (Option ℚ)) (k j : Nat) (A : Option Matrix4d)
    (h : setBlk4 M k j A = some M1) : M1.rows = M.rows ∧ M1.cols = M.cols := by
  obtain ⟨r, c, _⟩ := DenseMat.setBlock_some _ _ _ _ _ _ _ _ _ h
  exact ⟨r, c⟩

theorem setVec3_size (M M1 : DenseMat (Option Int)) (k j : Nat)
    (c : Option (Int × Int × Int)) (h : setVec3 M k j c = some M1) :
    M1.rows = M.rows ∧ M1.cols = M.cols := by
  obtain ⟨r, c, _⟩ := DenseMat.setBlock_some _ _ _ _ _ _ _ _ _ h
  exact ⟨r, c⟩

theorem setBlk4_isSome (M : DenseMat (Option ℚ)) (k j : Nat) (A : Option Matrix4d)
    (hr : (k + 1) * 4 ≤ M.rows) (hc : (j + 1) * 4 ≤ M.cols) :
    ∃ M1, setBlk4 M k j A = some M1 := by
  unfold setBlk4 DenseMat.setBlock
  have : k * 4 + 4 ≤ M.rows ∧ j * 4 + 4 ≤ M.cols ∧ 4 = 4 ∧ 4 = 4 := ⟨by omega, by omega, rfl, rfl⟩
  rw [if_pos this]
  exact ⟨_, rfl⟩

theorem setVec3_isSome (M : DenseMat (Option Int)) (k j : Nat)
    (c : Option (Int × Int × Int)) (hr : (k + 1) * 3 ≤ M.rows) (hc : j + 1 ≤ M.cols) :
    ∃ M1, setVec3 M k j c = some M1 := by
  unfold setVec3 DenseMat.setBlock
  have : k * 3 + 3 ≤ M.rows ∧ j + 1 ≤ M.cols ∧ 3 = 3 ∧ 1 = 1 := ⟨by omega, by omega, rfl, rfl⟩
  rw [if_pos this]
  exact ⟨_, rfl⟩

theorem initJoints_sizes (s : Nat) (imp : FbxSceneImporter) (names : List String) (j : Nat)
    (model model1 : DemBonesExt) (ro ro1 : StrMap (Option (Int × Int × Int)))
    (h : initJoints s imp names j (model, ro) = some (model1, ro1)) :
    model1.bind.rows = model.bind.rows ∧ model1.bind.cols = model.bind.cols ∧
    model1.preMulInv.rows = model.preMulInv.rows ∧
    model1.preMulInv.cols = model.preMulInv.cols ∧
    model1.rotOrder.rows = model.rotOrder.rows ∧
    model1.rotOrder.cols = model.rotOrder.cols := by
  induction names generalizing j model ro with
  | nil =>
    simp only [initJoints, Option.some.injEq, Prod.mk.injEq] at h
    obtain ⟨h1, _⟩ := h
    subst h1
    exact ⟨rfl, rfl, rfl, rfl, rfl, rfl⟩
  | cons n0 names ih =>
    simp only [initJoints] at h
    cases hp : model.parent.setAt j (findParent model.boneName 0 (parentNameOf imp n0) (-1)) with
    | none => simp [hp] at h
    | some par =>
      cases hb : setBlk4 model.bind s j (imp.bind.find n0) with
      | none => simp [hp, hb] at h
      | some bd =>
        cases hq : setBlk4 model.preMulInv s j (imp.preMulInv.find n0) with
        | none => simp [hp, hb, hq] at h
        | some pm =>
          cases hr : setVec3 model.rotOrder s j ((ro.find n0).getD none) with
          | none => simp [hp, hb, hq, hr] at h
          | some rt =>
            simp only [hp, hb, hq, hr] at h
            obtain ⟨c1, c2, c3, c4, c5, c6⟩ := ih _ _ _ h
            obtain ⟨d1, d2⟩ := setBlk4_size _ _ _ _ _ hb
            obtain ⟨d3, d4⟩ := setBlk4_size _ _ _ _ _ hq
            obtain ⟨d5, d6⟩ := setVec3_size _ _ _ _ _ hr
            exact ⟨c1.trans d1, c2.trans d2, c3.trans d3, c4.trans d4, c5.trans d5,
              c6.trans d6⟩

theorem mergeJoints_sizes (s : Nat) (imp : FbxSceneImporter) (names : List String) (j : Nat)
    (model model1 : DemBonesExt) (h : mergeJoints s imp names j model = (Status.ok, model1)) :
    model1.bind.rows = model.bind.rows ∧ model1.bind.cols = model.bind.cols ∧
    model1.preMulInv.rows = model.preMulInv.rows ∧
    model1.preMulInv.cols = model.preMulInv.cols ∧
    model1.rotOrder.rows = model.rotOrder.rows ∧
    model1.rotOrder.cols = model.rotOrder.cols := by
  induction names generalizing j model with
  | nil =>
    simp only [mergeJoints, Prod.mk.injEq, true_and] at h
    subst h
    exact ⟨rfl, rfl, rfl, rfl, rfl, rfl⟩
  | cons n0 names ih =>
    simp only [mergeJoints] at h
    cases hP : imp.parent.find n0 with
    | none => simp [hP] at h
    | some pn =>
      cases hA : aggregateParentName model j with
      | none => simp [hP, hA] at h
      | some pName =>
        by_cases hne : pn ≠ pName
        · simp [hP, hA, hne] at h
        · have heq : pn = pName := by simpa using hne
          cases hB : imp.bind.find n0 with
          | none => simp [hP, hA, heq, hB] at h
          | some b =>
            cases hbd : setBlk4 model.bind s j (some b) with
            | none => simp [hP, hA, heq, hB, hbd] at h
            | some bd =>
              cases hQ : imp.preMulInv.find n0 with
              | none => simp [hP, hA, heq, hB, hbd, hQ] at h
              | some p =>
                cases hpm : setBlk4 model.preMulInv s j (some p) with
                | none => simp [hP, hA, heq, hB, hbd, hQ, hpm] at h
                | some pm =>
                  cases hR : imp.rotOrder.find n0 with
                  | none => simp [hP, hA, heq, hB, hbd, hQ, hpm, hR] at h
                  | some code =>
                    cases hrt : setVec3 model.rotOrder s j code with
                    | none => simp [hP, hA, heq, hB, hbd, hQ, hpm, hR, hrt] at h
                    | some rt =>
                      simp only [hP, hA, heq, hB, hbd, hQ, hpm, hR, hrt, ne_eq,
                        not_true_eq_false, if_false] at h
                      obtain ⟨c1, c2, c3, c4, c5, c6⟩ := ih _ _ h
                      obtain ⟨d1, d2⟩ := setBlk4_size _ _ _ _ _ hbd
                      obtain ⟨d3, d4⟩ := setBlk4_size _ _ _ _ _ hpm
                      obtain ⟨d5, d6⟩ := setVec3_size _ _ _ _ _ hrt
                      exact ⟨c1.trans d1, c2.trans d2, c3.trans d3, c4.trans d4,
                        c5.trans d5, c6.trans d6⟩

/-! ## The joint loop of a later subject, run forward -/

/-- The joint loop of a later subject ends with the hierarchy error when every bone name is
in the subject's parent table and some bone has a parent name other than the one the
aggregate holds. -/
theorem mergeJoints_hierarchy (s : Nat) (imp : FbxSceneImporter) (names : List String)
    (j : Nat) (model : DemBonesExt)
    (hbr : (s + 1) * 4 ≤ model.bind.rows) (hbc : (j + names.length) * 4 ≤ model.bind.cols)
    (hpr : (s + 1) * 4 ≤ model.preMulInv.rows)
    (hpc : (j + names.length) * 4 ≤ model.preMulInv.cols)
    (hrr : (s + 1) * 3 ≤ model.rotOrder.rows) (hrc : j + names.length ≤ model.rotOrder.cols)
    (hfind : ∀ nj ∈ names, (imp.parent.find nj).isSome ∧ (imp.bind.find nj).isSome ∧
      (imp.preMulInv.find nj).isSome ∧ (imp.rotOrder.find nj).isSome)
    (hagg : ∀ i, i < names.length → (aggregateParentName model (j + i)).isSome)
    (hmis : ∃ i nj, names[i]? = some nj ∧
      imp.parent.find nj ≠ aggregateParentName model (j + i)) :
    (mergeJoints s imp names j model).1 = Status.err "Inconsistent skeleton hierarchy.\n" := by
  induction names generalizing j model with
  | nil =>
    obtain ⟨i, nj, hi, _⟩ := hmis
    simp at hi
  | cons n0 names ih =>
    obtain ⟨f1, f2, f3, f4⟩ := hfind n0 (List.mem_cons_self _ _)
    obtain ⟨pn, hP⟩ := Option.isSome_iff_exists.mp f1
    obtain ⟨b, hB⟩ := Option.isSome_iff_exists.mp f2
    obtain ⟨p, hQ⟩ := Option.isSome_iff_exists.mp f3
    obtain ⟨code, hR⟩ := Option.isSome_iff_exists.mp f4
    obtain ⟨pName, hA⟩ := Option.isSome_iff_exists.mp (hagg 0 (by simp))
    rw [Nat.add_zero] at hA
    simp only [List.length_cons] at hbc hpc hrc
    simp only [mergeJoints, hP, hA]
    by_cases hne : pn ≠ pName
    · rw [if_pos hne]
    · have heq : pn = pName := by simpa using hne
      rw [if_neg hne]
      obtain ⟨bd, hbd⟩ := setBlk4_isSome model.bind s j (some b) hbr (by omega)
      obtain ⟨pm, hpm⟩ := setBlk4_isSome model.preMulInv s j (some p) hpr (by omega)
      obtain ⟨rt, hrt⟩ := setVec3_isSome model.rotOrder s j code hrr (by omega)
      obtain ⟨d1, d2⟩ := setBlk4_size _ _ _ _ _ hbd
      obtain ⟨d3, d4⟩ := setBlk4_size _ _ _ _ _ hpm
      obtain ⟨d5, d6⟩ := setVec3_size _ _ _ _ _ hrt
      simp only [hB, hbd, hQ, hpm, hR, hrt]
      apply ih
      · show (s + 1) * 4 ≤ bd.rows
        omega
      · show (j + 1 + names.length) * 4 ≤ bd.cols
        omega
      · show (s + 1) * 4 ≤ pm.rows
        omega
      · show (j + 1 + names.length) * 4 ≤ pm.cols
        omega
      · show (s + 1) * 3 ≤ rt.rows
        omega
      · show j + 1 + names.length ≤ rt.cols
        omega
      · exact fun nj hnj => hfind nj (List.mem_cons_of_mem _ hnj)
      · intro i hi
        have := hagg (i + 1) (by simp; omega)
        rw [show j + (i + 1) = j + 1 + i by omega] at this
        exact this
      · obtain ⟨i, nj, hi, hm⟩ := hmis
        cases i with
        | zero =>
          simp only [List.getElem?_cons_zero, Option.some.injEq] at hi
          subst hi
          rw [Nat.add_zero, hP, hA, heq] at hm
          exact absurd rfl hm
        | succ i =>
          simp only [List.getElem?_cons_succ] at hi
          refine ⟨i, nj, hi, ?_⟩
          rw [show j + 1 + i = j + (i + 1) by omega]
          exact hm

/-- The joint loop of a later subject runs to its end when every bone name is in the
subject's tables with the parent name the aggregate holds. -/
theorem mergeJoints_pass (s : Nat) (imp : FbxSceneImporter) (names : List String)
    (j : Nat) (model : DemBonesExt)
    (hbr : (s + 1) * 4 ≤ model.bind.rows) (hbc : (j + names.length) * 4 ≤ model.bind.cols)
    (hpr : (s + 1) * 4 ≤ model.preMulInv.rows)
    (hpc : (j + names.length) * 4 ≤ model.preMulInv.cols)
    (hrr : (s + 1) * 3 ≤ model.rotOrder.rows) (hrc : j + names.length ≤ model.rotOrder.cols)
    (hfind : ∀ nj ∈ names, (imp.parent.find nj).isSome ∧ (imp.bind.find nj).isSome ∧
      (imp.preMulInv.find nj).isSome ∧ (imp.rotOrder.find nj).isSome)
    (hsame : ∀ i nj, names[i]? = some nj →
      imp.parent.find nj = aggregateParentName model (j + i)) :
    ∃ model1, mergeJoints s imp names j model = (Status.ok, model1) := by
  induction names generalizing j model with
  | nil => exact ⟨model, rfl⟩
  | cons n0 names ih =>
    obtain ⟨f1, f2, f3, f4⟩ := hfind n0 (List.mem_cons_self _ _)
    obtain ⟨pn, hP⟩ := Option.isSome_iff_exists.mp f1
    obtain ⟨b, hB⟩ := Option.isSome_iff_exists.mp f2
    obtain ⟨p, hQ⟩ := Option.isSome_iff_exists.mp f3
    obtain ⟨code, hR⟩ := Option.isSome_iff_exists.mp f4
    have hA : aggregateParentName model j = some pn := by
      have := hsame 0 n0 (by simp)
      rw [Nat.add_zero, hP] at this
      exact this.symm
    simp only [List.length_cons] at hbc hpc hrc
    obtain ⟨bd, hbd⟩ := setBlk4_isSome model.bind s j (some b) hbr (by omega)
    obtain ⟨pm, hpm⟩ := setBlk4_isSome model.preMulInv s j (some p) hpr (by omega)
    obtain ⟨rt, hrt⟩ := setVec3_isSome model.rotOrder s j code hrr (by omega)
    obtain ⟨d1, d2⟩ := setBlk4_size _ _ _ _ _ hbd
    obtain ⟨d3, d4⟩ := setBlk4_size _ _ _ _ _ hpm
    obtain ⟨d5, d6⟩ := setVec3_size _ _ _ _ _ hrt
    simp only [mergeJoints, hP, hA, hB, hbd, hQ, hpm, hR, hrt, ne_eq, not_true_eq_false,
      if_false]
    apply ih
    · show (s + 1) * 4 ≤ bd.rows
      omega
    · show (j + 1 + names.length) * 4 ≤ bd.cols
      omega
    · show (s + 1) * 4 ≤ pm.rows
      omega
    · show (j + 1 + names.length) * 4 ≤ pm.cols
      omega
    · show (s + 1) * 3 ≤ rt.rows
      omega
    · show j + 1 + names.length ≤ rt.cols
      omega
    · exact fun nj hnj => hfind nj (List.mem_cons_of_mem _ hnj)
    · intro i nj hi
      have := hsame (i + 1) nj (by simpa using hi)
      rw [show j + 1 + i = j + (i + 1) by omega]
      exact this

/-! ## Which names the tables hold -/

theorem StrMap.find_set_isSome {α : Type} (m : StrMap α) (k k2 : String) (v : α)
    (h : (m.find k2).isSome) : ((m.set k v).find k2).isSome := by
  by_cases hk : k = k2
  · subst hk
    rw [StrMap.find_set_same]
    rfl
  · rw [StrMap.find_set_other _ _ _ _ hk]
    exact h

theorem StrMap.find_touch_isSome {α : Type} (m : StrMap α) (k k2 : String) (d : α)
    (h : (m.find k2).isSome) : ((m.touch k d).find k2).isSome := by
  unfold StrMap.touch
  split
  · exact h
  · exact StrMap.find_set_isSome _ _ _ _ h

theorem StrMap.find_touch_same {α : Type} (m : StrMap α) (k : String) (d : α) :
    ((m.touch k d).find k).isSome := by
  unfold StrMap.touch
  split
  · rename_i v hv
    rw [hv]
    rfl
  · rw [StrMap.find_set_same]
    rfl

theorem rotOrderTable_find_isSome (jn : List JointNode)
    (t : StrMap (Option (Int × Int × Int))) (k : String) (h : (t.find k).isSome) :
    ((rotOrderTable jn t).find k).isSome := by
  induction jn generalizing t with
  | nil => exact h
  | cons x rest ih =>
    simp only [rotOrderTable]
    apply ih
    split
    · exact StrMap.find_set_isSome _ _ _ _ h
    · exact h

theorem tableOf_find_isSome_iff {α : Type} (f : JointNode → α) (jn : List JointNode)
    (k : String) : ((tableOf f jn []).find k).isSome ↔ ∃ y ∈ jn, y.name = k := by
  constructor
  · intro h
    by_contra hc
    rw [tableOf_find_none f jn [] k (fun y hy hn => hc ⟨y, hy, hn⟩)] at h
    simp [StrMap.find] at h
  · intro h
    obtain ⟨y, _, _, hf⟩ := tableOf_find_of_name f jn [] k h
    rw [hf]
    rfl

/-- After a successful `load` the `parent`, `bind` and `preMulInv` tables hold the same
names: those of the joints found by the traversal. -/
theorem load_ok_tables_same_names (imp : FbxSceneImporter) (scene : FbxScene)
    (fTime : List ℚ) (imp1 : FbxSceneImporter) (h : load imp scene fTime = Except.ok imp1)
    (k : String) (hk : (imp1.parent.find k).isSome) :
    (imp1.bind.find k).isSome ∧ (imp1.preMulInv.find k).isSome ∧
    ((imp.rotOrder.find k).isSome → (imp1.rotOrder.find k).isSome) := by
  obtain ⟨mesh, sk, _, _, _, _, _, _, _, hp, hb, hq, hr, _⟩ := load_ok _ _ _ _ h
  rw [hp, tableOf_find_isSome_iff] at hk
  refine ⟨?_, ?_, ?_⟩
  · rw [hb, tableOf_find_isSome_iff]
    exact hk
  · rw [hq, tableOf_find_isSome_iff]
    exact hk
  · intro h0
    rw [hr]
    exact rotOrderTable_find_isSome _ _ _ h0

theorem initJoints_rotOrder_names (s : Nat) (imp : FbxSceneImporter) (names : List String)
    (j : Nat) (model model1 : DemBonesExt) (ro ro1 : StrMap (Option (Int × Int × Int)))
    (h : initJoints s imp names j (model, ro) = some (model1, ro1)) :
    (∀ nj ∈ names, (ro1.find nj).isSome) ∧
    (∀ k, (ro.find k).isSome → (ro1.find k).isSome) := by
  induction names generalizing j model ro with
  | nil =>
    simp only [initJoints, Option.some.injEq, Prod.mk.injEq] at h
    obtain ⟨_, h2⟩ := h
    subst h2
    exact ⟨fun nj hnj => by simp at hnj, fun k hk => hk⟩
  | cons n0 names ih =>
    simp only [initJoints] at h
    cases hp : model.parent.setAt j (findParent model.boneName 0 (parentNameOf imp n0) (-1)) with
    | none => simp [hp] at h
    | some par =>
      cases hb : setBlk4 model.bind s j (imp.bind.find n0) with
      | none => simp [hp, hb] at h
      | some bd =>
        cases hq : setBlk4 model.preMulInv s j (imp.preMulInv.find n0) with
        | none => simp [hp, hb, hq] at h
        | some pm =>
          cases hr : setVec3 model.rotOrder s j ((ro.find n0).getD none) with
          | none => simp [hp, hb, hq, hr] at h
          | some rt =>
            simp only [hp, hb, hq, hr] at h
            obtain ⟨c1, c2⟩ := ih _ _ _ h
            refine ⟨?_, fun k hk => c2 k (StrMap.find_touch_isSome _ _ _ _ hk)⟩
            intro nj hnj
            rcases List.mem_cons.mp hnj with h0 | h0
            · subst h0
              exact c2 _ (StrMap.find_touch_same _ _ _)
            · exact c1 nj h0

theorem loadWeights_find (nV : Nat) (clusters : List FbxCluster) (wT wT1 : StrMap (List ℚ))
    (h : loadWeights nV clusters wT = Except.ok wT1) :
    (∀ c ∈ clusters, (wT1.find c.linkName).isSome) ∧
    (∀ k, (wT.find k).isSome → (wT1.find k).isSome) := by
  induction clusters generalizing wT with
  | nil =>
    simp only [loadWeights, Except.ok.injEq] at h
    subst h
    exact ⟨fun c hc => by simp at hc, fun k hk => hk⟩
  | cons c rest ih =>
    simp only [loadWeights] at h
    cases hr : readInfluences nV c.influences (List.replicate nV 0) with
    | error e => simp [hr] at h
    | ok w =>
      simp only [hr] at h
      obtain ⟨c1, c2⟩ := ih _ h
      refine ⟨?_, fun k hk => c2 k (StrMap.find_set_isSome _ _ _ _ hk)⟩
      intro x hx
      rcases List.mem_cons.mp hx with h0 | h0
      · subst h0
        apply c2
        rw [StrMap.find_set_same]
        rfl
      · exact c1 x h0

/-- After a successful `load` the joint names are the canonical names of the scene, and the
weight table is non-empty exactly when the mesh has a skin. -/
theorem load_ok_names_weights (imp : FbxSceneImporter) (scene : FbxScene) (fTime : List ℚ)
    (imp1 : FbxSceneImporter) (h : load imp scene fTime = Except.ok imp1) :
    imp1.jointName = canonicalNames scene ∧
    (imp1.wT.size ≠ 0 ↔ scene.skin.isSome) := by
  obtain ⟨mesh, sk, _, hs, _, _, _, hj, hw, _⟩ := load_ok _ _ _ _ h
  rcases loadSkin_ok _ _ _ _ hs with ⟨h0, hk⟩ | ⟨c, rest, wT, h0, hlw, _, hk⟩
  · subst hk
    simp [hj, hw, canonicalNames, h0, StrMap.size]
  · subst hk
    have hfind := (loadWeights_find _ _ _ _ hlw).1 c (List.mem_cons_self _ _)
    have hne : wT ≠ [] := by
      intro he
      rw [he] at hfind
      simp [StrMap.find] at hfind
    refine ⟨by simp [hj, canonicalNames, h0], ?_⟩
    simp only [hw, h0, Option.isSome_some, iff_true, StrMap.size]
    exact fun hl => hne (List.length_eq_zero.mp hl)

theorem DenseVec.size_resize {α : Type} (v : DenseVec (Option α)) (n : Nat) :
    (v.resize n).size = n := by
  unfold DenseVec.resize
  split_ifs with h
  · exact h
  · rfl

theorem DenseVec.resize_of_size {α : Type} (v : DenseVec (Option α)) (n : Nat)
    (h : v.size = n) : v.resize n = v := by
  unfold DenseVec.resize
  rw [if_pos h]

theorem aggregateParentName_of_findParent (model : DemBonesExt) (j : Nat) (pn : String)
    (hj : j < model.parent.size)
    (h : model.parent.coeff j = some (findParent model.boneName 0 pn (-1))) :
    (aggregateParentName model j).isSome := by
  unfold aggregateParentName
  rw [if_pos hj, h]
  rcases findParent_cases model.boneName 0 pn (-1) with h1 | ⟨i, hi, hn, h1⟩
  · rw [h1]
    simp
  · rw [h1]
    have : ¬ (((0 + i : Nat) : Int) = -1) := by omega
    simp only [this, if_false]
    have h0 : (0 : Int) ≤ ((0 + i : Nat) : Int) := by omega
    rw [if_pos h0]
    simp only [Nat.zero_add, Int.toNat_ofNat]
    rw [hn]
    rfl

/-! ## The state after subject 0, and what later passes keep of it -/

theorem initSubject_reached (fsys : String → Option FbxScene) (fileNames : List String)
    (model0 : DemBonesExt) (s nFr : Nat) (model : DemBonesExt)
    (imp0 imp : FbxSceneImporter) (wd : DenseMat ℚ) (hkf : Bool) (st1 : ReadState)
    (scene : FbxScene) (fTime : List ℚ) (hin : SameInputs model0 model)
    (hscene : subjectScene fsys fileNames 0 = some scene)
    (hload : load imp0 scene fTime = Except.ok imp) (hwd : wd.rows = 0)
    (h : initSubject s nFr model imp wd hkf = Step.next st1) :
    Reached fsys fileNames model0 st1 := by
  obtain ⟨c1, ⟨a1, a2, a3, a4, a5, a6⟩, c3, c4, c5, c6, c7, c8, c9, u1, model1, ro, hu, hj,
    d1, d2, d3, d4, d5, d6⟩ := initSubject_next _ _ _ _ _ _ _ h
  obtain ⟨i1, i2, i3, i4, i5, i6⟩ := hin
  obtain ⟨mesh, sk, hmesh, _, _, _, hfv, _, _, hpar, _⟩ := load_ok _ _ _ _ hload
  obtain ⟨hnames, hwt⟩ := load_ok_names_weights _ _ _ _ hload
  obtain ⟨_, _, _, _, _, _, b6⟩ := initJoints_keeps _ _ _ _ _ _ _ _ hj
  obtain ⟨p1, _⟩ := initJoints_parent _ _ _ _ _ _ _ _ hj
  obtain ⟨z1, z2, z3, z4, z5, z6⟩ := initJoints_sizes _ _ _ _ _ _ _ _ hj
  obtain ⟨r1, _⟩ := initJoints_rotOrder_names _ _ _ _ _ _ _ _ hj
  obtain ⟨ur, uc, _⟩ := DenseMat.setBlock_some _ _ _ _ _ _ _ _ _ hu
  have hsize : st1.model.parent.size = imp.jointName.length := by
    rw [d2, b6]
    exact DenseVec.size_resize _ _
  have hcoeff : ∀ j nj, st1.model.boneName[j]? = some nj →
      st1.model.parent.coeff j
        = some (findParent st1.model.boneName 0 (sceneParentName scene nj) (-1)) := by
    intro j nj hjn
    rw [c4] at hjn
    have := p1 j nj hjn
    rw [Nat.zero_add] at this
    rw [d2, this, c4]
    simp [parentNameOf, sceneParentName, hpar]
  refine ⟨⟨a1.trans i1, a2.trans i2, a3.trans i3, a4.trans i4, a5.trans i5, a6.trans i6⟩,
    ⟨?_, ?_, ?_, ?_, ?_, ?_, ?_, ?_, ?_, ?_, ?_⟩, ?_, scene, mesh, hscene, hmesh, ?_, ?_, ?_,
    hcoeff⟩
  · rw [c5, c4]
  · rw [hsize, c5]
  · intro j hjlt
    rw [c5] at hjlt
    have hget : st1.model.boneName[j]? = some (imp.jointName[j]) := by
      rw [c4]
      exact List.getElem?_eq_getElem hjlt
    exact aggregateParentName_of_findParent _ _ _ (by rw [hsize]; exact hjlt)
      (hcoeff j _ hget)
  · rw [d6, ur, (DenseMat.resize_size _ _ _).1, a1]
  · rw [d6, uc, (DenseMat.resize_size _ _ _).2, a2]
  · rw [d3, z1, a1]
    exact (DenseMat.resize_size _ _ _).1
  · rw [d3, z2, c5]
    exact (DenseMat.resize_size _ _ _).2
  · rw [d4, z3, a1]
    exact (DenseMat.resize_size _ _ _).1
  · rw [d4, z4, c5]
    exact (DenseMat.resize_size _ _ _).2
  · rw [d5, z5, a1]
    exact (DenseMat.resize_size _ _ _).1
  · rw [d5, z6, c5]
    exact (DenseMat.resize_size _ _ _).2
  · intro nj hnj
    rw [c4] at hnj
    rw [d1]
    exact r1 nj hnj
  · rw [c3, hfv]
  · rw [c8, c5, hwd]
    by_cases hsk : scene.skin.isSome
    · rw [if_pos (hwt.mpr hsk), if_pos hsk]
    · rw [if_neg (fun hc => hsk (hwt.mp hc)), if_neg hsk]
  · rw [c4, hnames]

/-- The intermediate results of a pass for a subject `s != 0` that goes on. -/
theorem mergeSubject_next_parts (s nFr : Nat) (model : DemBonesExt) (imp : FbxSceneImporter)
    (wd : DenseMat ℚ) (hkf : Bool) (st1 : ReadState)
    (h : mergeSubject s nFr model imp wd hkf = Step.next st1) :
    ∃ u1 model1 wd1 M,
      model.u.setBlock (s * 3) 0 3 model.nV 3 imp.v.length
        (fun i c => if h : i < 3 then (imp.v[c]?).map (fun p => p ⟨i, h⟩) else none)
        = some u1 ∧
      mergeJoints s imp model.boneName 0
        { model with
          u := u1
          parent := model.parent.resize model.nB
          bind := model.bind.resize (model.nS * 4) (model.nB * 4)
          preMulInv := model.preMulInv.resize (model.nS * 4) (model.nB * 4)
          rotOrder := model.rotOrder.resize (model.nS * 3) model.nB } = (Status.ok, model1) ∧
      (if wd.rows ≠ 0 then mergeWeights imp model1.boneName 0 wd else some wd) = some wd1 ∧
      writeSeries s nFr imp model1.boneName 0 model1.m = some M ∧
      st1 = ⟨{ model1 with m := M }, imp, wd1, hkf || imp.hasKeyFrame⟩ := by
  unfold mergeSubject at h
  by_cases hv : imp.v.length ≠ model.nV
  · simp [hv] at h
  · rw [if_neg hv] at h
    cases hu : model.u.setBlock (s * 3) 0 3 model.nV 3 imp.v.length
        (fun i c => if h : i < 3 then (imp.v[c]?).map (fun p => p ⟨i, h⟩) else none) with
    | none => simp [hu] at h
    | some u1 =>
      simp only [hu] at h
      by_cases hf : model.fv ≠ imp.fv
      · simp [hf] at h
      · rw [if_neg hf] at h
        by_cases hn : model.nB ≠ imp.jointName.length
        · simp [hn] at h
        · rw [if_neg hn] at h
          cases hmj : mergeJoints s imp model.boneName 0
              { model with
                u := u1
                parent := model.parent.resize model.nB
                bind := model.bind.resize (model.nS * 4) (model.nB * 4)
                preMulInv := model.preMulInv.resize (model.nS * 4) (model.nB * 4)
                rotOrder := model.rotOrder.resize (model.nS * 3) model.nB } with
          | mk r model1 =>
            rw [hmj] at h
            cases r with
            | err msg => simp at h
            | fail => simp at h
            | undef => simp at h
            | ok =>
              simp only at h
              by_cases hwr : wd.rows ≠ imp.wT.size
              · simp [hwr] at h
              · rw [if_neg hwr] at h
                cases hmw : (if wd.rows ≠ 0 then mergeWeights imp model1.boneName 0 wd
                    else some wd) with
                | none => simp [hmw] at h
                | some wd1 =>
                  simp only [hmw] at h
                  obtain ⟨M, hM, hst⟩ := finishSubject_next _ _ _ _ _ _ _ h
                  exact ⟨u1, model1, wd1, M, rfl, hmj, hmw, hM, hst⟩

theorem mergeSubject_reached (fsys : String → Option FbxScene) (fileNames : List String)
    (model0 : DemBonesExt) (s nFr : Nat) (st : ReadState) (imp : FbxSceneImporter)
    (st1 : ReadState) (scene : FbxScene) (fTime : List ℚ)
    (hR : Reached fsys fileNames model0 st)
    (hload : load st.importer scene fTime = Except.ok imp)
    (h : mergeSubject s nFr st.model imp st.wd st.hasKeyFrame = Step.next st1) :
    Reached fsys fileNames model0 st1 := by
  obtain ⟨⟨i1, i2, i3, i4, i5, i6⟩, ⟨s1, s2, s3, s4, s5, s6, s7, s8, s9, s10, s11⟩, hro,
    scene0, mesh0, hscene0, hmesh0, hfv0, hwd0, hnames0, hpar0⟩ := hR
  obtain ⟨_, _, _, ⟨a1, a2, a3, a4, a5, a6⟩, c5, c6, c7, c8, _, _, _, c12, _, _, c15, _⟩ :=
    mergeSubject_next _ _ _ _ _ _ _ h
  obtain ⟨u1, model1, wd1, M, hu, hmj, _, _, hst⟩ := mergeSubject_next_parts _ _ _ _ _ _ _ h
  obtain ⟨z1, z2, z3, z4, z5, z6⟩ := mergeJoints_sizes _ _ _ _ _ _ hmj
  obtain ⟨_, _, _, _, b4, _⟩ := mergeJoints_ok _ _ _ _ _ _ hmj
  obtain ⟨ur, uc, _⟩ := DenseMat.setBlock_some _ _ _ _ _ _ _ _ _ hu
  have hpar : st1.model.parent = st.model.parent := by
    rw [c8]
    exact DenseVec.resize_of_size _ _ s2
  have hu1 : st1.model.u = u1 := by
    rw [hst]
    exact b4
  have hb1 : st1.model.bind = model1.bind := by rw [hst]
  have hp1 : st1.model.preMulInv = model1.preMulInv := by rw [hst]
  have hr1 : st1.model.rotOrder = model1.rotOrder := by rw [hst]
  obtain ⟨mesh, sk, _, _, _, _, _, _, _, _, _, _, hrot, _⟩ := load_ok _ _ _ _ hload
  refine ⟨⟨a1.trans i1, a2.trans i2, a3.trans i3, a4.trans i4, a5.trans i5, a6.trans i6⟩,
    ⟨?_, ?_, ?_, ?_, ?_, ?_, ?_, ?_, ?_, ?_, ?_⟩, ?_, scene0, mesh0, hscene0, hmesh0, ?_, ?_,
    ?_, ?_⟩
  · rw [c6, c7, s1]
  · rw [hpar, c6, s2]
  · intro j hjlt
    rw [c6] at hjlt
    rw [aggregateParentName_congr st.model st1.model j hpar c7]
    exact s3 j hjlt
  · rw [hu1, ur, a1, s4]
  · rw [hu1, uc, a2, s5]
  · rw [hb1, z1, a1]
    exact (DenseMat.resize_size _ _ _).1
  · rw [hb1, z2, c6]
    exact (DenseMat.resize_size _ _ _).2
  · rw [hp1, z3, a1]
    exact (DenseMat.resize_size _ _ _).1
  · rw [hp1, z4, c6]
    exact (DenseMat.resize_size _ _ _).2
  · rw [hr1, z5, a1]
    exact (DenseMat.resize_size _ _ _).1
  · rw [hr1, z6, c6]
    exact (DenseMat.resize_size _ _ _).2
  · intro nj hnj
    rw [c7] at hnj
    rw [c15, hrot]
    exact rotOrderTable_find_isSome _ _ _ (hro nj hnj)
  · rw [c5, hfv0]
  · rw [c12, hwd0, c6]
  · rw [c7, hnames0]
  · intro j nj hjn
    rw [c7] at hjn ⊢
    rw [hpar]
    exact hpar0 j nj hjn

theorem stateBefore_reached (fsys : String → Option FbxScene) (fileNames : List String)
    (model : DemBonesExt) (s : Nat) (st : ReadState) (hs : 1 ≤ s)
    (h : stateBefore fsys fileNames model s = some st) :
    Reached fsys fileNames model st := by
  unfold stateBefore at h
  cases hl : readLoop fsys fileNames s 0 (initialState model) with
  | stop r m => simp [hl] at h
  | next st2 =>
    simp only [hl, Option.some.injEq] at h
    subst h
    have hinv := readLoop_invariant fsys fileNames
      (fun i sti => (i = 0 → sti = initialState model) ∧
        (1 ≤ i → Reached fsys fileNames model sti))
      s 0 (initialState model) st2 ⟨fun _ => rfl, fun hi => absurd hi (by omega)⟩
      (by
        intro i sti sti1 _ _ hP hstep
        obtain ⟨h0, h1⟩ := hP
        refine ⟨fun hi => absurd hi (by omega), fun _ => ?_⟩
        obtain ⟨scene, a, b, imp, hscene, _, hload, hbranch⟩ :=
          readSubject_next fsys fileNames i sti sti1 hstep
        by_cases hi : i = 0
        · rw [if_pos hi] at hbranch
          have hst := h0 hi
          subst hi
          subst hst
          exact initSubject_reached fsys fileNames model _ _ _ _ _ _ _ _ scene _
            ⟨rfl, rfl, rfl, rfl, rfl, rfl⟩ hscene hload rfl hbranch
        · rw [if_neg hi] at hbranch
          exact mergeSubject_reached fsys fileNames model _ _ _ _ _ scene _
            (h1 (by omega)) hload hbranch)
      hl
    rw [Nat.zero_add] at hinv
    exact hinv.2 hs

theorem stateBefore_inputs (fsys : String → Option FbxScene) (fileNames : List String)
    (model : DemBonesExt) (s : Nat) (st : ReadState)
    (h : stateBefore fsys fileNames model s = some st) : SameInputs model st.model := by
  by_cases hs : 1 ≤ s
  · exact (stateBefore_reached _ _ _ _ _ hs h).1
  · have h0 : s = 0 := by omega
    subst h0
    simp only [stateBefore, readLoop, Option.some.injEq] at h
    subst h
    exact ⟨rfl, rfl, rfl, rfl, rfl, rfl⟩

/-- A pass that stops ends `readFBXs`: its status is returned and the aggregate is left as
the pass left it. -/
theorem readFBXs_stop_at (fsys : String → Option FbxScene) (fileNames : List String)
    (model : DemBonesExt) (s : Nat) (st : ReadState) (r : Status) (m : DemBonesExt)
    (hlen : fileNames.length = model.nS) (hs : s < model.nS)
    (hst : stateBefore fsys fileNames model s = some st)
    (hstop : readSubject fsys fileNames s st = Step.stop r m) :
    readFBXs fsys fileNames model = ⟨r, m⟩ := by
  unfold stateBefore at hst
  cases hl : readLoop fsys fileNames s 0 (initialState model) with
  | stop r1 m1 => simp [hl] at hst
  | next st2 =>
    simp only [hl, Option.some.injEq] at hst
    subst hst
    have hsplit : s + ((model.nS - s - 1) + 1) = model.nS := by omega
    have hadd := readLoop_add fsys fileNames s ((model.nS - s - 1) + 1) 0 (initialState model)
    rw [hsplit, hl] at hadd
    unfold readFBXs
    rw [if_neg (by simpa using hlen), hadd]
    simp only [readLoop, Nat.zero_add, hstop]

/-- The pass for a subject that opens and loads is the branch of the subject, `initSubject`
for subject 0 and `mergeSubject` for a later one. -/
theorem readSubject_of_loadSubject (fsys : String → Option FbxScene)
    (fileNames : List String) (s : Nat) (st : ReadState) (imp : FbxSceneImporter)
    (h : loadSubject fsys fileNames s st = some imp) :
    readSubject fsys fileNames s st =
      if s = 0 then initSubject s (frameCount st.model s) st.model imp st.wd st.hasKeyFrame
      else mergeSubject s (frameCount st.model s) st.model imp st.wd st.hasKeyFrame := by
  unfold loadSubject at h
  unfold readSubject frameCount
  cases hf : fileNames[s]? with
  | none => simp [subjectScene, hf] at h
  | some file =>
    cases ho : fsys file with
    | none => simp [subjectScene, hf, ho] at h
    | some scene =>
      have hsc : subjectScene fsys fileNames s = some scene := by
        simp [subjectScene, hf, ho]
      cases hr : frameRange st.model s with
      | none => simp [hsc, hr] at h
      | some ab =>
        obtain ⟨a, b⟩ := ab
        simp only [hsc, hr] at h
        simp only [hf, ho, hr]
        cases hl : load st.importer scene (segment st.model.fTime a b) with
        | error e => simp [hl, Except.toOption] at h
        | ok imp1 =>
          simp only [hl, Except.toOption, Option.some.injEq] at h
          subst h
          rfl

theorem loadSubject_load (fsys : String → Option FbxScene) (fileNames : List String)
    (s : Nat) (st : ReadState) (imp : FbxSceneImporter)
    (h : loadSubject fsys fileNames s st = some imp) :
    ∃ scene fTime, subjectScene fsys fileNames s = some scene ∧
      load st.importer scene fTime = Except.ok imp := by
  unfold loadSubject at h
  cases hsc : subjectScene fsys fileNames s with
  | none => simp [hsc] at h
  | some scene =>
    cases hr : frameRange st.model s with
    | none => simp [hsc, hr] at h
    | some ab =>
      obtain ⟨a, b⟩ := ab
      simp only [hsc, hr] at h
      cases hl : load st.importer scene (segment st.model.fTime a b) with
      | error e => simp [hl, Except.toOption] at h
      | ok imp1 =>
        simp only [hl, Except.toOption, Option.some.injEq] at h
        subst h
        exact ⟨scene, _, rfl, hl⟩

/-- C5 (counterexample): subject 0 has one control point, as `model.nV` says, and subject 1
has two. `readFBXs` fails with `Inconsistent geometry.`, and the aggregate is not what it
was before the call: `nB`, `boneName`, `fv`, `u` and `m` hold what subject 0 stored. -/
theorem readFBXs_failure_keeps_earlier_writes :
    (readFBXs (filesOf (exSceneOrder "A" EFbxRotationOrder.eEulerXYZ) exSceneTwoPoints)
        ["s0.fbx", "s1.fbx"] (emptyModel 2 1 2 [0, 1, 2] [0, 1])).ret
      = Status.err "Inconsistent geometry.\n" ∧
    (emptyModel 2 1 2 [0, 1, 2] [0, 1]).nB = 0 ∧
    (readFBXs (filesOf (exSceneOrder "A" EFbxRotationOrder.eEulerXYZ) exSceneTwoPoints)
        ["s0.fbx", "s1.fbx"] (emptyModel 2 1 2 [0, 1, 2] [0, 1])).model.nB = 1 ∧
    (emptyModel 2 1 2 [0, 1, 2] [0, 1]).boneName = [] ∧
    (readFBXs (filesOf (exSceneOrder "A" EFbxRotationOrder.eEulerXYZ) exSceneTwoPoints)
        ["s0.fbx", "s1.fbx"] (emptyModel 2 1 2 [0, 1, 2] [0, 1])).model.boneName = ["A"] ∧
    (emptyModel 2 1 2 [0, 1, 2] [0, 1]).fv = [] ∧
    (readFBXs (filesOf (exSceneOrder "A" EFbxRotationOrder.eEulerXYZ) exSceneTwoPoints)
        ["s0.fbx", "s1.fbx"] (emptyModel 2 1 2 [0, 1, 2] [0, 1])).model.fv = [[0, 0, 0]] ∧
    (emptyModel 2 1 2 [0, 1, 2] [0, 1]).u.rows = 0 ∧
    (readFBXs (filesOf (exSceneOrder "A" EFbxRotationOrder.eEulerXYZ) exSceneTwoPoints)
        ["s0.fbx", "s1.fbx"] (emptyModel 2 1 2 [0, 1, 2] [0, 1])).model.u.rows = 6 ∧
    (readFBXs (filesOf (exSceneOrder "A" EFbxRotationOrder.eEulerXYZ) exSceneTwoPoints)
        ["s0.fbx", "s1.fbx"] (emptyModel 2 1 2 [0, 1, 2] [0, 1])).model.bind.coeff 0 0
      = some 1 := by
  decide!

/-- C5 (amended): when the loop comes to a later subject `s >= 1` that opens and loads with
a vertex count other than `model.nV`, `readFBXs` returns failure with
`Inconsistent geometry.`; subject `s` has written nothing, and the aggregate is left as the
subjects before `s` left it: `nV` and `w` as before the call, `fv` and `boneName` as
subject 0 set them. -/
theorem readFBXs_vertex_count_mismatch (fsys : String → Option FbxScene)
    (fileNames : List String) (model : DemBonesExt) (s : Nat) (st : ReadState)
    (imp : FbxSceneImporter) (hlen : fileNames.length = model.nS) (hs1 : 1 ≤ s)
    (hs : s < model.nS) (hst : stateBefore fsys fileNames model s = some st)
    (hload : loadSubject fsys fileNames s st = some imp)
    (hne : imp.v.length ≠ model.nV) :
    (readFBXs fsys fileNames model).ret = Status.err "Inconsistent geometry.\n" ∧
    (readFBXs fsys fileNames model).model = st.model ∧
    (readFBXs fsys fileNames model).model.nV = model.nV ∧
    (readFBXs fsys fileNames model).model.w = model.w ∧
    ∃ scene0 mesh0, subjectScene fsys fileNames 0 = some scene0 ∧
      scene0.mesh = some mesh0 ∧
      (readFBXs fsys fileNames model).model.fv = mesh0.polygons ∧
      (readFBXs fsys fileNames model).model.boneName = canonicalNames scene0 := by
  obtain ⟨⟨_, i2, _, _, _, i6⟩, _, _, scene0, mesh0, h1, h2, h3, _, h5, _⟩ :=
    stateBefore_reached _ _ _ _ _ hs1 hst
  have hstop : readSubject fsys fileNames s st
      = Step.stop (Status.err "Inconsistent geometry.\n") st.model := by
    rw [readSubject_of_loadSubject _ _ _ _ _ hload, if_neg (by omega)]
    unfold mergeSubject
    rw [if_pos (by rw [i2]; exact hne)]
  rw [readFBXs_stop_at _ _ _ _ _ _ _ hlen hs hst hstop]
  exact ⟨rfl, rfl, i2, i6, scene0, mesh0, h1, h2, h3, h5⟩

/-- C5 (amended), at the batch of the counterexample. -/
theorem readFBXs_vertex_count_mismatch_witness :
    (readFBXs (filesOf (exSceneOrder "A" EFbxRotationOrder.eEulerXYZ) exSceneTwoPoints)
        ["s0.fbx", "s1.fbx"] (emptyModel 2 1 2 [0, 1, 2] [0, 1])).ret
      = Status.err "Inconsistent geometry.\n" ∧
    (readFBXs (filesOf (exSceneOrder "A" EFbxRotationOrder.eEulerXYZ) exSceneTwoPoints)
        ["s0.fbx", "s1.fbx"] (emptyModel 2 1 2 [0, 1, 2] [0, 1])).model.nV = 1 :=
  have h := readFBXs_vertex_count_mismatch
    (filesOf (exSceneOrder "A" EFbxRotationOrder.eEulerXYZ) exSceneTwoPoints)
    ["s0.fbx", "s1.fbx"] (emptyModel 2 1 2 [0, 1, 2] [0, 1]) 1
    ((stateBefore (filesOf (exSceneOrder "A" EFbxRotationOrder.eEulerXYZ) exSceneTwoPoints)
      ["s0.fbx", "s1.fbx"] (emptyModel 2 1 2 [0, 1, 2] [0, 1]) 1).get (by decide!))
    ((loadSubject (filesOf (exSceneOrder "A" EFbxRotationOrder.eEulerXYZ) exSceneTwoPoints)
      ["s0.fbx", "s1.fbx"] 1
      ((stateBefore (filesOf (exSceneOrder "A" EFbxRotationOrder.eEulerXYZ) exSceneTwoPoints)
        ["s0.fbx", "s1.fbx"] (emptyModel 2 1 2 [0, 1, 2] [0, 1]) 1).get (by decide!))).get
      (by decide!))
    rfl (by decide) (by decide) (Option.some_get _).symm (Option.some_get _).symm
    (by decide!)
  ⟨h.1, h.2.2.1⟩

/-! ## A later subject that passes the geometry checks -/

/-- Once subject 0 has been read, the pass of a later subject whose vertex count, face list
and joint count are those of the aggregate comes to the joint loop, run on the aggregate
with the subject's vertices stored. -/
theorem mergeSubject_after_geometry (fsys : String → Option FbxScene)
    (fileNames : List String) (model0 : DemBonesExt) (s nFr : Nat) (st : ReadState)
    (imp : FbxSceneImporter) (hR : Reached fsys fileNames model0 st) (hs : s < model0.nS)
    (hgeo : imp.v.length = st.model.nV) (hfv : st.model.fv = imp.fv)
    (hnB : st.model.nB = imp.jointName.length) :
    ∃ u1, mergeSubject s nFr st.model imp st.wd st.hasKeyFrame =
      match mergeJoints s imp st.model.boneName 0 { st.model with u := u1 } with
      | (Status.ok, model1) =>
        if st.wd.rows ≠ imp.wT.size then
          Step.stop (Status.err "Inconsistent skinningWeights.\n") model1
        else
          match (if st.wd.rows ≠ 0 then mergeWeights imp model1.boneName 0 st.wd
            else some st.wd) with
          | none => Step.stop Status.undef model1
          | some wd1 => finishSubject s nFr model1 imp wd1 st.hasKeyFrame
      | (r, model1) => Step.stop r model1 := by
  obtain ⟨⟨i1, _⟩, ⟨s1, s2, s3, s4, s5, s6, s7, s8, s9, s10, s11⟩, _⟩ := hR
  have hu : ∃ u1, st.model.u.setBlock (s * 3) 0 3 st.model.nV 3 imp.v.length
      (fun i c => if h : i < 3 then (imp.v[c]?).map (fun p => p ⟨i, h⟩) else none)
      = some u1 := by
    unfold DenseMat.setBlock
    have : s * 3 + 3 ≤ st.model.u.rows ∧ 0 + st.model.nV ≤ st.model.u.cols ∧ 3 = 3 ∧
        imp.v.length = st.model.nV := by
      refine ⟨?_, ?_, rfl, hgeo⟩
      · rw [s4, i1]
        omega
      · rw [s5]
        omega
    rw [if_pos this]
    exact ⟨_, rfl⟩
  obtain ⟨u1, hu1⟩ := hu
  refine ⟨u1, ?_⟩
  unfold mergeSubject
  rw [if_neg (by simpa using hgeo), hu1]
  simp only
  rw [if_neg (by simpa using hfv), if_neg (by simpa using hnB),
    DenseVec.resize_of_size _ _ s2, DenseMat.resize_same _ _ _ s6 s7,
    DenseMat.resize_same _ _ _ s8 s9, DenseMat.resize_same _ _ _ s10 s11]

theorem merge_tables_found (fsys : String → Option FbxScene) (fileNames : List String)
    (model0 : DemBonesExt) (s : Nat) (st : ReadState) (imp : FbxSceneImporter)
    (hR : Reached fsys fileNames model0 st)
    (hload : loadSubject fsys fileNames s st = some imp)
    (hpar : ∀ nj ∈ st.model.boneName, (imp.parent.find nj).isSome) :
    ∀ nj ∈ st.model.boneName, (imp.parent.find nj).isSome ∧ (imp.bind.find nj).isSome ∧
      (imp.preMulInv.find nj).isSome ∧ (imp.rotOrder.find nj).isSome := by
  obtain ⟨scene, fTime, _, hl⟩ := loadSubject_load _ _ _ _ _ hload
  obtain ⟨_, _, hro, _⟩ := hR
  intro nj hnj
  obtain ⟨h1, h2, h3⟩ := load_ok_tables_same_names _ _ _ _ hl nj (hpar nj hnj)
  exact ⟨hpar nj hnj, h1, h2, h3 (hro nj hnj)⟩

/-- C8 (counterexample): subject 0 supplies a weight table for its two joints and subject 1
supplies none, but subject 1 has three joints: `readFBXs` fails with
`Inconsistent joints set.`, the check before the weight check, not with
`Inconsistent skinningWeights.`. -/
theorem readFBXs_weights_mismatch_other_error :
    (load FbxSceneImporter.fresh exSceneWeights [0]).toOption.map (fun imp => imp.wT.size)
      = some 2 ∧
    (load FbxSceneImporter.fresh exSceneThreeJoints [1]).toOption.map (fun imp => imp.wT.size)
      = some 0 ∧
    (readFBXs (filesOf exSceneWeights exSceneThreeJoints) ["s0.fbx", "s1.fbx"]
        (emptyModel 2 2 2 [0, 1, 2] [0, 1])).ret = Status.err "Inconsistent joints set.\n" := by
  decide!

/-- The weight check of a later subject that passes the checks before it. -/
theorem readFBXs_weights_mismatch_at (fsys : String → Option FbxScene)
    (fileNames : List String) (model : DemBonesExt) (s : Nat) (st : ReadState)
    (imp : FbxSceneImporter) (scene0 : FbxScene) (hlen : fileNames.length = model.nS)
    (hs1 : 1 ≤ s) (hs : s < model.nS)
    (hst : stateBefore fsys fileNames model s = some st)
    (hload : loadSubject fsys fileNames s st = some imp)
    (hscene0 : subjectScene fsys fileNames 0 = some scene0)
    (hgeo : imp.v.length = model.nV) (hfv : st.model.fv = imp.fv)
    (hnB : st.model.nB = imp.jointName.length)
    (hsame : ∀ j, j < st.model.boneName.length →
      imp.parent.find (st.model.boneName.getD j "") = aggregateParentName st.model j)
    (hw : (scene0.skin.isSome ∧ imp.wT.size ≠ st.model.nB) ∨
      (scene0.skin = none ∧ imp.wT.size ≠ 0)) :
    (readFBXs fsys fileNames model).ret = Status.err "Inconsistent skinningWeights.\n" := by
  have hR := stateBefore_reached _ _ _ _ _ hs1 hst
  have hjoints : ∀ j nj, st.model.boneName[j]? = some nj →
      imp.parent.find nj = aggregateParentName st.model j := by
    intro j nj hj
    obtain ⟨hlt, hget⟩ := List.getElem?_eq_some.mp hj
    have := hsame j hlt
    rw [List.getD_eq_getElem _ _ hlt, hget] at this
    exact this
  have hnS : st.model.nS = model.nS := hR.1.1
  obtain ⟨⟨_, i2, _⟩, ⟨s1, s2, s3, s4, s5, s6, s7, s8, s9, s10, s11⟩, _, sc0, mesh0, h1, _, _,
    hwd, _⟩ := id hR
  have hsc : sc0 = scene0 := by
    rw [h1] at hscene0
    exact Option.some.inj hscene0
  subst hsc
  have hparent : ∀ nj ∈ st.model.boneName, (imp.parent.find nj).isSome := by
    intro nj hnj
    obtain ⟨j, hj, hget⟩ := List.getElem_of_mem hnj
    have hq : st.model.boneName[j]? = some nj := by
      rw [← hget]
      exact List.getElem?_eq_getElem hj
    rw [hjoints j nj hq]
    exact s3 j (by rw [s1]; exact hj)
  have hfind := merge_tables_found _ _ _ _ _ _ hR hload hparent
  obtain ⟨u1, hm⟩ := mergeSubject_after_geometry fsys fileNames model s
    (frameCount st.model s) st imp hR hs (by rw [i2]; exact hgeo) hfv hnB
  obtain ⟨model1, hmj⟩ := mergeJoints_pass s imp st.model.boneName 0
    { st.model with u := u1 }
    (by show (s + 1) * 4 ≤ st.model.bind.rows; rw [s6, hnS]; omega)
    (by show (0 + st.model.boneName.length) * 4 ≤ st.model.bind.cols; rw [s7, s1]; omega)
    (by show (s + 1) * 4 ≤ st.model.preMulInv.rows; rw [s8, hnS]; omega)
    (by show (0 + st.model.boneName.length) * 4 ≤ st.model.preMulInv.cols
        rw [s9, s1]; omega)
    (by show (s + 1) * 3 ≤ st.model.rotOrder.rows; rw [s10, hnS]; omega)
    (by show 0 + st.model.boneName.length ≤ st.model.rotOrder.cols; rw [s11, s1]; omega)
    hfind
    (by
      intro i nj hi
      rw [Nat.zero_add]
      exact hjoints i nj hi)
  have hrows : st.wd.rows ≠ imp.wT.size := by
    rw [hwd]
    rcases hw with ⟨w1, w2⟩ | ⟨w1, w2⟩
    · rw [if_pos w1]
      exact fun hc => w2 hc.symm
    · rw [w1]
      simp only [Option.isSome_none, Bool.false_eq_true, if_false]
      exact fun hc => w2 hc.symm
  have hstop : readSubject fsys fileNames s st
      = Step.stop (Status.err "Inconsistent skinningWeights.\n") model1 := by
    rw [readSubject_of_loadSubject _ _ _ _ _ hload, if_neg (by omega), hm, hmj]
    simp only
    rw [if_pos hrows]
  rw [readFBXs_stop_at _ _ _ _ _ _ _ hlen hs hst hstop]

theorem load_ok_skin_names (imp : FbxSceneImporter) (scene : FbxScene) (fTime : List ℚ)
    (imp1 : FbxSceneImporter) (h : load imp scene fTime = Except.ok imp1)
    (hsk : scene.skin.isSome) : imp1.jointName ≠ [] := by
  obtain ⟨mesh, sk, _, hs, _, _, _, hj, _⟩ := load_ok _ _ _ _ h
  rcases loadSkin_ok _ _ _ _ hs with ⟨h0, _⟩ | ⟨c, rest, wT, h0, _, _, hk⟩
  · rw [h0] at hsk
    simp at hsk
  · subst hk
    simp [hj]

/-- On success every subject has a skin exactly when the accumulator `wd` has rows. -/
theorem readFBXs_ok_weights_all_or_none (fsys : String → Option FbxScene)
    (fileNames : List String) (model : DemBonesExt)
    (h : (readFBXs fsys fileNames model).ret = Status.ok) :
    (∀ s, s < model.nS → ∃ scene, subjectScene fsys fileNames s = some scene ∧
      scene.skin.isSome) ∨
    (∀ s, s < model.nS → ∃ scene, subjectScene fsys fileNames s = some scene ∧
      scene.skin = none) := by
  obtain ⟨_, st, hloop, _⟩ := readFBXs_ok fsys fileNames model h
  have hinv := readLoop_invariant fsys fileNames
    (fun i sti => (i = 0 → sti.wd.rows = 0) ∧
      ∀ s, s < i → ∃ scene, subjectScene fsys fileNames s = some scene ∧
        (scene.skin.isSome ↔ sti.wd.rows ≠ 0))
    model.nS 0 (initialState model) st
    ⟨fun _ => rfl, fun s hs => absurd hs (Nat.not_lt_zero s)⟩
    (by
      intro i sti sti1 _ _ hP hstep
      obtain ⟨hw0, hprev⟩ := hP
      refine ⟨fun hi => absurd hi (by omega), ?_⟩
      obtain ⟨scene, a, b, imp, hscene, _, hload, hbranch⟩ :=
        readSubject_next fsys fileNames i sti sti1 hstep
      obtain ⟨_, hwt⟩ := load_ok_names_weights _ _ _ _ hload
      by_cases hi : i = 0
      · rw [if_pos hi] at hbranch
        obtain ⟨_, _, _, _, _, _, _, c8, _⟩ := initSubject_next _ _ _ _ _ _ _ hbranch
        intro s hs
        have hs0 : s = i := by omega
        subst hs0
        refine ⟨scene, hscene, ?_⟩
        rw [c8, hw0 hi]
        by_cases hsk : scene.skin.isSome
        · rw [if_pos (hwt.mpr hsk)]
          have := load_ok_skin_names _ _ _ _ hload hsk
          simp only [hsk, true_iff]
          exact fun hl => this (List.length_eq_zero.mp hl)
        · rw [if_neg (fun hc => hsk (hwt.mp hc))]
          simp [hsk]
      · rw [if_neg hi] at hbranch
        obtain ⟨_, _, _, _, _, _, _, _, _, _, c11, c12, _⟩ :=
          mergeSubject_next _ _ _ _ _ _ _ hbranch
        intro s hs
        by_cases hsi : s = i
        · subst hsi
          refine ⟨scene, hscene, ?_⟩
          rw [c12, c11]
          exact hwt.symm
        · obtain ⟨sc, d1, d2⟩ := hprev s (by omega)
          exact ⟨sc, d1, by rw [c12]; exact d2⟩)
    hloop
  obtain ⟨_, hall⟩ := hinv
  rw [Nat.zero_add] at hall
  by_cases hrows : st.wd.rows ≠ 0
  · left
    intro s hs
    obtain ⟨sc, d1, d2⟩ := hall s hs
    exact ⟨sc, d1, d2.mpr hrows⟩
  · right
    intro s hs
    obtain ⟨sc, d1, d2⟩ := hall s hs
    refine ⟨sc, d1, ?_⟩
    cases hsk : sc.skin with
    | none => rfl
    | some cs =>
      exact absurd (d2.mp (by simp [hsk])) hrows

/-- C8 (amended): the loop comes to a later subject `s >= 1` that opens, loads and passes
the checks before the weight check (vertex count, face list, joint count, and for every
bone the parent name the aggregate holds). If subject 0 has a skin and the subject's weight
table does not have `nB` rows (none is 0 rows), or subject 0 has no skin and the subject's
weight table is not empty, `readFBXs` returns failure with
`Inconsistent skinningWeights.`. And whenever `readFBXs` returns `true`, either every
subject has a skin, and so supplied weights, or none has. -/
theorem readFBXs_weights_consistent (fsys : String → Option FbxScene)
    (fileNames : List String) (model : DemBonesExt) :
    (∀ (s : Nat) (st : ReadState) (imp : FbxSceneImporter) (scene0 : FbxScene),
      fileNames.length = model.nS → 1 ≤ s → s < model.nS →
      stateBefore fsys fileNames model s = some st →
      loadSubject fsys fileNames s st = some imp →
      subjectScene fsys fileNames 0 = some scene0 →
      imp.v.length = model.nV → st.model.fv = imp.fv →
      st.model.nB = imp.jointName.length →
      (∀ j, j < st.model.boneName.length →
        imp.parent.find (st.model.boneName.getD j "") = aggregateParentName st.model j) →
      ((scene0.skin.isSome ∧ imp.wT.size ≠ st.model.nB) ∨
        (scene0.skin = none ∧ imp.wT.size ≠ 0)) →
      (readFBXs fsys fileNames model).ret = Status.err "Inconsistent skinningWeights.\n") ∧
    ((readFBXs fsys fileNames model).ret = Status.ok →
      (∀ s, s < model.nS → ∃ scene, subjectScene fsys fileNames s = some scene ∧
        scene.skin.isSome) ∨
      (∀ s, s < model.nS → ∃ scene, subjectScene fsys fileNames s = some scene ∧
        scene.skin = none)) :=
  ⟨fun s st imp scene0 h1 h2 h3 h4 h5 h6 h7 h8 h9 h10 h11 =>
      readFBXs_weights_mismatch_at fsys fileNames model s st imp scene0 h1 h2 h3 h4 h5 h6 h7
        h8 h9 h10 h11,
    readFBXs_ok_weights_all_or_none fsys fileNames model⟩

/-- C8 (amended), at subject 0 with the skin of `exSceneWeights` and subject 1 with the same
joints and no skin. -/
theorem readFBXs_weights_consistent_witness :
    (readFBXs (filesOf exSceneWeights exSceneNoSkin) ["s0.fbx", "s1.fbx"]
        (emptyModel 2 2 2 [0, 1, 2] [0, 1])).ret
      = Status.err "Inconsistent skinningWeights.\n" :=
  (readFBXs_weights_consistent (filesOf exSceneWeights exSceneNoSkin) ["s0.fbx", "s1.fbx"]
    (emptyModel 2 2 2 [0, 1, 2] [0, 1])).1 1
    ((stateBefore (filesOf exSceneWeights exSceneNoSkin) ["s0.fbx", "s1.fbx"]
      (emptyModel 2 2 2 [0, 1, 2] [0, 1]) 1).get (by decide!))
    ((loadSubject (filesOf exSceneWeights exSceneNoSkin) ["s0.fbx", "s1.fbx"] 1
      ((stateBefore (filesOf exSceneWeights exSceneNoSkin) ["s0.fbx", "s1.fbx"]
        (emptyModel 2 2 2 [0, 1, 2] [0, 1]) 1).get (by decide!))).get (by decide!))
    exSceneWeights rfl (by decide) (by decide) (Option.some_get _).symm
    (Option.some_get _).symm rfl (by decide!) (by decide!) (by decide!) (by decide!)
    (Or.inl (by decide!))

/-- C4 (counterexample): subject 0 has joint `B` under joint `A` and a skin whose two
clusters are both linked to `B`; subject 1 has `B` as a root joint. `readFBXs` succeeds,
although the parent name resolved for `B` is `A` in subject 0 and empty in subject 1: the
aggregate holds no parent for `B`, `A` not being a bone. -/
theorem readFBXs_ok_parent_differs_from_subject0 :
    (readFBXs (filesOf exSceneDoubleLink exSceneTwoRoots) ["s0.fbx", "s1.fbx"]
        (emptyModel 2 2 2 [0, 1, 2] [0, 1])).ret = Status.ok ∧
    (readFBXs (filesOf exSceneDoubleLink exSceneTwoRoots) ["s0.fbx", "s1.fbx"]
        (emptyModel 2 2 2 [0, 1, 2] [0, 1])).model.boneName = ["B", "B"] ∧
    sceneParentName exSceneDoubleLink "B" = "A" ∧
    sceneParentName exSceneTwoRoots "B" = "" := by
  decide!

theorem findParent_of_mem (names : List String) (k : Nat) (pName : String) (p : Int)
    (h : pName ∈ names) :
    ∃ i, i < names.length ∧ names[i]? = some pName ∧
      findParent names k pName p = ((k + i : Nat) : Int) := by
  induction names generalizing k p with
  | nil => simp at h
  | cons b rest ih =>
    simp only [findParent]
    by_cases hr : pName ∈ rest
    · obtain ⟨i, hi, hn, hf⟩ := ih (k + 1) (if b = pName then (k : Int) else p) hr
      refine ⟨i + 1, by simp [hi], by simpa using hn, ?_⟩
      rw [hf]
      congr 1
      omega
    · have hb : b = pName := by
        rcases List.mem_cons.mp h with h0 | h0
        · exact h0.symm
        · exact absurd h0 hr
      refine ⟨0, by simp, by simp [hb], ?_⟩
      rw [findParent_none _ _ _ _ hr, if_pos hb]
      simp

/-- The parent name the aggregate holds for a bone whose `parent(j)` was computed from the
parent name `pn`: `pn` when `pn` is a bone name, `""` otherwise. -/
theorem aggregateParentName_eq (model : DemBonesExt) (j : Nat) (pn : String)
    (hj : j < model.parent.size)
    (h : model.parent.coeff j = some (findParent model.boneName 0 pn (-1))) :
    aggregateParentName model j = some (if pn ∈ model.boneName then pn else "") := by
  unfold aggregateParentName
  rw [if_pos hj, h]
  by_cases hm : pn ∈ model.boneName
  · obtain ⟨i, hi, hn, h1⟩ := findParent_of_mem model.boneName 0 pn (-1) hm
    rw [h1, if_pos hm]
    have : ¬ (((0 + i : Nat) : Int) = -1) := by omega
    simp only [this, if_false]
    have h0 : (0 : Int) ≤ ((0 + i : Nat) : Int) := by omega
    rw [if_pos h0]
    simp only [Nat.zero_add, Int.toNat_ofNat]
    exact hn
  · rw [findParent_none _ _ _ _ hm, if_neg hm]
    simp

/-- The hierarchy check of a later subject that has the aggregate's vertex count, face
list and joint count and knows every bone name. -/
theorem readFBXs_hierarchy_mismatch_at (fsys : String → Option FbxScene)
    (fileNames : List String) (model : DemBonesExt) (s : Nat) (st : ReadState)
    (imp : FbxSceneImporter) (hlen : fileNames.length = model.nS)
    (hs1 : 1 ≤ s) (hs : s < model.nS)
    (hst : stateBefore fsys fileNames model s = some st)
    (hload : loadSubject fsys fileNames s st = some imp)
    (hgeo : imp.v.length = model.nV) (hfv : st.model.fv = imp.fv)
    (hnB : st.model.nB = imp.jointName.length)
    (hnames : ∀ j, j < st.model.boneName.length →
      (imp.parent.find (st.model.boneName.getD j "")).isSome)
    (hmis : ∃ j, j < st.model.boneName.length ∧
      imp.parent.find (st.model.boneName.getD j "") ≠ aggregateParentName st.model j) :
    (readFBXs fsys fileNames model).ret
      = Status.err "Inconsistent skeleton hierarchy.\n" := by
  have hR := stateBefore_reached _ _ _ _ _ hs1 hst
  have hnS : st.model.nS = model.nS := hR.1.1
  obtain ⟨⟨_, i2, _⟩, ⟨s1, s2, s3, s4, s5, s6, s7, s8, s9, s10, s11⟩, _⟩ := id hR
  have hparent : ∀ nj ∈ st.model.boneName, (imp.parent.find nj).isSome := by
    intro nj hnj
    obtain ⟨j, hj, hget⟩ := List.getElem_of_mem hnj
    have := hnames j hj
    rw [List.getD_eq_getElem _ _ hj, hget] at this
    exact this
  have hfind := merge_tables_found _ _ _ _ _ _ hR hload hparent
  obtain ⟨u1, hm⟩ := mergeSubject_after_geometry fsys fileNames model s
    (frameCount st.model s) st imp hR hs (by rw [i2]; exact hgeo) hfv hnB
  have hmj := mergeJoints_hierarchy s imp st.model.boneName 0
    { st.model with u := u1 }
    (by show (s + 1) * 4 ≤ st.model.bind.rows; rw [s6, hnS]; omega)
    (by show (0 + st.model.boneName.length) * 4 ≤ st.model.bind.cols; rw [s7, s1]; omega)
    (by show (s + 1) * 4 ≤ st.model.preMulInv.rows; rw [s8, hnS]; omega)
    (by show (0 + st.model.boneName.length) * 4 ≤ st.model.preMulInv.cols
        rw [s9, s1]; omega)
    (by show (s + 1) * 3 ≤ st.model.rotOrder.rows; rw [s10, hnS]; omega)
    (by show 0 + st.model.boneName.length ≤ st.model.rotOrder.cols; rw [s11, s1]; omega)
    hfind
    (by
      intro i hi
      rw [Nat.zero_add]
      exact s3 i (by rw [s1]; exact hi))
    (by
      obtain ⟨j, hj, hne⟩ := hmis
      refine ⟨j, st.model.boneName[j], List.getElem?_eq_getElem hj, ?_⟩
      rw [Nat.zero_add, ← List.getD_eq_getElem _ "" hj]
      exact hne)
  cases hres : mergeJoints s imp st.model.boneName 0 { st.model with u := u1 } with
  | mk r model1 =>
    rw [hres] at hmj hm
    have hr : r = Status.err "Inconsistent skeleton hierarchy.\n" := hmj
    subst hr
    have hstop : readSubject fsys fileNames s st
        = Step.stop (Status.err "Inconsistent skeleton hierarchy.\n") model1 := by
      rw [readSubject_of_loadSubject _ _ _ _ _ hload, if_neg (by omega), hm]
    rw [readFBXs_stop_at _ _ _ _ _ _ _ hlen hs hst hstop]

/-- On success every later subject resolves, for every bone, the parent name the aggregate
holds; and the aggregate holds subject 0's resolved parent name where that is a bone name,
the empty name otherwise. -/
theorem readFBXs_ok_same_parents (fsys : String → Option FbxScene)
    (fileNames : List String) (model : DemBonesExt)
    (h : (readFBXs fsys fileNames model).ret = Status.ok) :
    (∀ s, 1 ≤ s → s < model.nS →
      ∃ scene, subjectScene fsys fileNames s = some scene ∧
        ∀ j, j < (readFBXs fsys fileNames model).model.boneName.length →
          aggregateParentName (readFBXs fsys fileNames model).model j
            = some (sceneParentName scene
                ((readFBXs fsys fileNames model).model.boneName.getD j ""))) ∧
    (1 ≤ model.nS →
      ∃ scene0, subjectScene fsys fileNames 0 = some scene0 ∧
        ∀ j, j < (readFBXs fsys fileNames model).model.boneName.length →
          aggregateParentName (readFBXs fsys fileNames model).model j
            = some (if sceneParentName scene0
                  ((readFBXs fsys fileNames model).model.boneName.getD j "")
                  ∈ (readFBXs fsys fileNames model).model.boneName
                then sceneParentName scene0
                  ((readFBXs fsys fileNames model).model.boneName.getD j "")
                else "")) := by
  obtain ⟨_, st, hloop, hres⟩ := readFBXs_ok fsys fileNames model h
  have hfin : ∀ j, aggregateParentName (readFBXs fsys fileNames model).model j
      = aggregateParentName st.model j := by
    intro j
    rw [hres]
    exact aggregateParentName_congr _ _ _ rfl rfl
  have hbn : (readFBXs fsys fileNames model).model.boneName = st.model.boneName := by
    rw [hres]
    rfl
  have hinv := readLoop_invariant fsys fileNames
    (fun i sti => (i = 0 → sti = initialState model) ∧
      (1 ≤ i → Reached fsys fileNames model sti) ∧
      ∀ s, 1 ≤ s → s < i → ∃ scene, subjectScene fsys fileNames s = some scene ∧
        ∀ j, j < sti.model.boneName.length →
          aggregateParentName sti.model j
            = some (sceneParentName scene (sti.model.boneName.getD j "")))
    model.nS 0 (initialState model) st
    ⟨fun _ => rfl, fun hi => absurd hi (by omega), fun s _ hs => absurd hs (by omega)⟩
    (by
      intro i sti sti1 _ _ hP hstep
      obtain ⟨h0, h1, hprev⟩ := hP
      obtain ⟨scene, a, b, imp, hscene, _, hload, hbranch⟩ :=
        readSubject_next fsys fileNames i sti sti1 hstep
      refine ⟨fun hi => absurd hi (by omega), ?_, ?_⟩
      · intro _
        by_cases hi : i = 0
        · rw [if_pos hi] at hbranch
          have hst := h0 hi
          subst hi
          subst hst
          exact initSubject_reached fsys fileNames model _ _ _ _ _ _ _ _ scene _
            ⟨rfl, rfl, rfl, rfl, rfl, rfl⟩ hscene hload rfl hbranch
        · rw [if_neg hi] at hbranch
          exact mergeSubject_reached fsys fileNames model _ _ _ _ _ scene _
            (h1 (by omega)) hload hbranch
      · intro s hs1 hs
        have hi : ¬ i = 0 := by omega
        rw [if_neg hi] at hbranch
        obtain ⟨_, _, _, _, _, _, c7, c8, _, _, _, _, _, _, _, hall⟩ :=
          mergeSubject_next _ _ _ _ _ _ _ hbranch
        obtain ⟨_, ⟨_, s2, _⟩, _⟩ := h1 (by omega)
        have hpar : sti1.model.parent = sti.model.parent := by
          rw [c8]
          exact DenseVec.resize_of_size _ _ s2
        by_cases hsi : s = i
        · subst hsi
          refine ⟨scene, hscene, ?_⟩
          intro j hj
          rw [c7] at hj ⊢
          obtain ⟨pn, e1, e2, _⟩ := hall j _ (List.getElem?_eq_getElem hj)
          obtain ⟨_, _, _, _, _, _, _, _, _, hp, _⟩ := load_ok _ _ _ _ hload
          rw [e2, List.getD_eq_getElem _ _ hj]
          simp only [sceneParentName, ← hp, e1, Option.getD_some]
        · obtain ⟨sc, d1, d2⟩ := hprev s hs1 (by omega)
          refine ⟨sc, d1, ?_⟩
          intro j hj
          rw [c7] at hj ⊢
          rw [aggregateParentName_congr sti.model sti1.model j hpar c7]
          exact d2 j hj)
    hloop
  obtain ⟨_, hreach, hall⟩ := hinv
  rw [Nat.zero_add] at hreach hall
  constructor
  · intro s hs1 hs
    obtain ⟨sc, d1, d2⟩ := hall s hs1 hs
    refine ⟨sc, d1, ?_⟩
    intro j hj
    rw [hbn] at hj ⊢
    rw [hfin]
    exact d2 j hj
  · intro hpos
    obtain ⟨_, ⟨s1, s2, _⟩, _, scene0, mesh0, e1, _, _, _, _, e6⟩ := hreach hpos
    refine ⟨scene0, e1, ?_⟩
    intro j hj
    rw [hbn] at hj ⊢
    rw [hfin, List.getD_eq_getElem _ _ hj]
    exact aggregateParentName_eq _ _ _ (by rw [s2, s1]; exact hj)
      (e6 j _ (List.getElem?_eq_getElem hj))

/-- C4 (amended): the loop comes to a later subject `s >= 1` that opens and loads with the
aggregate's vertex count, face list and joint count and has every bone name in its parent
table. If for some bone its resolved parent name is not the one the aggregate holds (`""`
for a root), `readFBXs` returns failure with `Inconsistent skeleton hierarchy.`. And
whenever `readFBXs` returns `true`, every later subject resolves for every bone the parent
name the aggregate holds, which is subject 0's resolved parent name where that is a bone
name and `""` where it is not. -/
theorem readFBXs_hierarchy_consistent (fsys : String → Option FbxScene)
    (fileNames : List String) (model : DemBonesExt) :
    (∀ (s : Nat) (st : ReadState) (imp : FbxSceneImporter),
      fileNames.length = model.nS → 1 ≤ s → s < model.nS →
      stateBefore fsys fileNames model s = some st →
      loadSubject fsys fileNames s st = some imp →
      imp.v.length = model.nV → st.model.fv = imp.fv →
      st.model.nB = imp.jointName.length →
      (∀ j, j < st.model.boneName.length →
        (imp.parent.find (st.model.boneName.getD j "")).isSome) →
      (∃ j, j < st.model.boneName.length ∧
        imp.parent.find (st.model.boneName.getD j "") ≠ aggregateParentName st.model j) →
      (readFBXs fsys fileNames model).ret
        = Status.err "Inconsistent skeleton hierarchy.\n") ∧
    ((readFBXs fsys fileNames model).ret = Status.ok →
      (∀ s, 1 ≤ s → s < model.nS →
        ∃ scene, subjectScene fsys fileNames s = some scene ∧
          ∀ j, j < (readFBXs fsys fileNames model).model.boneName.length →
            aggregateParentName (readFBXs fsys fileNames model).model j
              = some (sceneParentName scene
                  ((readFBXs fsys fileNames model).model.boneName.getD j ""))) ∧
      (1 ≤ model.nS →
        ∃ scene0, subjectScene fsys fileNames 0 = some scene0 ∧
          ∀ j, j < (readFBXs fsys fileNames model).model.boneName.length →
            aggregateParentName (readFBXs fsys fileNames model).model j
              = some (if sceneParentName scene0
                    ((readFBXs fsys fileNames model).model.boneName.getD j "")
                    ∈ (readFBXs fsys fileNames model).model.boneName
                  then sceneParentName scene0
                    ((readFBXs fsys fileNames model).model.boneName.getD j "")
                  else ""))) :=
  ⟨fun s st imp h1 h2 h3 h4 h5 h6 h7 h8 h9 h10 =>
      readFBXs_hierarchy_mismatch_at fsys fileNames model s st imp h1 h2 h3 h4 h5 h6 h7 h8
        h9 h10,
    readFBXs_ok_same_parents fsys fileNames model⟩

/-- C4 (amended), at subject 0 with joint `b` under joint `a` and subject 1 with `a` and `b`
both roots. -/
theorem readFBXs_hierarchy_consistent_witness :
    (readFBXs (filesOf exSceneChain exSceneNoSkin) ["s0.fbx", "s1.fbx"]
        (emptyModel 2 2 2 [0, 1, 2] [0, 1])).ret
      = Status.err "Inconsistent skeleton hierarchy.\n" :=
  (readFBXs_hierarchy_consistent (filesOf exSceneChain exSceneNoSkin) ["s0.fbx", "s1.fbx"]
    (emptyModel 2 2 2 [0, 1, 2] [0, 1])).1 1
    ((stateBefore (filesOf exSceneChain exSceneNoSkin) ["s0.fbx", "s1.fbx"]
      (emptyModel 2 2 2 [0, 1, 2] [0, 1]) 1).get (by decide!))
    ((loadSubject (filesOf exSceneChain exSceneNoSkin) ["s0.fbx", "s1.fbx"] 1
      ((stateBefore (filesOf exSceneChain exSceneNoSkin) ["s0.fbx", "s1.fbx"]
        (emptyModel 2 2 2 [0, 1, 2] [0, 1]) 1).get (by decide!))).get (by decide!))
    rfl (by decide) (by decide) (Option.some_get _).symm (Option.some_get _).symm
    (by decide!) (by decide!) (by decide!) (by decide!) (by decide!)

/-! ## The traversal -/

mutual
theorem travel_acc : ∀ (node : FbxNode) (path : List Nat) (up pj : Option FbxNodePtr)
    (jn : List JointNode), travel node path up pj jn = jn ++ travel node path up pj []
  | FbxNode.mk n a r rc tc g cs, path, up, pj, jn => by
    simp only [travel]
    split_ifs
    · rw [travelChildren_acc cs _ _ _ (jn ++ _), travelChildren_acc cs _ _ _ ([] ++ _)]
      simp
    · exact travelChildren_acc cs _ _ _ jn
theorem travelChildren_acc : ∀ (cs : List FbxNode) (self : FbxNodePtr) (j : Nat)
    (pj : Option FbxNodePtr) (jn : List JointNode),
    travelChildren cs self j pj jn = jn ++ travelChildren cs self j pj []
  | [], self, j, pj, jn => by simp [travelChildren]
  | c :: rest, self, j, pj, jn => by
    simp only [travelChildren]
    rw [travelChildren_acc rest _ _ _ (travel c _ _ _ jn),
      travelChildren_acc rest _ _ _ (travel c _ _ _ []), travel_acc c _ _ _ jn]
    simp
end

theorem ParentsEarlier.append (pj : Option FbxNodePtr) (l1 l2 : List JointNode)
    (h1 : ParentsEarlier pj l1) (h2 : ParentsEarlier pj l2) :
    ParentsEarlier pj (l1 ++ l2) := by
  intro i x hi
  by_cases hlt : i < l1.length
  · rw [List.getElem?_append_left hlt] at hi
    rcases h1 i x hi with h | ⟨k, y, hk, hy, hp⟩
    · exact Or.inl h
    · exact Or.inr ⟨k, y, hk, by rw [List.getElem?_append_left (by omega)]; exact hy, hp⟩
  · rw [List.getElem?_append_right (by omega)] at hi
    rcases h2 _ x hi with h | ⟨k, y, hk, hy, hp⟩
    · exact Or.inl h
    · refine Or.inr ⟨l1.length + k, y, by omega, ?_, hp⟩
      rw [List.getElem?_append_right (by omega)]
      simpa using hy

theorem ParentsEarlier.cons (pj : Option FbxNodePtr) (p : FbxNodePtr) (l : List JointNode)
    (h : ParentsEarlier (some p) l) : ParentsEarlier pj (⟨p, pj⟩ :: l) := by
  intro i x hi
  cases i with
  | zero =>
    simp only [List.getElem?_cons_zero, Option.some.injEq] at hi
    subst hi
    exact Or.inl rfl
  | succ i =>
    simp only [List.getElem?_cons_succ] at hi
    rcases h i x hi with h0 | ⟨k, y, hk, hy, hp⟩
    · exact Or.inr ⟨0, ⟨p, pj⟩, by omega, by simp, h0⟩
    · exact Or.inr ⟨k + 1, y, by omega, by simpa using hy, hp⟩

mutual
theorem travel_parentsEarlier : ∀ (node : FbxNode) (path : List Nat)
    (up pj : Option FbxNodePtr), ParentsEarlier pj (travel node path up pj [])
  | FbxNode.mk n a r rc tc g cs, path, up, pj => by
    simp only [travel]
    split_ifs
    · rw [travelChildren_acc]
      exact ParentsEarlier.cons pj _ _ (travelChildren_parentsEarlier cs _ 0 _)
    · exact travelChildren_parentsEarlier cs _ 0 pj
theorem travelChildren_parentsEarlier : ∀ (cs : List FbxNode) (self : FbxNodePtr) (j : Nat)
    (pj : Option FbxNodePtr), ParentsEarlier pj (travelChildren cs self j pj [])
  | [], self, j, pj => by
    intro i x hi
    simp [travelChildren] at hi
  | c :: rest, self, j, pj => by
    simp only [travelChildren]
    rw [travelChildren_acc]
    exact ParentsEarlier.append pj _ _ (travel_parentsEarlier c _ _ pj)
      (travelChildren_parentsEarlier rest self (j + 1) pj)
end

/-- In the list of joints of a scene, the parent name of every joint is empty or the name
of an earlier joint. -/
theorem sceneJoints_parent_names (scene : FbxScene) (i : Nat) (x : JointNode)
    (hi : (sceneJoints scene)[i]? = some x) :
    x.parentName = "" ∨
    ∃ k y, k < i ∧ (sceneJoints scene)[k]? = some y ∧ x.parentName = y.name := by
  rcases travel_parentsEarlier scene.root [] none none i x hi with h | ⟨k, y, hk, hy, hp⟩
  · left
    simp [JointNode.parentName, h]
  · right
    exact ⟨k, y, hk, hy, by simp [JointNode.parentName, JointNode.name, hp]⟩

/-- C3 (counterexample): one subject whose joint `Hip` has a child joint also named `Hip`.
`readFBXs` accepts it and builds `parent = (1, 1)`: joint 1 is its own parent, and from
joint 0 the sentinel is not reached in `nB = 2` steps (nor ever). -/
theorem readFBXs_parent_cycle_on_repeated_name :
    (readFBXs (oneFile exSceneSameName) ["s0.fbx"] (emptyModel 1 1 1 [0, 1] [0])).ret
      = Status.ok ∧
    (readFBXs (oneFile exSceneSameName) ["s0.fbx"] (emptyModel 1 1 1 [0, 1] [0])).model.nB
      = 2 ∧
    (readFBXs (oneFile exSceneSameName) ["s0.fbx"]
      (emptyModel 1 1 1 [0, 1] [0])).model.parent.coeff 0 = some 1 ∧
    (readFBXs (oneFile exSceneSameName) ["s0.fbx"]
      (emptyModel 1 1 1 [0, 1] [0])).model.parent.coeff 1 = some 1 ∧
    reachesRoot (readFBXs (oneFile exSceneSameName) ["s0.fbx"]
      (emptyModel 1 1 1 [0, 1] [0])).model.parent.coeff 2 0 = false := by
  decide!

theorem reachesRoot_sentinel (parent : Nat → Option Int) (n : Nat) :
    reachesRoot parent n (-1) = true := by
  cases n <;> simp [reachesRoot]

theorem reachesRoot_step (parent : Nat → Option Int) (n j : Nat) (p : Int)
    (h : parent j = some p) (hp : reachesRoot parent n p = true) :
    reachesRoot parent (n + 1) (j : Int) = true := by
  have h1 : ¬ ((j : Int) = -1) := by omega
  have h2 : (0 : Int) ≤ (j : Int) := by omega
  simp only [reachesRoot, h1, if_false, h2, if_true, Int.toNat_ofNat, h]
  exact hp

theorem load_ok_joint_count (imp : FbxSceneImporter) (scene : FbxScene) (fTime : List ℚ)
    (imp1 : FbxSceneImporter) (h : load imp scene fTime = Except.ok imp1) :
    (canonicalNames scene).length = (sceneJoints scene).length := by
  obtain ⟨mesh, sk, _, hs, hcount, _⟩ := load_ok _ _ _ _ h
  rcases loadSkin_ok _ _ _ _ hs with ⟨h0, hk⟩ | ⟨c, rest, wT, h0, _, _, hk⟩
  · simp [canonicalNames, h0]
  · subst hk
    rcases hcount with h1 | h1
    · simp at h1
    · simp only [canonicalNames, h0, List.length_map]
      exact h1.symm

theorem stateBefore_joint_count (fsys : String → Option FbxScene) (fileNames : List String)
    (model : DemBonesExt) (s : Nat) (st : ReadState) (scene0 : FbxScene) (hs : 1 ≤ s)
    (hst : stateBefore fsys fileNames model s = some st)
    (hscene : subjectScene fsys fileNames 0 = some scene0) :
    (canonicalNames scene0).length = (sceneJoints scene0).length := by
  unfold stateBefore at hst
  cases hl : readLoop fsys fileNames s 0 (initialState model) with
  | stop r m => simp [hl] at hst
  | next st2 =>
    have hinv := readLoop_invariant fsys fileNames
      (fun i _ => 1 ≤ i → (canonicalNames scene0).length = (sceneJoints scene0).length)
      s 0 (initialState model) st2 (fun hi => absurd hi (by omega))
      (by
        intro i sti sti1 _ _ hP hstep _
        by_cases hi : i = 0
        · subst hi
          obtain ⟨scene, a, b, imp, hsc, _, hload, _⟩ :=
            readSubject_next fsys fileNames 0 sti sti1 hstep
          rw [hscene] at hsc
          have := Option.some.inj hsc
          subst this
          exact load_ok_joint_count _ _ _ _ hload
        · exact hP (by omega))
      hl
    exact hinv (by omega)

/-- The parent array is a forest when the joints of subject 0 have distinct names and no
bone name is empty. -/
theorem parent_forest_of_names (jn : List JointNode) (boneName : List String)
    (parent : Nat → Option Int)
    (hearlier : ∀ (i : Nat) (x : JointNode), jn[i]? = some x →
      x.parentName = "" ∨
      ∃ (k : Nat) (y : JointNode), k < i ∧ jn[k]? = some y ∧ x.parentName = y.name)
    (hnodup : (jn.map JointNode.name).Nodup) (hne : "" ∉ boneName)
    (hpar : ∀ (j : Nat) (nj : String), boneName[j]? = some nj →
      parent j = some (findParent boneName 0
        (((tableOf JointNode.parentName jn []).find nj).getD "") (-1)))
    (r : Nat) :
    ∀ (j : Nat) (nj : String), boneName[j]? = some nj →
      (∀ (i : Nat) (y : JointNode), jn[i]? = some y → y.name = nj → i ≤ r) →
      reachesRoot parent (r + 1) (j : Int) = true := by
  have hidx : ∀ (i k : Nat) (x y : JointNode), jn[i]? = some x → jn[k]? = some y →
      x.name = y.name → i = k := by
    intro i k x y hx hy hn
    have hlt : i < (jn.map JointNode.name).length := by
      rw [List.length_map]
      exact (List.getElem?_eq_some.mp hx).1
    apply List.getElem?_inj hlt hnodup
    rw [List.getElem?_map, List.getElem?_map, hx, hy]
    simp [hn]
  induction r with
  | zero =>
    intro j nj hj hrank
    apply reachesRoot_step parent 0 j _ (hpar j nj hj)
    by_cases hmem : ∃ y ∈ jn, y.name = nj
    · obtain ⟨y, hy, hyn, hf⟩ := tableOf_find_of_name JointNode.parentName jn [] nj hmem
      obtain ⟨i, hi, hget⟩ := List.getElem_of_mem hy
      have hgi : jn[i]? = some y := by rw [← hget]; exact List.getElem?_eq_getElem hi
      have hi0 : i ≤ 0 := hrank i y hgi hyn
      rcases hearlier i y hgi with h0 | ⟨k, _, hk, _⟩
      · rw [hf, Option.getD_some, h0, findParent_none _ _ _ _ hne]
        rfl
      · omega
    · rw [tableOf_find_none _ _ _ _ (fun y hy hn => hmem ⟨y, hy, hn⟩)]
      simp only [StrMap.find, Option.getD_none]
      rw [findParent_none _ _ _ _ hne]
      rfl
  | succ r ih =>
    intro j nj hj hrank
    apply reachesRoot_step parent (r + 1) j _ (hpar j nj hj)
    by_cases hmem : ∃ y ∈ jn, y.name = nj
    · obtain ⟨y, hy, hyn, hf⟩ := tableOf_find_of_name JointNode.parentName jn [] nj hmem
      obtain ⟨i, hi, hget⟩ := List.getElem_of_mem hy
      have hgi : jn[i]? = some y := by rw [← hget]; exact List.getElem?_eq_getElem hi
      have hir : i ≤ r + 1 := hrank i y hgi hyn
      rw [hf, Option.getD_some]
      rcases hearlier i y hgi with h0 | ⟨k, z, hk, hz, hpz⟩
      · rw [h0, findParent_none _ _ _ _ hne]
        exact reachesRoot_sentinel parent _
      · rcases findParent_cases boneName 0 y.parentName (-1) with h1 | ⟨i2, hi2, hn2, h1⟩
        · rw [h1]
          exact reachesRoot_sentinel parent _
        · rw [h1, Nat.zero_add]
          apply ih i2 y.parentName hn2
          intro i3 y3 hg3 hn3
          have : i3 = k := hidx i3 k y3 z hg3 hz (by rw [hn3, hpz])
          omega
    · rw [tableOf_find_none _ _ _ _ (fun y hy hn => hmem ⟨y, hy, hn⟩)]
      simp only [StrMap.find, Option.getD_none]
      rw [findParent_none _ _ _ _ hne]
      exact reachesRoot_sentinel parent _

/-- C3 (amended): for every subject 0 accepted by `readFBXs` whose joints (the skeleton
nodes found by the traversal) have pairwise distinct names and whose bone names are all
non-empty, `model.parent` is a forest: following `parent` from any joint index reaches the
sentinel `-1` in at most `nB` steps. -/
theorem readFBXs_parent_forest (fsys : String → Option FbxScene) (fileNames : List String)
    (model : DemBonesExt) (st : ReadState) (scene0 : FbxScene)
    (hst : stateBefore fsys fileNames model 1 = some st)
    (hscene : subjectScene fsys fileNames 0 = some scene0)
    (hnodup : ((sceneJoints scene0).map JointNode.name).Nodup)
    (hne : "" ∉ st.model.boneName) :
    ∀ j, j < st.model.nB →
      reachesRoot st.model.parent.coeff st.model.nB (j : Int) = true := by
  have hcount := stateBefore_joint_count _ _ _ _ _ _ (Nat.le_refl 1) hst hscene
  obtain ⟨_, ⟨s1, _⟩, _, sc0, mesh0, e1, _, _, _, e5, e6⟩ :=
    stateBefore_reached _ _ _ _ _ (Nat.le_refl 1) hst
  have hsc : sc0 = scene0 := by
    rw [e1] at hscene
    exact Option.some.inj hscene
  subst hsc
  intro j hj
  have hpos : st.model.nB = (st.model.nB - 1) + 1 := by omega
  rw [hpos]
  have hjb : j < st.model.boneName.length := by rw [← s1]; exact hj
  apply parent_forest_of_names (sceneJoints sc0) st.model.boneName st.model.parent.coeff
    (sceneJoints_parent_names sc0) hnodup hne e6 (st.model.nB - 1) j
    (st.model.boneName[j]) (List.getElem?_eq_getElem hjb)
  intro i y hy _
  have hlt := (List.getElem?_eq_some.mp hy).1
  rw [s1, e5, hcount]
  omega

/-- C3 (amended), at a subject with joint `a` and its child joint `b`. -/
theorem readFBXs_parent_forest_witness :
    reachesRoot ((stateBefore (oneFile exSceneChain) ["s0.fbx"]
        (emptyModel 1 2 1 [0, 1] [0]) 1).get (by decide!)).model.parent.coeff
      ((stateBefore (oneFile exSceneChain) ["s0.fbx"]
        (emptyModel 1 2 1 [0, 1] [0]) 1).get (by decide!)).model.nB ((1 : Nat) : Int)
      = true :=
  readFBXs_parent_forest (oneFile exSceneChain) ["s0.fbx"] (emptyModel 1 2 1 [0, 1] [0])
    ((stateBefore (oneFile exSceneChain) ["s0.fbx"]
      (emptyModel 1 2 1 [0, 1] [0]) 1).get (by decide!))
    exSceneChain (Option.some_get _).symm rfl (by decide!) (by decide!) 1 (by decide!)

/-! ## The bind-pose comparison -/

theorem bindPosesAgree_iff (clusters : List FbxCluster) :
    bindPosesAgree clusters = true ↔
    ∀ (i : Nat) (c1 c2 : FbxCluster), clusters[i]? = some c1 → clusters[i + 1]? = some c2 →
      squaredNorm (c1.transformMatrix - c2.transformMatrix) ≤ bindTolerance := by
  induction clusters with
  | nil => simp [bindPosesAgree]
  | cons a rest ih =>
    cases rest with
    | nil => simp [bindPosesAgree]
    | cons b rest2 =>
      simp only [bindPosesAgree]
      by_cases hgt : squaredNorm (a.transformMatrix - b.transformMatrix) > bindTolerance
      · rw [if_pos hgt]
        simp only [Bool.false_eq_true, false_iff, not_forall]
        exact ⟨0, a, b, by simp, by simp, by simpa using hgt⟩
      · rw [if_neg hgt, ih]
        constructor
        · intro h i c1 c2 h1 h2
          cases i with
          | zero =>
            simp only [List.getElem?_cons_zero, Option.some.injEq] at h1
            simp only [Nat.zero_add, List.getElem?_cons_succ, List.getElem?_cons_zero,
              Option.some.injEq] at h2
            subst h1
            subst h2
            exact not_lt.mp hgt
          | succ i =>
            rw [List.getElem?_cons_succ] at h1 h2
            exact h i c1 c2 h1 h2
        · intro h i c1 c2 h1 h2
          exact h (i + 1) c1 c2 (by simpa using h1) (by simpa using h2)

/-- C16 (amended): for every scene with a mesh and a skin, if two neighbouring clusters
(clusters `i` and `i+1`) have transform matrices whose difference has squared norm above
`1e-10`, `load` does not return success, and it returns failure with `Multiple bind poses.`
when every weight index lies in `0..V-1`; so whenever `load` succeeds, every two
neighbouring clusters agree within squared distance `1e-10`. Clusters that are not
neighbours are not compared. -/
theorem load_neighbouring_bind_poses (imp : FbxSceneImporter) (scene : FbxScene)
    (fTime : List ℚ) (mesh : FbxMesh) (clusters : List FbxCluster)
    (hmesh : scene.mesh = some mesh) (hskin : scene.skin = some clusters) :
    ((∃ (i : Nat) (c1 c2 : FbxCluster), clusters[i]? = some c1 ∧ clusters[i + 1]? = some c2 ∧
        squaredNorm (c1.transformMatrix - c2.transformMatrix) > bindTolerance) →
      statusOf (load imp scene fTime) ≠ Status.ok ∧
      ((∀ c ∈ clusters, ∀ e ∈ c.influences,
          0 ≤ e.1 ∧ e.1 < (mesh.controlPoints.length : Int)) →
        load imp scene fTime = Except.error (Status.err "Multiple bind poses.\n"))) ∧
    (statusOf (load imp scene fTime) = Status.ok →
      ∀ (i : Nat) (c1 c2 : FbxCluster), clusters[i]? = some c1 → clusters[i + 1]? = some c2 →
        squaredNorm (c1.transformMatrix - c2.transformMatrix) ≤ bindTolerance) := by
  have hfail : bindPosesAgree clusters = false → statusOf (load imp scene fTime) ≠ Status.ok ∧
      ((∀ c ∈ clusters, ∀ e ∈ c.influences,
          0 ≤ e.1 ∧ e.1 < (mesh.controlPoints.length : Int)) →
        load imp scene fTime = Except.error (Status.err "Multiple bind poses.\n")) := by
    intro hb
    constructor
    · unfold load
      simp only [hmesh, hskin, loadSkin]
      cases hw : loadWeights mesh.controlPoints.length clusters [] with
      | error e =>
        simp only [statusOf]
        exact loadWeights_error_ne_ok _ _ _ _ hw
      | ok wT => simp [hb, statusOf]
    · intro hidx
      obtain ⟨wT, hw⟩ := loadWeights_in_range mesh.controlPoints.length clusters [] hidx
      unfold load
      simp [hmesh, hskin, loadSkin, hw, hb]
  constructor
  · rintro ⟨i, c1, c2, h1, h2, hgt⟩
    apply hfail
    by_contra hne
    have hb : bindPosesAgree clusters = true := by simpa using hne
    exact absurd ((bindPosesAgree_iff clusters).mp hb i c1 c2 h1 h2) (not_le.mpr hgt)
  · intro hok
    apply (bindPosesAgree_iff clusters).mp
    by_contra hne
    have hb : bindPosesAgree clusters = false := by simpa using hne
    exact (hfail hb).1 hok

/-- C16 (amended), at the scene whose two clusters store the identity and the zero
matrix. -/
theorem load_neighbouring_bind_poses_witness :
    statusOf (load FbxSceneImporter.fresh exSceneTwoClusters []) ≠ Status.ok ∧
    load FbxSceneImporter.fresh exSceneTwoClusters []
      = Except.error (Status.err "Multiple bind poses.\n") :=
  have h := (load_neighbouring_bind_poses FbxSceneImporter.fresh exSceneTwoClusters []
    exMesh1 [⟨"J", [(0, 1)], 1⟩, ⟨"K", [], 0⟩] rfl rfl).1
    ⟨0, ⟨"J", [(0, 1)], 1⟩, ⟨"K", [], 0⟩, rfl, rfl, by decide!⟩
  ⟨h.1, h.2 (by decide!)⟩

/-! ## What the tables hold under a name -/

theorem lastNamed_mem (jn : List JointNode) (k : String) (y : JointNode)
    (h : lastNamed jn k = some y) : y ∈ jn ∧ y.name = k := by
  induction jn with
  | nil => simp [lastNamed] at h
  | cons x rest ih =>
    simp only [lastNamed] at h
    cases hr : lastNamed rest k with
    | some z =>
      rw [hr] at h
      simp only [Option.some.injEq] at h
      subst h
      exact ⟨List.mem_cons_of_mem _ (ih hr).1, (ih hr).2⟩
    | none =>
      rw [hr] at h
      simp only at h
      split_ifs at h with hx
      simp only [Option.some.injEq] at h
      subst h
      exact ⟨List.mem_cons_self _ _, hx⟩

theorem lastNamed_none (jn : List JointNode) (k : String)
    (h : ∀ y ∈ jn, y.name ≠ k) : lastNamed jn k = none := by
  induction jn with
  | nil => rfl
  | cons x rest ih =>
    simp only [lastNamed, ih (fun y hy => h y (List.mem_cons_of_mem _ hy))]
    rw [if_neg (h x (List.mem_cons_self _ _))]

theorem lastNamed_isSome (jn : List JointNode) (x : JointNode) (hx : x ∈ jn) :
    ∃ y, lastNamed jn x.name = some y := by
  cases h : lastNamed jn x.name with
  | some y => exact ⟨y, rfl⟩
  | none =>
    exfalso
    induction jn with
    | nil => simp at hx
    | cons z rest ih =>
      simp only [lastNamed] at h
      cases hr : lastNamed rest x.name with
      | some w => simp [hr] at h
      | none =>
        simp only [hr] at h
        rcases List.mem_cons.mp hx with h0 | h0
        · subst h0
          simp at h
        · exact ih h0 hr

theorem lastNamed_of_nodup (jn : List JointNode) (x : JointNode) (hx : x ∈ jn)
    (hn : (jn.map JointNode.name).Nodup) : lastNamed jn x.name = some x := by
  induction jn with
  | nil => simp at hx
  | cons z rest ih =>
    simp only [List.map_cons, List.nodup_cons, List.mem_map, not_exists, not_and] at hn
    simp only [lastNamed]
    rcases List.mem_cons.mp hx with h0 | h0
    · subst h0
      rw [lastNamed_none rest x.name (fun y hy hyn => hn.1 y hy hyn)]
      simp
    · rw [ih h0 hn.2]

theorem tableOf_find_eq {α : Type} (f : JointNode → α) (jn : List JointNode)
    (t : StrMap α) (k : String) :
    (tableOf f jn t).find k =
      match lastNamed jn k with
      | some y => some (f y)
      | none => t.find k := by
  induction jn generalizing t with
  | nil => rfl
  | cons x rest ih =>
    simp only [tableOf, lastNamed]
    rw [ih]
    cases hr : lastNamed rest k with
    | some y => rfl
    | none =>
      simp only
      by_cases hx : x.name = k
      · rw [if_pos hx, ← hx]
        exact StrMap.find_set_same _ _ _
      · rw [if_neg hx]
        exact StrMap.find_set_other _ _ _ _ hx

theorem seriesTable_find_eq (fTime : List ℚ) (bind : StrMap Matrix4d)
    (jn : List JointNode) (t : StrMap (List Matrix4d)) (k : String) :
    (seriesTable fTime bind jn t).find k =
      match lastNamed jn k with
      | some y => some (sampleJoint y.pNode.node ((bind.find y.name).getD 1) fTime)
      | none => t.find k := by
  induction jn generalizing t with
  | nil => rfl
  | cons x rest ih =>
    simp only [seriesTable, lastNamed]
    rw [ih]
    cases hr : lastNamed rest k with
    | some y => rfl
    | none =>
      simp only
      by_cases hx : x.name = k
      · rw [if_pos hx, ← hx]
        exact StrMap.find_set_same _ _ _
      · rw [if_neg hx]
        exact StrMap.find_set_other _ _ _ _ hx

/-- C12 (amended): for every subject, with or without a skin binding, the bind transform
`load` records under a joint's name is the global transform of a joint node of that name,
evaluated at load time (the joint's own when no other joint has its name). The transform
matrix stored in the skin is not recorded as bind transform; the matrix of cluster 0 only
transforms the vertices. -/
theorem load_bind_is_node_global (imp : FbxSceneImporter) (scene : FbxScene)
    (fTime : List ℚ) (imp1 : FbxSceneImporter) (h : load imp scene fTime = Except.ok imp1) :
    (∀ x ∈ sceneJoints scene, ∃ y ∈ sceneJoints scene, y.name = x.name ∧
      imp1.bind.find x.name = some (y.pNode.node.globalTransform none)) ∧
    (((sceneJoints scene).map JointNode.name).Nodup →
      ∀ x ∈ sceneJoints scene,
        imp1.bind.find x.name = some (x.pNode.node.globalTransform none)) ∧
    (∀ clusters, scene.skin = some clusters →
      ∃ c0 mesh, clusters.head? = some c0 ∧ scene.mesh = some mesh ∧
        imp1.v = mesh.controlPoints.map (transformPoint c0.transformMatrix)) := by
  obtain ⟨mesh, sk, hmesh, hs, _, hv, _, _, _, _, hb, _⟩ := load_ok _ _ _ _ h
  refine ⟨?_, ?_, ?_⟩
  · intro x hx
    obtain ⟨y, hy⟩ := lastNamed_isSome _ x hx
    obtain ⟨hm, hn⟩ := lastNamed_mem _ _ _ hy
    refine ⟨y, hm, hn, ?_⟩
    rw [hb, tableOf_find_eq, hy]
    rfl
  · intro hnd x hx
    rw [hb, tableOf_find_eq, lastNamed_of_nodup _ x hx hnd]
    rfl
  · intro clusters hsk
    rcases loadSkin_ok _ _ _ _ hs with ⟨h0, _⟩ | ⟨c, rest, wT, h0, _, _, hk⟩
    · rw [h0] at hsk
      simp at hsk
    · rw [h0] at hsk
      simp only [Option.some.injEq] at hsk
      subst hsk
      subst hk
      exact ⟨c, mesh, rfl, hmesh, hv⟩

theorem Except.eq_ok_of_isSome {ε α : Type} (r : Except ε α) (h : r.toOption.isSome) :
    r = Except.ok (r.toOption.get h) := by
  cases r with
  | error e => simp [Except.toOption] at h
  | ok a => rfl

/-- C12 (amended), at the scene whose skin stores the scaling by 2 for a joint whose node
transform is the identity. -/
theorem load_bind_is_node_global_witness :
    ((load FbxSceneImporter.fresh exSceneSkinBind []).toOption.get (by decide!)).bind.find "J"
      = some 1 :=
  (load_bind_is_node_global FbxSceneImporter.fresh exSceneSkinBind []
    ((load FbxSceneImporter.fresh exSceneSkinBind []).toOption.get (by decide!))
    (Except.eq_ok_of_isSome _ _)).2.1 (by decide!)
    ⟨FbxNodePtr.mk [0] (exJoint "J" [])
      (some (FbxNodePtr.mk [] (exGroup "root" [exJoint "J" []]) none)), none⟩
    (List.mem_singleton.mpr rfl)

/-! ## The relative transforms -/

theorem inverse4_mul_self (B : Matrix4d) (hB : B.det ≠ 0) : inverse4 B * B = 1 := by
  unfold inverse4
  rw [Matrix.smul_mul, Matrix.adjugate_mul, smul_smul, inv_mul_cancel₀ hB, one_smul]

theorem mul_inverse4_self (B : Matrix4d) (hB : B.det ≠ 0) : B * inverse4 B = 1 := by
  unfold inverse4
  rw [Matrix.mul_smul, Matrix.mul_adjugate, smul_smul, inv_mul_cancel₀ hB, one_smul]

theorem sampleJoint_getElem (node : FbxNode) (B : Matrix4d) (fTime : List ℚ) (i : Nat)
    (t : ℚ) (h : fTime[i]? = some t) :
    (sampleJoint node B fTime)[i]? = some (node.globalTransform (some t) * inverse4 B) := by
  simp [sampleJoint, List.getElem?_map, h]

/-- C13 (counterexample): in `exSceneTwoHips` the first joint named `Hip` has the identity as
global transform at every time, so its bind transform is invertible and its relative
transform at time 0 is the identity. `load` succeeds, sampled at time 0, and `readFBXs`
accepts the scene; the only series stored is the one under `Hip`, whose matrix at time 0 is
the scaling by 1/2 of the second joint: the first joint's relative transform is stored
nowhere. -/
theorem load_series_of_repeated_name :
    (sceneJoints exSceneTwoHips).map JointNode.name = ["Hip", "Hip"] ∧
    (sceneJoints exSceneTwoHips).head?.map
      (fun x => (x.pNode.node.globalTransform none, x.pNode.node.globalTransform (some 0),
        (x.pNode.node.globalTransform none).det)) = some (1, 1, 1) ∧
    (load FbxSceneImporter.fresh exSceneTwoHips [0]).toOption.map
      (fun imp => imp.m.map (fun e => (e.1, e.2.map (fun R => R 0 0))))
        = some [("Hip", [1 / 2])] ∧
    (readFBXs (oneFile exSceneTwoHips) ["s0.fbx"] (emptyModel 1 1 1 [0, 1] [0])).ret
      = Status.ok := by
  decide!

/-- C13 (amended): in a subject whose joint names are pairwise distinct, for every joint
the bind transform `load` stores under its name is its own global transform `B` at load
time, and the series stored under its name holds at every sample time `t` the matrix
`R = G(t) * inverse(B)`, `G(t)` being the joint's global transform at `t`; when `B` is
invertible `R * B = G(t)`, and `R` is the identity at a time where `G(t) = B`. Whatever the
names, every joint has a series under its name, and the series stored under a name is that
of one joint of the name, computed with the bind transform stored under the name. -/
theorem load_relative_transform (imp : FbxSceneImporter) (scene : FbxScene)
    (fTime : List ℚ) (imp1 : FbxSceneImporter) (h : load imp scene fTime = Except.ok imp1) :
    (((sceneJoints scene).map JointNode.name).Nodup →
      ∀ x ∈ sceneJoints scene, ∃ frames : List Matrix4d,
        imp1.m.find x.name = some frames ∧
        imp1.bind.find x.name = some (x.pNode.node.globalTransform none) ∧
        frames.length = fTime.length ∧
        ∀ (i : Nat) (t : ℚ), fTime[i]? = some t →
          ∃ R : Matrix4d, frames[i]? = some R ∧
            R = x.pNode.node.globalTransform (some t)
              * inverse4 (x.pNode.node.globalTransform none) ∧
            ((x.pNode.node.globalTransform none).det ≠ 0 →
              R * x.pNode.node.globalTransform none
                = x.pNode.node.globalTransform (some t)) ∧
            ((x.pNode.node.globalTransform none).det ≠ 0 →
              x.pNode.node.globalTransform (some t) = x.pNode.node.globalTransform none →
              R = 1)) ∧
    (∀ x ∈ sceneJoints scene, (imp1.m.find x.name).isSome) ∧
    ∀ (k : String) (frames : List Matrix4d), imp1.m.find k = some frames →
      ∃ x ∈ sceneJoints scene, ∃ B : Matrix4d, x.name = k ∧ imp1.bind.find k = some B ∧
        frames.length = fTime.length ∧
        ∀ (i : Nat) (t : ℚ), fTime[i]? = some t →
          ∃ R : Matrix4d, frames[i]? = some R ∧
            R = x.pNode.node.globalTransform (some t) * inverse4 B ∧
            (B.det ≠ 0 → R * B = x.pNode.node.globalTransform (some t)) ∧
            (B.det ≠ 0 → x.pNode.node.globalTransform (some t) = B → R = 1) := by
  obtain ⟨mesh, sk, _, _, _, _, _, _, _, _, hb, _, _, _, hm⟩ := load_ok _ _ _ _ h
  refine ⟨?_, ?_, ?_⟩
  · intro hnd x hx
    have hl := lastNamed_of_nodup _ x hx hnd
    have hbind : imp1.bind.find x.name = some (bindOf x) := by
      rw [hb, tableOf_find_eq, hl]
    have hB : (tableOf bindOf (sceneJoints scene) []).find x.name = some (bindOf x) := by
      rw [← hb]
      exact hbind
    refine ⟨sampleJoint x.pNode.node (bindOf x) fTime, ?_, hbind, ?_, ?_⟩
    · rw [hm, seriesTable_find_eq, hl]
      simp only [hB, Option.getD_some]
    · simp [sampleJoint]
    · intro i t ht
      refine ⟨x.pNode.node.globalTransform (some t) * inverse4 (bindOf x), ?_, rfl, ?_, ?_⟩
      · exact sampleJoint_getElem _ _ _ _ _ ht
      · intro hdet
        have hdet1 : (bindOf x).det ≠ 0 := hdet
        rw [Matrix.mul_assoc]
        show _ * (inverse4 (bindOf x) * bindOf x) = _
        rw [inverse4_mul_self _ hdet1, Matrix.mul_one]
      · intro hdet hG
        rw [hG]
        exact mul_inverse4_self _ hdet
  · intro x hx
    obtain ⟨y, hy⟩ := lastNamed_isSome _ x hx
    rw [hm, seriesTable_find_eq, hy]
    rfl
  · intro k frames hf
    rw [hm, seriesTable_find_eq] at hf
    cases hl : lastNamed (sceneJoints scene) k with
    | none =>
      rw [hl] at hf
      simp [StrMap.find] at hf
    | some x =>
      rw [hl] at hf
      simp only [Option.some.injEq] at hf
      obtain ⟨hmem, hname⟩ := lastNamed_mem _ _ _ hl
      have hbind : imp1.bind.find k = some (bindOf x) := by
        rw [hb, tableOf_find_eq, hl]
      refine ⟨x, hmem, bindOf x, hname, hbind, ?_, ?_⟩
      · rw [← hf]
        simp [sampleJoint]
      · intro i t ht
        have hB : (tableOf bindOf (sceneJoints scene) []).find x.name = some (bindOf x) := by
          rw [hname, ← hb]
          exact hbind
        refine ⟨x.pNode.node.globalTransform (some t) * inverse4 (bindOf x), ?_, rfl, ?_, ?_⟩
        · rw [← hf, hB]
          exact sampleJoint_getElem _ _ _ _ _ ht
        · intro hdet
          rw [Matrix.mul_assoc, inverse4_mul_self _ hdet, Matrix.mul_one]
        · intro hdet hG
          rw [hG]
          exact mul_inverse4_self _ hdet

/-- C13 (amended), at the joint of the animated scene sampled at the times 0 and 1. -/
theorem load_relative_transform_witness :
    ∃ frames : List Matrix4d,
      ((load FbxSceneImporter.fresh exSceneAnimated [0, 1]).toOption.get
        (by decide!)).m.find
          ((sceneJoints exSceneAnimated).get ⟨0, by decide!⟩).name = some frames ∧
      ((load FbxSceneImporter.fresh exSceneAnimated [0, 1]).toOption.get
        (by decide!)).bind.find
          ((sceneJoints exSceneAnimated).get ⟨0, by decide!⟩).name
        = some (((sceneJoints exSceneAnimated).get ⟨0, by decide!⟩).pNode.node.globalTransform
            none) ∧
      frames.length = [(0 : ℚ), 1].length ∧
      ∀ (i : Nat) (t : ℚ), [(0 : ℚ), 1][i]? = some t →
        ∃ R : Matrix4d, frames[i]? = some R ∧
          R = ((sceneJoints exSceneAnimated).get ⟨0, by decide!⟩).pNode.node.globalTransform
                (some t)
            * inverse4 (((sceneJoints exSceneAnimated).get
                ⟨0, by decide!⟩).pNode.node.globalTransform none) ∧
          ((((sceneJoints exSceneAnimated).get ⟨0, by decide!⟩).pNode.node.globalTransform
              none).det ≠ 0 →
            R * ((sceneJoints exSceneAnimated).get ⟨0, by decide!⟩).pNode.node.globalTransform
                none
              = ((sceneJoints exSceneAnimated).get
                  ⟨0, by decide!⟩).pNode.node.globalTransform (some t)) ∧
          ((((sceneJoints exSceneAnimated).get ⟨0, by decide!⟩).pNode.node.globalTransform
              none).det ≠ 0 →
            ((sceneJoints exSceneAnimated).get ⟨0, by decide!⟩).pNode.node.globalTransform
                (some t)
              = ((sceneJoints exSceneAnimated).get
                  ⟨0, by decide!⟩).pNode.node.globalTransform none →
            R = 1) :=
  (load_relative_transform FbxSceneImporter.fresh exSceneAnimated [0, 1]
    ((load FbxSceneImporter.fresh exSceneAnimated [0, 1]).toOption.get (by decide!))
    (Except.eq_ok_of_isSome _ _)).1 (by decide!)
    ((sceneJoints exSceneAnimated).get ⟨0, by decide!⟩) (List.get_mem _ _ _)


/-! ## The ancestor correction -/

mutual
theorem travel_parent_defined : ∀ (node : FbxNode) (path : List Nat)
    (up pj : Option FbxNodePtr), ∀ x ∈ travel node path up pj [],
      x.pNode.parent.isSome ∨ (up = none ∧ x.pParentJoint = pj)
  | FbxNode.mk n a r rc tc g cs, path, up, pj => by
    intro x hx
    simp only [travel] at hx
    split_ifs at hx
    · rw [travelChildren_acc] at hx
      rcases List.mem_append.mp hx with h0 | h0
      · simp only [List.nil_append, List.mem_singleton] at h0
        subst h0
        cases up with
        | none => exact Or.inr ⟨rfl, rfl⟩
        | some u => exact Or.inl rfl
      · exact Or.inl (travelChildren_parent_defined cs _ 0 _ x h0)
    · exact Or.inl (travelChildren_parent_defined cs _ 0 pj x hx)
theorem travelChildren_parent_defined : ∀ (cs : List FbxNode) (self : FbxNodePtr) (j : Nat)
    (pj : Option FbxNodePtr), ∀ x ∈ travelChildren cs self j pj [], x.pNode.parent.isSome
  | [], self, j, pj => by
    intro x hx
    simp [travelChildren] at hx
  | c :: rest, self, j, pj => by
    intro x hx
    simp only [travelChildren] at hx
    rw [travelChildren_acc] at hx
    rcases List.mem_append.mp hx with h0 | h0
    · rcases travel_parent_defined c _ (some self) pj x h0 with h1 | ⟨h1, _⟩
      · exact h1
      · simp at h1
    · exact travelChildren_parent_defined rest self (j + 1) pj x h0
end

theorem sceneJoints_preMulInv_cases (scene : FbxScene) :
    ∀ x ∈ sceneJoints scene,
      (samePtr x.pNode.parent x.pParentJoint = true → preMulInvOf x = Except.ok 1) ∧
      (samePtr x.pNode.parent x.pParentJoint = false →
        ∃ p, x.pNode.parent = some p ∧
          (x.pParentJoint = none →
            preMulInvOf x = Except.ok (inverse4 (p.node.globalTransform none))) ∧
          (∀ q, x.pParentJoint = some q →
            preMulInvOf x = Except.ok
              (inverse4 (p.node.globalTransform none) * q.node.globalTransform none))) := by
  intro x hx
  constructor
  · intro hs
    simp [preMulInvOf, hs]
  · intro hs
    cases hp : x.pNode.parent with
    | none =>
      exfalso
      rcases travel_parent_defined scene.root [] none none x hx with h1 | ⟨_, h1⟩
      · rw [hp] at h1
        simp at h1
      · rw [hp, h1] at hs
        simp [samePtr] at hs
    | some p =>
      refine ⟨p, rfl, ?_, ?_⟩
      · intro hq
        rw [hp, hq] at hs
        simp [preMulInvOf, hs, hp, hq]
      · intro q hq
        rw [hp, hq] at hs
        simp [preMulInvOf, hs, hp, hq]

theorem sceneJoints_preMulInv_ok (scene : FbxScene) (x : JointNode)
    (hx : x ∈ sceneJoints scene) : preMulInvOf x = Except.ok (preMulInvValue x) := by
  obtain ⟨h1, h2⟩ := sceneJoints_preMulInv_cases scene x hx
  unfold preMulInvValue
  cases hs : samePtr x.pNode.parent x.pParentJoint with
  | true => rw [h1 hs]
  | false =>
    obtain ⟨p, _, h3, h4⟩ := h2 hs
    cases hq : x.pParentJoint with
    | none => rw [h3 hq]
    | some q => rw [h4 q hq]

/-- C15: for every joint found by the traversal, with `G_p` the global transform of its
immediate parent node and `G_jp` that of its resolved joint parent: the ancestor-correction
matrix is the identity when the immediate parent is the resolved joint parent; otherwise it
is `inverse(G_p) * G_jp`, and `inverse(G_p)` when the joint has no resolved joint parent.
After a successful `load` every joint has an entry under its name in `preMulInv`, and each
entry is the matrix of a joint of that name. -/
theorem sceneJoints_ancestor_correction (scene : FbxScene) :
    (∀ x ∈ sceneJoints scene,
      (samePtr x.pNode.parent x.pParentJoint = true → preMulInvOf x = Except.ok 1) ∧
      (samePtr x.pNode.parent x.pParentJoint = false →
        ∃ p, x.pNode.parent = some p ∧
          (x.pParentJoint = none →
            preMulInvOf x = Except.ok (inverse4 (p.node.globalTransform none))) ∧
          (∀ q, x.pParentJoint = some q →
            preMulInvOf x = Except.ok
              (inverse4 (p.node.globalTransform none) * q.node.globalTransform none)))) ∧
    (∀ (imp : FbxSceneImporter) (fTime : List ℚ) (imp1 : FbxSceneImporter),
      load imp scene fTime = Except.ok imp1 →
      (∀ x ∈ sceneJoints scene, (imp1.preMulInv.find x.name).isSome) ∧
      ∀ (k : String) (P : Matrix4d), imp1.preMulInv.find k = some P →
        ∃ x ∈ sceneJoints scene, x.name = k ∧ preMulInvOf x = Except.ok P) := by
  refine ⟨sceneJoints_preMulInv_cases scene, ?_⟩
  intro imp fTime imp1 h
  obtain ⟨mesh, sk, _, _, _, _, _, _, _, _, _, hq, _⟩ := load_ok _ _ _ _ h
  constructor
  · intro x hx
    obtain ⟨y, hy⟩ := lastNamed_isSome _ x hx
    rw [hq, tableOf_find_eq, hy]
    rfl
  · intro k P hf
    rw [hq, tableOf_find_eq] at hf
    cases hl : lastNamed (sceneJoints scene) k with
    | none =>
      rw [hl] at hf
      simp [StrMap.find] at hf
    | some x =>
      rw [hl] at hf
      simp only [Option.some.injEq] at hf
      obtain ⟨hmem, hname⟩ := lastNamed_mem _ _ _ hl
      refine ⟨x, hmem, hname, ?_⟩
      rw [← hf]
      exact sceneJoints_preMulInv_ok scene x hmem

/-! ## The traversal against the specification -/

theorem FbxNodePtr.nearestJoint_skeleton (path : List Nat) (node : FbxNode)
    (up : Option FbxNodePtr) (h : node.isSkeleton = true) :
    (FbxNodePtr.mk path node up).nearestJoint = some (FbxNodePtr.mk path node up) := by
  cases up <;> simp [FbxNodePtr.nearestJoint, h]

theorem FbxNodePtr.nearestJoint_other (path : List Nat) (node : FbxNode)
    (up : Option FbxNodePtr) (h : node.isSkeleton = false) :
    (FbxNodePtr.mk path node up).nearestJoint = jointAbove up := by
  cases up <;> simp [FbxNodePtr.nearestJoint, h, jointAbove]

mutual
theorem travel_eq_preorder : ∀ (node : FbxNode) (path : List Nat) (up : Option FbxNodePtr),
    travel node path up (jointAbove up) [] =
      ((preorder node path up).filter (fun p => p.node.isSkeleton)).map
        (fun p => ⟨p, nearestJointAncestor p⟩)
  | FbxNode.mk n a r rc tc g cs, path, up => by
    simp only [travel, preorder]
    by_cases hs : a.contains FbxAttrType.eSkeleton = true
    · have hsk : (FbxNode.mk n a r rc tc g cs).isSkeleton = true := hs
      rw [if_pos hs, travelChildren_acc]
      have := travelChildren_eq_preorder cs (FbxNodePtr.mk path (FbxNode.mk n a r rc tc g cs) up) 0
      rw [FbxNodePtr.nearestJoint_skeleton _ _ _ hsk] at this
      rw [this]
      simp [List.filter_cons, FbxNodePtr.node, hsk, nearestJointAncestor, FbxNodePtr.parent]
    · have hsk : (FbxNode.mk n a r rc tc g cs).isSkeleton = false := by
        simpa [FbxNode.isSkeleton, FbxNode.attributes] using hs
      rw [if_neg hs]
      have := travelChildren_eq_preorder cs (FbxNodePtr.mk path (FbxNode.mk n a r rc tc g cs) up) 0
      rw [FbxNodePtr.nearestJoint_other _ _ _ hsk] at this
      rw [this]
      simp [List.filter_cons, FbxNodePtr.node, hsk]
theorem travelChildren_eq_preorder : ∀ (cs : List FbxNode) (self : FbxNodePtr) (j : Nat),
    travelChildren cs self j self.nearestJoint [] =
      ((preorderChildren cs self j).filter (fun p => p.node.isSkeleton)).map
        (fun p => ⟨p, nearestJointAncestor p⟩)
  | [], self, j => by simp [travelChildren, preorderChildren]
  | c :: rest, self, j => by
    simp only [travelChildren, preorderChildren]
    rw [travelChildren_acc, travelChildren_eq_preorder rest self (j + 1)]
    have := travel_eq_preorder c (self.path ++ [j]) (some self)
    simp only [jointAbove] at this
    rw [this]
    simp
end

mutual
theorem preorder_path_prefix : ∀ (node : FbxNode) (path : List Nat) (up : Option FbxNodePtr)
    (p : FbxNodePtr), p ∈ preorder node path up → path <+: p.path
  | FbxNode.mk n a r rc tc g cs, path, up, p, h => by
    simp only [preorder, List.mem_cons] at h
    rcases h with h | h
    · subst h
      exact List.prefix_refl _
    · obtain ⟨i, _, hi⟩ := preorderChildren_path_prefix cs _ 0 p h
      exact (List.prefix_append _ _).trans hi
theorem preorderChildren_path_prefix : ∀ (cs : List FbxNode) (self : FbxNodePtr) (j : Nat)
    (p : FbxNodePtr), p ∈ preorderChildren cs self j →
      ∃ i, j ≤ i ∧ (self.path ++ [i]) <+: p.path
  | [], self, j, p, h => by simp [preorderChildren] at h
  | c :: rest, self, j, p, h => by
    simp only [preorderChildren, List.mem_append] at h
    rcases h with h | h
    · exact ⟨j, le_refl _, preorder_path_prefix c _ _ p h⟩
    · obtain ⟨i, hji, hi⟩ := preorderChildren_path_prefix rest self (j + 1) p h
      exact ⟨i, by omega, hi⟩
end

mutual
theorem preorder_paths_nodup : ∀ (node : FbxNode) (path : List Nat) (up : Option FbxNodePtr),
    ((preorder node path up).map FbxNodePtr.path).Nodup
  | FbxNode.mk n a r rc tc g cs, path, up => by
    simp only [preorder, List.map_cons, List.nodup_cons]
    refine ⟨?_, preorderChildren_paths_nodup cs _ 0⟩
    intro hmem
    obtain ⟨p, hp, hpp⟩ := List.mem_map.mp hmem
    obtain ⟨i, _, hi⟩ := preorderChildren_path_prefix cs _ 0 p hp
    have hlen := hi.length_le
    rw [hpp] at hlen
    simp [FbxNodePtr.path] at hlen
theorem preorderChildren_paths_nodup : ∀ (cs : List FbxNode) (self : FbxNodePtr) (j : Nat),
    ((preorderChildren cs self j).map FbxNodePtr.path).Nodup
  | [], self, j => by simp [preorderChildren]
  | c :: rest, self, j => by
    simp only [preorderChildren, List.map_append]
    refine List.Nodup.append (preorder_paths_nodup c _ _)
      (preorderChildren_paths_nodup rest self (j + 1)) ?_
    intro x hx1 hx2
    obtain ⟨p, hp, hpp⟩ := List.mem_map.mp hx1
    obtain ⟨q, hq, hqq⟩ := List.mem_map.mp hx2
    have h1 := preorder_path_prefix c _ _ p hp
    obtain ⟨i, hji, h2⟩ := preorderChildren_path_prefix rest self (j + 1) q hq
    rw [hpp] at h1
    rw [hqq] at h2
    have h3 : (self.path ++ [j]) <+: (self.path ++ [i]) :=
      List.prefix_of_prefix_length_le h1 h2 (by simp)
    have h4 := h3.eq_of_length (by simp)
    have h5 : j = i := by simpa using h4
    omega
end

/-- C14: for every scene, the joints `load` obtains from `travel(root, NULL, jn)` are exactly
the nodes carrying a skeleton attribute, listed in depth-first pre-order with the children in
child-index order, each paired with its nearest proper ancestor carrying a skeleton attribute
(none when there is no such ancestor); the pre-order enumeration visits no node twice, so
every joint is returned exactly once. -/
theorem sceneJoints_eq_jointsInPreorder (scene : FbxScene) :
    sceneJoints scene = jointsInPreorder scene.root ∧
      ((preorder scene.root [] none).map FbxNodePtr.path).Nodup ∧
      ((sceneJoints scene).map (fun x => x.pNode.path)).Nodup := by
  have heq : sceneJoints scene = jointsInPreorder scene.root :=
    travel_eq_preorder scene.root [] none
  have hnd := preorder_paths_nodup scene.root [] none
  refine ⟨heq, hnd, ?_⟩
  rw [heq]
  simp only [jointsInPreorder, List.map_map]
  exact (List.filter_sublist _).map FbxNodePtr.path |>.nodup hnd

/-! ## What the joint loops of `readFBXs` write into the slots -/

theorem setBlk4_coeff (M M1 : DenseMat (Option ℚ)) (k j : Nat) (A : Option Matrix4d)
    (h : setBlk4 M k j A = some M1) :
    blk4Is M1 k j A ∧
    ∀ i c, (i < k * 4 ∨ k * 4 + 4 ≤ i ∨ c < j * 4 ∨ j * 4 + 4 ≤ c) →
      M1.coeff i c = M.coeff i c := by
  obtain ⟨_, _, _, _, _, _, hc⟩ := DenseMat.setBlock_some _ _ _ _ _ _ _ _ _ h
  constructor
  · intro a ha b hb
    rw [hc]
    have hin : k * 4 ≤ k * 4 + a ∧ k * 4 + a < k * 4 + 4 ∧ j * 4 ≤ j * 4 + b ∧
        j * 4 + b < j * 4 + 4 := ⟨by omega, by omega, by omega, by omega⟩
    simp only [if_pos hin, Nat.add_sub_cancel_left]
  · intro i c hout
    rw [hc]
    have hnot : ¬ (k * 4 ≤ i ∧ i < k * 4 + 4 ∧ j * 4 ≤ c ∧ c < j * 4 + 4) := by omega
    simp only [if_neg hnot]

theorem setVec3_coeff (M M1 : DenseMat (Option Int)) (k j : Nat)
    (code : Option (Int × Int × Int)) (h : setVec3 M k j code = some M1) :
    vec3Is M1 k j code ∧
    ∀ i c, (i < k * 3 ∨ k * 3 + 3 ≤ i ∨ c < j ∨ j + 1 ≤ c) → M1.coeff i c = M.coeff i c := by
  obtain ⟨_, _, _, _, _, _, hc⟩ := DenseMat.setBlock_some _ _ _ _ _ _ _ _ _ h
  constructor
  · intro a ha
    rw [hc]
    have hin : k * 3 ≤ k * 3 + a ∧ k * 3 + a < k * 3 + 3 ∧ j ≤ j ∧ j < j + 1 :=
      ⟨by omega, by omega, by omega, by omega⟩
    simp only [if_pos hin, Nat.add_sub_cancel_left, Nat.sub_self]
  · intro i c hout
    rw [hc]
    have hnot : ¬ (k * 3 ≤ i ∧ i < k * 3 + 3 ∧ j ≤ c ∧ c < j + 1) := by omega
    simp only [if_neg hnot]

theorem StrMap.find_touch_getD {α : Type} (m : StrMap (Option α)) (k k2 : String) :
    ((m.touch k none).find k2).getD none = (m.find k2).getD none := by
  unfold StrMap.touch
  cases hk : m.find k with
  | some v => rfl
  | none =>
    simp only
    by_cases h : k = k2
    · subst h
      rw [StrMap.find_set_same, hk]
      rfl
    · rw [StrMap.find_set_other _ _ _ _ h]

theorem initJoints_slots (s : Nat) (imp : FbxSceneImporter) (names : List String) (j : Nat)
    (model model1 : DemBonesExt) (ro ro1 : StrMap (Option (Int × Int × Int)))
    (h : initJoints s imp names j (model, ro) = some (model1, ro1)) :
    (∀ i c, (i < s * 4 ∨ s * 4 + 4 ≤ i ∨ c < j * 4) →
      model1.bind.coeff i c = model.bind.coeff i c) ∧
    (∀ i c, (i < s * 4 ∨ s * 4 + 4 ≤ i ∨ c < j * 4) →
      model1.preMulInv.coeff i c = model.preMulInv.coeff i c) ∧
    (∀ i c, (i < s * 3 ∨ s * 3 + 3 ≤ i ∨ c < j) →
      model1.rotOrder.coeff i c = model.rotOrder.coeff i c) ∧
    ∀ k nj, names[k]? = some nj →
      blk4Is model1.bind s (j + k) (imp.bind.find nj) ∧
      blk4Is model1.preMulInv s (j + k) (imp.preMulInv.find nj) ∧
      vec3Is model1.rotOrder s (j + k) ((ro.find nj).getD none) := by
  induction names generalizing j model ro with
  | nil =>
    simp only [initJoints, Option.some.injEq, Prod.mk.injEq] at h
    obtain ⟨h1, _⟩ := h
    subst h1
    refine ⟨fun _ _ _ => rfl, fun _ _ _ => rfl, fun _ _ _ => rfl, ?_⟩
    intro k nj hk
    simp at hk
  | cons n0 names ih =>
    simp only [initJoints] at h
    cases hp : model.parent.setAt j (findParent model.boneName 0 (parentNameOf imp n0) (-1)) with
    | none => simp [hp] at h
    | some par =>
      cases hb : setBlk4 model.bind s j (imp.bind.find n0) with
      | none => simp [hp, hb] at h
      | some bd =>
        cases hq : setBlk4 model.preMulInv s j (imp.preMulInv.find n0) with
        | none => simp [hp, hb, hq] at h
        | some pm =>
          cases hr : setVec3 model.rotOrder s j ((ro.find n0).getD none) with
          | none => simp [hp, hb, hq, hr] at h
          | some rt =>
            simp only [hp, hb, hq, hr] at h
            obtain ⟨f1, f2, f3, sl⟩ := ih _ _ _ h
            obtain ⟨b1, b2⟩ := setBlk4_coeff _ _ _ _ _ hb
            obtain ⟨q1, q2⟩ := setBlk4_coeff _ _ _ _ _ hq
            obtain ⟨r1, r2⟩ := setVec3_coeff _ _ _ _ _ hr
            refine ⟨?_, ?_, ?_, ?_⟩
            · intro i c hic
              rw [f1 i c (by omega)]
              exact b2 i c (by omega)
            · intro i c hic
              rw [f2 i c (by omega)]
              exact q2 i c (by omega)
            · intro i c hic
              rw [f3 i c (by omega)]
              exact r2 i c (by omega)
            · intro k nj hk
              cases k with
              | zero =>
                simp only [List.getElem?_cons_zero, Option.some.injEq] at hk
                subst hk
                refine ⟨?_, ?_, ?_⟩
                · intro a ha b hb4
                  rw [Nat.add_zero, f1 _ _ (by omega)]
                  exact b1 a ha b hb4
                · intro a ha b hb4
                  rw [Nat.add_zero, f2 _ _ (by omega)]
                  exact q1 a ha b hb4
                · intro a ha
                  rw [Nat.add_zero, f3 _ _ (by omega)]
                  exact r1 a ha
              | succ k =>
                rw [List.getElem?_cons_succ] at hk
                obtain ⟨s1, s2, s3⟩ := sl k nj hk
                have hjk : j + (k + 1) = j + 1 + k := by omega
                rw [hjk]
                rw [StrMap.find_touch_getD] at s3
                exact ⟨s1, s2, s3⟩

theorem mergeJoints_slots (s : Nat) (imp : FbxSceneImporter) (names : List String) (j : Nat)
    (model model1 : DemBonesExt) (h : mergeJoints s imp names j model = (Status.ok, model1)) :
    (∀ i c, (i < s * 4 ∨ s * 4 + 4 ≤ i ∨ c < j * 4) →
      model1.bind.coeff i c = model.bind.coeff i c) ∧
    (∀ i c, (i < s * 4 ∨ s * 4 + 4 ≤ i ∨ c < j * 4) →
      model1.preMulInv.coeff i c = model.preMulInv.coeff i c) ∧
    (∀ i c, (i < s * 3 ∨ s * 3 + 3 ≤ i ∨ c < j) →
      model1.rotOrder.coeff i c = model.rotOrder.coeff i c) ∧
    ∀ k nj, names[k]? = some nj →
      blk4Is model1.bind s (j + k) (imp.bind.find nj) ∧
      blk4Is model1.preMulInv s (j + k) (imp.preMulInv.find nj) ∧
      vec3Is model1.rotOrder s (j + k) ((imp.rotOrder.find nj).getD none) := by
  induction names generalizing j model with
  | nil =>
    simp only [mergeJoints, Prod.mk.injEq, true_and] at h
    subst h
    refine ⟨fun _ _ _ => rfl, fun _ _ _ => rfl, fun _ _ _ => rfl, ?_⟩
    intro k nj hk
    simp at hk
  | cons n0 names ih =>
    simp only [mergeJoints] at h
    cases hP : imp.parent.find n0 with
    | none => simp [hP] at h
    | some pn =>
      cases hA : aggregateParentName model j with
      | none => simp [hP, hA] at h
      | some pName =>
        by_cases hne : pn ≠ pName
        · simp [hP, hA, hne] at h
        · have heq : pn = pName := by simpa using hne
          cases hB : imp.bind.find n0 with
          | none => simp [hP, hA, heq, hB] at h
          | some b =>
            cases hbd : setBlk4 model.bind s j (some b) with
            | none => simp [hP, hA, heq, hB, hbd] at h
            | some bd =>
              cases hQ : imp.preMulInv.find n0 with
              | none => simp [hP, hA, heq, hB, hbd, hQ] at h
              | some p =>
                cases hpm : setBlk4 model.preMulInv s j (some p) with
                | none => simp [hP, hA, heq, hB, hbd, hQ, hpm] at h
                | some pm =>
                  cases hR : imp.rotOrder.find n0 with
                  | none => simp [hP, hA, heq, hB, hbd, hQ, hpm, hR] at h
                  | some code =>
                    cases hrt : setVec3 model.rotOrder s j code with
                    | none => simp [hP, hA, heq, hB, hbd, hQ, hpm, hR, hrt] at h
                    | some rt =>
                      simp only [hP, hA, heq, hB, hbd, hQ, hpm, hR, hrt, ne_eq,
                        not_true_eq_false, if_false] at h
                      obtain ⟨f1, f2, f3, sl⟩ := ih _ _ h
                      obtain ⟨b1, b2⟩ := setBlk4_coeff _ _ _ _ _ hbd
                      obtain ⟨q1, q2⟩ := setBlk4_coeff _ _ _ _ _ hpm
                      obtain ⟨r1, r2⟩ := setVec3_coeff _ _ _ _ _ hrt
                      refine ⟨?_, ?_, ?_, ?_⟩
                      · intro i c hic
                        rw [f1 i c (by omega)]
                        exact b2 i c (by omega)
                      · intro i c hic
                        rw [f2 i c (by omega)]
                        exact q2 i c (by omega)
                      · intro i c hic
                        rw [f3 i c (by omega)]
                        exact r2 i c (by omega)
                      · intro k nj hk
                        cases k with
                        | zero =>
                          simp only [List.getElem?_cons_zero, Option.some.injEq] at hk
                          subst hk
                          refine ⟨?_, ?_, ?_⟩
                          · intro a ha b4 hb4
                            rw [Nat.add_zero, f1 _ _ (by omega), hB]
                            exact b1 a ha b4 hb4
                          · intro a ha b4 hb4
                            rw [Nat.add_zero, f2 _ _ (by omega), hQ]
                            exact q1 a ha b4 hb4
                          · intro a ha
                            rw [Nat.add_zero, f3 _ _ (by omega), hR]
                            exact r1 a ha
                        | succ k =>
                          rw [List.getElem?_cons_succ] at hk
                          obtain ⟨s1, s2, s3⟩ := sl k nj hk
                          have hjk : j + (k + 1) = j + 1 + k := by omega
                          rw [hjk]
                          exact ⟨s1, s2, s3⟩

theorem writeSeries_found (s nFr : Nat) (imp : FbxSceneImporter) (names : List String)
    (j : Nat) (M M1 : DenseMat (Option ℚ))
    (h : writeSeries s nFr imp names j M = some M1) :
    ∀ nj ∈ names, (imp.m.find nj).isSome := by
  induction names generalizing j M with
  | nil =>
    intro nj hnj
    simp at hnj
  | cons n0 names ih =>
    simp only [writeSeries] at h
    cases hf : imp.m.find n0 with
    | none =>
      simp only [hf] at h
      have hnone : M.setBlock (s * 4) (j * 4) (nFr * 4) 4 0 0 (fun _ _ => none) = none := by
        unfold DenseMat.setBlock
        rw [if_neg (by omega)]
      simp [hnone] at h
    | some frames =>
      simp only [hf] at h
      cases hb : M.setBlock (s * 4) (j * 4) (nFr * 4) 4 (4 * frames.length) 4
          (seriesSrc frames) with
      | none => simp [hb] at h
      | some M2 =>
        simp only [hb] at h
        intro nj hnj
        rcases List.mem_cons.mp hnj with hnj | hnj
        · rw [hnj, hf]
          rfl
        · exact ih _ _ h nj hnj

/-- After a successful `load` a name with a series in `m` has a bind transform and a
correction matrix. -/
theorem load_ok_series_names (imp : FbxSceneImporter) (scene : FbxScene) (fTime : List ℚ)
    (imp1 : FbxSceneImporter) (h : load imp scene fTime = Except.ok imp1) (k : String)
    (hk : (imp1.m.find k).isSome) :
    (imp1.bind.find k).isSome ∧ (imp1.preMulInv.find k).isSome := by
  obtain ⟨mesh, sk, _, _, _, _, _, _, _, _, hb, hq, _, _, hm⟩ := load_ok _ _ _ _ h
  rw [hm, seriesTable_find_eq] at hk
  rw [hb, hq, tableOf_find_eq, tableOf_find_eq]
  cases hl : lastNamed (sceneJoints scene) k with
  | none =>
    rw [hl] at hk
    simp [StrMap.find] at hk
  | some y => exact ⟨rfl, rfl⟩

theorem stateBefore_succ (fsys : String → Option FbxScene) (fileNames : List String)
    (model : DemBonesExt) (i : Nat) (sti sti1 : ReadState)
    (h : stateBefore fsys fileNames model i = some sti)
    (hstep : readSubject fsys fileNames i sti = Step.next sti1) :
    stateBefore fsys fileNames model (i + 1) = some sti1 := by
  unfold stateBefore at h ⊢
  cases hl : readLoop fsys fileNames i 0 (initialState model) with
  | stop r m => simp [hl] at h
  | next st2 =>
    simp only [hl, Option.some.injEq] at h
    subst h
    rw [readLoop_add, hl]
    simp only [readLoop, Nat.zero_add, hstep]

/-- A first pass that goes on has found a series in `m` under every joint name: the block
written from an absent entry would have the wrong size. -/
theorem initSubject_series (s nFr : Nat) (model : DemBonesExt) (imp : FbxSceneImporter)
    (wd : DenseMat ℚ) (hkf : Bool) (st1 : ReadState)
    (h : initSubject s nFr model imp wd hkf = Step.next st1) :
    ∀ nj ∈ imp.jointName, (imp.m.find nj).isSome := by
  unfold initSubject at h
  by_cases hv : imp.v.length ≠ model.nV
  · simp [hv] at h
  · simp only [hv, if_false] at h
    cases hu : (model.u.resize (model.nS * 3) model.nV).setBlock 0 0 3 model.nV 3 imp.v.length
        (fun i c => if h : i < 3 then (imp.v[c]?).map (fun p => p ⟨i, h⟩) else none) with
    | none => simp [hu] at h
    | some u1 =>
      simp only [hu] at h
      cases hj : initJoints s imp imp.jointName 0
        ({ model with
            u := u1
            fv := imp.fv
            nB := imp.jointName.length
            boneName := imp.jointName
            parent := model.parent.resize imp.jointName.length
            bind := model.bind.resize (model.nS * 4) (imp.jointName.length * 4)
            preMulInv := model.preMulInv.resize (model.nS * 4) (imp.jointName.length * 4)
            rotOrder := model.rotOrder.resize (model.nS * 3) imp.jointName.length },
          imp.rotOrder) with
      | none => simp [hj] at h
      | some res =>
        obtain ⟨model1, ro⟩ := res
        simp only [hj] at h
        obtain ⟨_, _, _, b3, _⟩ := initJoints_keeps _ _ _ _ _ _ _ _ hj
        have b3 : model1.boneName = imp.jointName := b3
        by_cases hw : imp.wT.size ≠ 0
        · rw [if_pos hw] at h
          cases hi : initWeights imp model1.boneName 0 (zeroMat model1.nB model1.nV) with
          | none => simp [hi] at h
          | some wd1 =>
            simp only [hi] at h
            obtain ⟨M, hM, _⟩ := finishSubject_next _ _ _ _ _ _ _ h
            intro nj hnj
            exact writeSeries_found _ _ _ _ _ _ _ hM nj (by rw [b3]; exact hnj)
        · rw [if_neg hw] at h
          obtain ⟨M, hM, _⟩ := finishSubject_next _ _ _ _ _ _ _ h
          intro nj hnj
          exact writeSeries_found _ _ _ _ _ _ _ hM nj (by rw [b3]; exact hnj)

theorem rotOrderTable_find_not_code (jn : List JointNode)
    (t : StrMap (Option (Int × Int × Int))) (k : String)
    (hk : ∀ y ∈ jn, y.name = k → rotOrderCode y.pNode.node.rotationOrder = none) :
    (rotOrderTable jn t).find k = t.find k := by
  induction jn generalizing t with
  | nil => rfl
  | cons y rest ih =>
    simp only [rotOrderTable]
    rw [ih _ (fun z hz => hk z (List.mem_cons_of_mem _ hz))]
    cases hc : rotOrderCode y.pNode.node.rotationOrder with
    | none => rfl
    | some code =>
      simp only
      have hne : y.name ≠ k := by
        intro hn
        rw [hk y (List.mem_cons_self _ _) hn] at hc
        simp at hc
      exact StrMap.find_set_other _ _ _ _ hne

theorem rotOrderTable_find_of_nodup (jn : List JointNode)
    (t : StrMap (Option (Int × Int × Int))) (x : JointNode) (hx : x ∈ jn)
    (hnd : (jn.map JointNode.name).Nodup) (c : Int × Int × Int)
    (hc : rotOrderCode x.pNode.node.rotationOrder = some c) :
    (rotOrderTable jn t).find x.name = some (some c) := by
  induction jn generalizing t with
  | nil => simp at hx
  | cons y rest ih =>
    simp only [List.map_cons, List.nodup_cons] at hnd
    obtain ⟨hy, hrest⟩ := hnd
    simp only [rotOrderTable]
    rcases List.mem_cons.mp hx with hxy | hxr
    · subst hxy
      rw [rotOrderTable_find_not_code rest _ x.name
        (fun z hz hn => absurd (List.mem_map.mpr ⟨z, hz, hn⟩) hy), hc]
      exact StrMap.find_set_same _ _ _
    · exact ih _ hxr hrest

theorem loadSubject_of_load (fsys : String → Option FbxScene) (fileNames : List String)
    (s : Nat) (st : ReadState) (scene : FbxScene) (a b : Nat) (imp : FbxSceneImporter)
    (hscene : subjectScene fsys fileNames s = some scene)
    (hrange : frameRange st.model s = some (a, b))
    (hload : load st.importer scene (segment st.model.fTime a b) = Except.ok imp) :
    loadSubject fsys fileNames s st = some imp := by
  simp [loadSubject, hscene, hrange, hload, Except.toOption]

/-- What the slots hold when `readFBXs` returns `true`: for every subject `s` and every
bone `j`, the tables `load` resolved for subject `s` hold a bind transform and a correction
matrix under the name `boneName[j]`, slot `(s, j)` of `model.bind` and `model.preMulInv`
holds those matrices, and slot `(s, j)` of `model.rotOrder` holds the entry of the
importer's `rotOrder` table under that name. -/
theorem readFBXs_ok_slots (fsys : String → Option FbxScene)
    (fileNames : List String) (model : DemBonesExt)
    (h : (readFBXs fsys fileNames model).ret = Status.ok) :
    ∀ s, s < model.nS →
      ∃ st imp scene, stateBefore fsys fileNames model s = some st ∧
        subjectScene fsys fileNames s = some scene ∧
        loadSubject fsys fileNames s st = some imp ∧
        (∀ j nj, (readFBXs fsys fileNames model).model.boneName[j]? = some nj →
          ∃ B P, imp.bind.find nj = some B ∧ imp.preMulInv.find nj = some P ∧
            blk4Is (readFBXs fsys fileNames model).model.bind s j (some B) ∧
            blk4Is (readFBXs fsys fileNames model).model.preMulInv s j (some P) ∧
            vec3Is (readFBXs fsys fileNames model).model.rotOrder s j
              ((imp.rotOrder.find nj).getD none)) ∧
        (((sceneJoints scene).map JointNode.name).Nodup →
          ∀ x ∈ sceneJoints scene, ∀ c,
            rotOrderCode x.pNode.node.rotationOrder = some c →
            imp.rotOrder.find x.name = some (some c)) ∧
        (∀ k, (∀ y ∈ sceneJoints scene, y.name = k →
            rotOrderCode y.pNode.node.rotationOrder = none) →
          imp.rotOrder.find k = st.importer.rotOrder.find k) := by
  obtain ⟨_, stf, hloop, hres⟩ := readFBXs_ok fsys fileNames model h
  have hinv := readLoop_invariant fsys fileNames
    (fun i sti => stateBefore fsys fileNames model i = some sti ∧
      ∀ s, s < i → ∃ st imp scene fT, stateBefore fsys fileNames model s = some st ∧
        subjectScene fsys fileNames s = some scene ∧
        loadSubject fsys fileNames s st = some imp ∧
        load st.importer scene fT = Except.ok imp ∧
        ∀ j nj, sti.model.boneName[j]? = some nj →
          ∃ B P, imp.bind.find nj = some B ∧ imp.preMulInv.find nj = some P ∧
            blk4Is sti.model.bind s j (some B) ∧
            blk4Is sti.model.preMulInv s j (some P) ∧
            vec3Is sti.model.rotOrder s j ((imp.rotOrder.find nj).getD none))
    model.nS 0 (initialState model) stf
    ⟨rfl, fun s hs => absurd hs (by omega)⟩
    (by
      intro i sti sti1 _ _ hP hstep
      obtain ⟨hsb, hprev⟩ := hP
      obtain ⟨scene, a, b, imp, hscene, hrange, hload, hbranch⟩ :=
        readSubject_next fsys fileNames i sti sti1 hstep
      have hls := loadSubject_of_load fsys fileNames i sti scene a b imp hscene hrange hload
      refine ⟨stateBefore_succ fsys fileNames model i sti sti1 hsb hstep, ?_⟩
      intro s hs
      by_cases hi : i = 0
      · subst hi
        have hs0 : s = 0 := by omega
        subst hs0
        rw [if_pos rfl] at hbranch
        obtain ⟨_, _, _, c4, _, _, _, _, _, u1, model1, ro, _, hj, _, _, d3, d4, d5, _⟩ :=
          initSubject_next _ _ _ _ _ _ _ hbranch
        obtain ⟨_, _, _, sl⟩ := initJoints_slots _ _ _ _ _ _ _ _ hj
        have hser := initSubject_series _ _ _ _ _ _ _ hbranch
        refine ⟨sti, imp, scene, _, hsb, hscene, hls, hload, ?_⟩
        intro j nj hj1
        rw [c4] at hj1
        have hmem : nj ∈ imp.jointName := List.mem_iff_getElem?.mpr ⟨j, hj1⟩
        obtain ⟨hb, hq⟩ := load_ok_series_names _ _ _ _ hload nj (hser nj hmem)
        obtain ⟨B, hB⟩ := Option.isSome_iff_exists.mp hb
        obtain ⟨P, hP⟩ := Option.isSome_iff_exists.mp hq
        obtain ⟨s1, s2, s3⟩ := sl j nj hj1
        rw [Nat.zero_add] at s1 s2 s3
        refine ⟨B, P, hB, hP, ?_, ?_, ?_⟩
        · rw [d3, ← hB]
          exact s1
        · rw [d4, ← hP]
          exact s2
        · rw [d5]
          exact s3
      · rw [if_neg hi] at hbranch
        obtain ⟨_, ⟨_, _, _, _, _, s6, s7, s8, s9, s10, s11⟩, _⟩ :=
          stateBefore_reached fsys fileNames model i sti (by omega) hsb
        obtain ⟨_, _, _, _, _, _, c7, _, _, _, _, _, _, _, _, hall⟩ :=
          mergeSubject_next _ _ _ _ _ _ _ hbranch
        obtain ⟨u1, model1, wd1, M, _, hmj, _, _, hst⟩ :=
          mergeSubject_next_parts _ _ _ _ _ _ _ hbranch
        obtain ⟨f1, f2, f3, sl⟩ := mergeJoints_slots _ _ _ _ _ _ hmj
        have e1 : sti.model.bind.resize (sti.model.nS * 4) (sti.model.nB * 4)
            = sti.model.bind := DenseMat.resize_same _ _ _ s6 s7
        have e2 : sti.model.preMulInv.resize (sti.model.nS * 4) (sti.model.nB * 4)
            = sti.model.preMulInv := DenseMat.resize_same _ _ _ s8 s9
        have e3 : sti.model.rotOrder.resize (sti.model.nS * 3) sti.model.nB
            = sti.model.rotOrder := DenseMat.resize_same _ _ _ s10 s11
        have g1 : ∀ r c, r < i * 4 → sti1.model.bind.coeff r c = sti.model.bind.coeff r c := by
          intro r c hr
          rw [hst]
          show model1.bind.coeff r c = _
          rw [f1 r c (Or.inl hr)]
          show (sti.model.bind.resize _ _).coeff r c = _
          rw [e1]
        have g2 : ∀ r c, r < i * 4 →
            sti1.model.preMulInv.coeff r c = sti.model.preMulInv.coeff r c := by
          intro r c hr
          rw [hst]
          show model1.preMulInv.coeff r c = _
          rw [f2 r c (Or.inl hr)]
          show (sti.model.preMulInv.resize _ _).coeff r c = _
          rw [e2]
        have g3 : ∀ r c, r < i * 3 →
            sti1.model.rotOrder.coeff r c = sti.model.rotOrder.coeff r c := by
          intro r c hr
          rw [hst]
          show model1.rotOrder.coeff r c = _
          rw [f3 r c (Or.inl hr)]
          show (sti.model.rotOrder.resize _ _).coeff r c = _
          rw [e3]
        by_cases hsi : s = i
        · subst hsi
          refine ⟨sti, imp, scene, _, hsb, hscene, hls, hload, ?_⟩
          intro j nj hj1
          rw [c7] at hj1
          obtain ⟨pn, _, _, hb, hq, _⟩ := hall j nj hj1
          obtain ⟨B, hB⟩ := Option.isSome_iff_exists.mp hb
          obtain ⟨P, hP⟩ := Option.isSome_iff_exists.mp hq
          obtain ⟨s1, s2, s3⟩ := sl j nj hj1
          rw [Nat.zero_add] at s1 s2 s3
          rw [hst]
          refine ⟨B, P, hB, hP, ?_, ?_, ?_⟩
          · rw [← hB]
            exact s1
          · rw [← hP]
            exact s2
          · exact s3
        · obtain ⟨st0, imp0, sc0, fT0, p1, p2, p3, p4, p5⟩ := hprev s (by omega)
          refine ⟨st0, imp0, sc0, fT0, p1, p2, p3, p4, ?_⟩
          intro j nj hj1
          rw [c7] at hj1
          obtain ⟨B, P, hB, hP, t1, t2, t3⟩ := p5 j nj hj1
          refine ⟨B, P, hB, hP, ?_, ?_, ?_⟩
          · intro a ha b hb
            rw [g1 _ _ (by omega)]
            exact t1 a ha b hb
          · intro a ha b hb
            rw [g2 _ _ (by omega)]
            exact t2 a ha b hb
          · intro a ha
            rw [g3 _ _ (by omega)]
            exact t3 a ha)
    hloop
  rw [Nat.zero_add] at hinv
  intro s hs
  obtain ⟨st0, imp0, sc0, fT0, p1, p2, p3, p4, p5⟩ := hinv.2 s hs
  obtain ⟨_, _, _, _, _, _, _, _, _, _, _, _, hr, _⟩ := load_ok _ _ _ _ p4
  refine ⟨st0, imp0, sc0, p1, p2, p3, ?_, ?_, ?_⟩
  · intro j nj hj1
    rw [hres] at hj1 ⊢
    exact p5 j nj hj1
  · intro hnd x hx c hc
    rw [hr]
    exact rotOrderTable_find_of_nodup _ _ x hx hnd c hc
  · intro k hk
    rw [hr]
    exact rotOrderTable_find_not_code _ _ k hk

/-- C11 (counterexample): a single subject whose joint `A` has the rotation order
`eSphericXYZ` is read with success; `load` records no rotation-order code under the bone
name `A`, and slot (0, A) of `model.rotOrder` holds the default-constructed vector that
reading `importer.rotOrder[A]` inserts. -/
theorem readFBXs_ok_slot_without_record :
    (readFBXs (oneFile (exSceneOrder "A" EFbxRotationOrder.eSphericXYZ)) ["s0.fbx"]
        (emptyModel 1 1 1 [0, 1] [0])).ret = Status.ok ∧
    (readFBXs (oneFile (exSceneOrder "A" EFbxRotationOrder.eSphericXYZ)) ["s0.fbx"]
        (emptyModel 1 1 1 [0, 1] [0])).model.boneName = ["A"] ∧
    (loadSubject (oneFile (exSceneOrder "A" EFbxRotationOrder.eSphericXYZ)) ["s0.fbx"] 0
        (initialState (emptyModel 1 1 1 [0, 1] [0]))).map
      (fun imp => imp.rotOrder.find "A") = some none ∧
    (List.range 3).map (fun a =>
      (readFBXs (oneFile (exSceneOrder "A" EFbxRotationOrder.eSphericXYZ)) ["s0.fbx"]
        (emptyModel 1 1 1 [0, 1] [0])).model.rotOrder.coeff a 0) = [none, none, none] := by
  decide!

theorem rotOrderTable_find_of_code (jn : List JointNode)
    (t : StrMap (Option (Int × Int × Int))) (k : String)
    (hx : ∃ x ∈ jn, x.name = k ∧ (rotOrderCode x.pNode.node.rotationOrder).isSome) :
    ∃ y ∈ jn, y.name = k ∧ ∃ c, rotOrderCode y.pNode.node.rotationOrder = some c ∧
      (rotOrderTable jn t).find k = some (some c) := by
  induction jn generalizing t with
  | nil =>
    obtain ⟨x, hmem, _⟩ := hx
    simp at hmem
  | cons y rest ih =>
    simp only [rotOrderTable]
    by_cases hr : ∃ x ∈ rest, x.name = k ∧ (rotOrderCode x.pNode.node.rotationOrder).isSome
    · obtain ⟨z, hz, hn, c, hc, hf⟩ := ih _ hr
      exact ⟨z, List.mem_cons_of_mem _ hz, hn, c, hc, hf⟩
    · obtain ⟨x, hmem, hn, hcode⟩ := hx
      rcases List.mem_cons.mp hmem with hxy | hxr
      · subst hxy
        obtain ⟨c, hc⟩ := Option.isSome_iff_exists.mp hcode
        refine ⟨x, List.mem_cons_self _ _, hn, c, hc, ?_⟩
        rw [rotOrderTable_find_not_code rest _ k, hc]
        · simp only
          rw [← hn]
          exact StrMap.find_set_same _ _ _
        · intro z hz hzn
          by_contra hne
          apply hr
          refine ⟨z, hz, hzn, ?_⟩
          cases hcz : rotOrderCode z.pNode.node.rotationOrder with
          | none => exact absurd hcz hne
          | some _ => rfl
      · exact absurd ⟨x, hxr, hn, hcode⟩ hr

/-- C11 (amended): when `readFBXs` returns `true`, then for every subject `s`, subject 0
included, and every bone `j`, the tables `load` resolved for subject `s` hold a bind
transform and an ancestor-correction matrix under the name `boneName[j]`, and slot `(s, j)`
of `model.bind` and of `model.preMulInv` holds exactly those matrices. Where a joint of
subject `s` with that name has one of the six Euler rotation orders, the `rotOrder` table
holds the code of such a joint under the name (the joint's own when the joint names of the
subject are pairwise distinct) and slot `(s, j)` of `model.rotOrder` holds that code. -/
theorem readFBXs_slots_hold_records (fsys : String → Option FbxScene)
    (fileNames : List String) (model : DemBonesExt)
    (h : (readFBXs fsys fileNames model).ret = Status.ok) :
    ∀ s, s < model.nS →
      ∃ st imp scene, stateBefore fsys fileNames model s = some st ∧
        subjectScene fsys fileNames s = some scene ∧
        loadSubject fsys fileNames s st = some imp ∧
        ∀ j nj, (readFBXs fsys fileNames model).model.boneName[j]? = some nj →
          (∃ B P, imp.bind.find nj = some B ∧ imp.preMulInv.find nj = some P ∧
            blk4Is (readFBXs fsys fileNames model).model.bind s j (some B) ∧
            blk4Is (readFBXs fsys fileNames model).model.preMulInv s j (some P)) ∧
          ((∃ x ∈ sceneJoints scene, x.name = nj ∧
              (rotOrderCode x.pNode.node.rotationOrder).isSome) →
            ∃ y ∈ sceneJoints scene, y.name = nj ∧
              ∃ c, rotOrderCode y.pNode.node.rotationOrder = some c ∧
                imp.rotOrder.find nj = some (some c) ∧
                vec3Is (readFBXs fsys fileNames model).model.rotOrder s j (some c)) ∧
          (((sceneJoints scene).map JointNode.name).Nodup →
            ∀ x ∈ sceneJoints scene, x.name = nj → ∀ c,
              rotOrderCode x.pNode.node.rotationOrder = some c →
              imp.rotOrder.find nj = some (some c) ∧
              vec3Is (readFBXs fsys fileNames model).model.rotOrder s j (some c)) := by
  intro s hs
  obtain ⟨st, imp, scene, h1, h2, h3, hslots, hnd, _⟩ :=
    readFBXs_ok_slots fsys fileNames model h s hs
  obtain ⟨scene1, fT, h2a, hload⟩ := loadSubject_load fsys fileNames s st imp h3
  have hsc : scene1 = scene := by
    rw [h2] at h2a
    exact (Option.some.inj h2a).symm
  subst hsc
  obtain ⟨_, _, _, _, _, _, _, _, _, _, _, _, hr, _⟩ := load_ok _ _ _ _ hload
  refine ⟨st, imp, scene1, h1, h2, h3, ?_⟩
  intro j nj hj
  obtain ⟨B, P, hB, hP, t1, t2, t3⟩ := hslots j nj hj
  refine ⟨⟨B, P, hB, hP, t1, t2⟩, ?_, ?_⟩
  · intro hx
    obtain ⟨y, hy, hn, c, hc, hf⟩ :=
      rotOrderTable_find_of_code (sceneJoints scene1) st.importer.rotOrder nj hx
    rw [← hr] at hf
    refine ⟨y, hy, hn, c, hc, hf, ?_⟩
    rw [hf] at t3
    exact t3
  · intro hnodup x hx hn c hc
    have hf := hnd hnodup x hx c hc
    rw [hn] at hf
    refine ⟨hf, ?_⟩
    rw [hf] at t3
    exact t3

/-- C11 (amended), at subject 1 of two subjects that both hold the chain of the joints `a`
and `b`. -/
theorem readFBXs_slots_hold_records_witness :
    ∃ st imp scene,
      stateBefore (twoFiles exSceneChain) ["s0.fbx", "s1.fbx"]
        (emptyModel 2 2 2 [0, 1, 2] [0, 1]) 1 = some st ∧
      subjectScene (twoFiles exSceneChain) ["s0.fbx", "s1.fbx"] 1 = some scene ∧
      loadSubject (twoFiles exSceneChain) ["s0.fbx", "s1.fbx"] 1 st = some imp ∧
      ∀ j nj, (readFBXs (twoFiles exSceneChain) ["s0.fbx", "s1.fbx"]
          (emptyModel 2 2 2 [0, 1, 2] [0, 1])).model.boneName[j]? = some nj →
        (∃ B P, imp.bind.find nj = some B ∧ imp.preMulInv.find nj = some P ∧
          blk4Is (readFBXs (twoFiles exSceneChain) ["s0.fbx", "s1.fbx"]
            (emptyModel 2 2 2 [0, 1, 2] [0, 1])).model.bind 1 j (some B) ∧
          blk4Is (readFBXs (twoFiles exSceneChain) ["s0.fbx", "s1.fbx"]
            (emptyModel 2 2 2 [0, 1, 2] [0, 1])).model.preMulInv 1 j (some P)) ∧
        ((∃ x ∈ sceneJoints scene, x.name = nj ∧
            (rotOrderCode x.pNode.node.rotationOrder).isSome) →
          ∃ y ∈ sceneJoints scene, y.name = nj ∧
            ∃ c, rotOrderCode y.pNode.node.rotationOrder = some c ∧
              imp.rotOrder.find nj = some (some c) ∧
              vec3Is (readFBXs (twoFiles exSceneChain) ["s0.fbx", "s1.fbx"]
                (emptyModel 2 2 2 [0, 1, 2] [0, 1])).model.rotOrder 1 j (some c)) ∧
        (((sceneJoints scene).map JointNode.name).Nodup →
          ∀ x ∈ sceneJoints scene, x.name = nj → ∀ c,
            rotOrderCode x.pNode.node.rotationOrder = some c →
            imp.rotOrder.find nj = some (some c) ∧
            vec3Is (readFBXs (twoFiles exSceneChain) ["s0.fbx", "s1.fbx"]
              (emptyModel 2 2 2 [0, 1, 2] [0, 1])).model.rotOrder 1 j (some c)) :=
  readFBXs_slots_hold_records (twoFiles exSceneChain) ["s0.fbx", "s1.fbx"]
    (emptyModel 2 2 2 [0, 1, 2] [0, 1]) (by decide!) 1 (by decide)

end DemBones
